import Mathlib

/-!
# Verification of the order lifecycle engine (kosmost/trader)

Shallow embedding of the engine code in `src/daemon/spruce.h`.  That file
contains, besides the `Spruce` class header, two embedded revisions of the
`Engine` implementation (`engine.cpp`), separated by document markers:

* "copy 1" (lines 178-1771), whose position containers live behind a
  `PositionMan` object, and
* "copy 2" (lines 1772-4462), whose containers (`positions_all`,
  `positions_queued`, `positions_active`, `positions_by_number`,
  `diverge_converge`, `diverging_converging`) are engine members and whose
  store operations (`setOrderMeat`, `deletePosition`) are fully present.

Where the two copies agree the logic is embedded once.  Where they differ
(`tryMoveOrder`, `processFilledOrders`) both variants are embedded and
compared.  `PositionMan`'s own implementation, `position.h`, `market.h` and
`coinamount.h` are not under `src/`; the small pieces of behaviour that
depend on them (the `Position` constructor, `Position::flip`,
`Position::applyOffset`, `PositionData::iterateFillCount`, default-valued
`MarketInfo` fields) are modelled from the spec, each marked with a
`Modelled from the spec:` doc comment.

Modelling conventions:

* `Coin` is embedded as `Rat`.  The spec declares fixed-point decimal
  arithmetic out of scope and assumes a `Coin` value type with exact
  comparison and ratio operations, so exact rational arithmetic is the
  sanctioned model.  A default-constructed `Coin()` is `0`.
* Qt times (`qint64` milliseconds) are embedded as `Int`; the ambient
  `QDateTime::currentMSecsSinceEpoch()` is passed as an explicit `now`
  argument.
* `QHash`/`QMap` containers are embedded as association lists with
  Qt `insert` semantics (replace the value when the key is present).
  The ordered `QMap<Coin, Position*>` used for fill sorting is embedded
  as a key-sorted association list (`qmapInsert`).
* Heap `Position*` pointers are embedded as `Nat` handles allocated from a
  monotone counter; the heap itself is an association list `store`.
* Transport calls (`rest->sendCancel`, `rest->sendBuySell`) are recorded as
  an event trace in the state; network bookkeeping (`nam_queue`) and
  logging (`kDebug`) have no further local effect and are dropped.
* The embedding models the `EXCHANGE_POLONIEX` build of the engine: the
  generic (non-BITTREX) fill-batch branch of `processOpenOrders` and
  `processTicker`, and the non-BINANCE order-id handling in `setOrderMeat`
  (the raw exchange id is stored).  String-level validation in
  `addPosition` (decimal re-formatting, over-precision) belongs to the
  out-of-scope `Coin` string layer and is not represented.
-/

namespace Trader

/-- Order side, `SIDE_BUY` / `SIDE_SELL`. -/
inductive Side where
  | buy
  | sell
deriving DecidableEq, Repr

/-- The opposite side. -/
def Side.flipped : Side → Side
  | Side.buy => Side.sell
  | Side.sell => Side.buy

/-- Cancel reasons, the `CANCELLING_FOR_*` constants.  `cnone` stands for the
default-initialized reason of a position that was never cancelled. -/
inductive CancelReason where
  | cnone
  | lowest
  | highest
  | user
  | maxAge
  | shortlong
  | slippageReset
  | dc
deriving DecidableEq, Repr

/-- A slot of a market's `position_index` (`PositionData`): the declarative
ping-pong plan `{buy_price, sell_price, order_size, alternate_size,
fill_count}`.  `alternate_size = none` embeds the empty alternate string. -/
structure PositionData where
  buy_price : Rat
  sell_price : Rat
  order_size : Rat
  alternate_size : Option Rat
  fill_count : Nat
deriving DecidableEq, Repr

instance : Inhabited PositionData := ⟨⟨0, 0, 0, none, 0⟩⟩

/-- Modelled from the spec: `PositionData::iterateFillCount` (position.h is
not under src/).  Each successful fill advances the slot's fill count, and
when an `alternate_size` is present the fill toggles which of the two sizes
is used next, so the current `order_size` and the stored alternate swap. -/
def PositionData.iterateFillCount (d : PositionData) : PositionData :=
  match d.alternate_size with
  | none => { d with fill_count := d.fill_count + 1 }
  | some a => { d with fill_count := d.fill_count + 1
                     , order_size := a
                     , alternate_size := some d.order_size }

/-- Per-market data (`MarketInfo` from market.h, which is not under src/);
only the fields read by the embedded engine functions are carried.
Modelled from the spec: a default-constructed `MarketInfo` has empty
containers and zero prices. -/
structure MarketInfo where
  order_prices : List Rat
  position_index : List PositionData
  highest_buy : Rat
  lowest_sell : Rat
  price_ticksize : Rat
deriving DecidableEq, Repr

instance : Inhabited MarketInfo := ⟨⟨[], [], 0, 0, 0⟩⟩

/-- A live or queued order (`Position`), fields as in the spec's data model.
`market_indices` are the slot indices the position spans. -/
structure Position where
  market : String
  side : Side
  market_indices : List Int
  buy_price : Rat
  sell_price : Rat
  buy_price_original : Rat
  sell_price_original : Rat
  price : Rat
  quantity : Rat
  btc_amount : Rat
  order_number : String
  strategy_tag : String
  is_onetime : Bool
  is_taker : Bool
  is_landmark : Bool
  is_slippage : Bool
  is_cancelling : Bool
  is_new_hilo_order : Bool
  order_request_time : Int
  order_set_time : Int
  order_cancel_time : Int
  order_getorder_time : Int
  max_age_minutes : Int
  price_reset_count : Nat
  cancel_reason : CancelReason
deriving DecidableEq, Repr

/-- `Position::getLowestMarketIndex`: the smallest entry of
`market_indices` (0 when the vector is empty, the qint32 default). -/
def Position.getLowestMarketIndex (p : Position) : Int :=
  match p.market_indices with
  | [] => 0
  | h :: t => t.foldl min h

/-- One step bound for the buy-side price ratchet of `tryMoveOrder`:
`while (x >= t && x < lo_sell - t && x < orig) x += t`.  Executed with
explicit fuel so that the definition is total and executable. -/
def ratchetUpGo : Nat → Rat → Rat → Rat → Rat → Rat
  | 0, _, _, _, x => x
  | n + 1, t, losell, orig, x =>
    if t ≤ x ∧ x < losell - t ∧ x < orig then ratchetUpGo n t losell orig (x + t) else x

/-- Fuel that dominates the number of iterations of the buy-side ratchet:
each step adds `t > 0` and the loop guard keeps the value below `bound`, so
for `0 < t` at most `(bound - x) / t ≤ its numerator` steps can run (a
rational is at most its numerator, the denominator being positive). -/
def ratchetFuelUp (t bound x : Rat) : Nat :=
  ((bound - x) / t).num.natAbs + 1

/-- The smaller of the two upper bounds of the buy-side ratchet loop. -/
def upBound (t losell orig : Rat) : Rat :=
  if losell - t ≤ orig then losell - t else orig

/-- The buy-side price ratchet loop of `tryMoveOrder` (both copies): starting
from the current buy price, step upward by `ticksize` while strictly below
`lo_sell - ticksize` and below `buy_price_original`. -/
def ratchetUp (t losell orig x : Rat) : Rat :=
  ratchetUpGo (ratchetFuelUp t (upBound t losell orig) x) t losell orig x

/-- One step bound for the sell-side price ratchet of `tryMoveOrder`:
`while (x > t*2 && x > hi_buy + t && x > orig) x -= t`. -/
def ratchetDownGo : Nat → Rat → Rat → Rat → Rat → Rat
  | 0, _, _, _, x => x
  | n + 1, t, hibuy, orig, x =>
    if t * 2 < x ∧ hibuy + t < x ∧ orig < x then ratchetDownGo n t hibuy orig (x - t) else x

/-- Fuel for the sell-side ratchet. -/
def ratchetFuelDown (t bound x : Rat) : Nat :=
  ((x - bound) / t).num.natAbs + 1

/-- The larger of the lower bounds of the sell-side ratchet loop. -/
def downBound (t hibuy orig : Rat) : Rat :=
  if hibuy + t ≤ orig then orig else hibuy + t

/-- The sell-side price ratchet loop of `tryMoveOrder` (both copies). -/
def ratchetDown (t hibuy orig x : Rat) : Rat :=
  ratchetDownGo (ratchetFuelDown t (downBound t hibuy orig) x) t hibuy orig x

/-- `Engine::tryMoveOrder`, first embedded copy (spruce.h lines 1300-1403).
Reads the market's latest `highest_buy`/`lowest_sell` and either snaps a
crossing price to one ticksize inside the spread or ratchets the price
toward its original value; returns the updated position and whether a
change was applied.  This copy guards the buy ratchet with
`lo_sell >= ticksize*2` and the sell ratchet with `hi_buy >= ticksize`;
the unset candidate (`Coin new_buy_price`) is the default `0`. -/
def tryMoveOrder1 (info : MarketInfo) (pos : Position) : Position × Bool :=
  let hi_buy := info.highest_buy
  let lo_sell := info.lowest_sell
  if hi_buy ≤ 0 ∨ lo_sell ≤ 0 then (pos, false) else
  let t := info.price_ticksize
  match pos.side with
  | Side.buy =>
    if lo_sell ≤ pos.buy_price ∧ t < lo_sell then
      ({ pos with buy_price := lo_sell - t, is_slippage := true }, true)
    else
      let nbp : Rat :=
        if t * 2 ≤ lo_sell then ratchetUp t lo_sell pos.buy_price_original pos.buy_price else 0
      if nbp ≠ pos.price ∧ 0 < nbp ∧ nbp ≤ pos.buy_price_original ∧
         nbp ≠ pos.buy_price ∧ nbp < lo_sell then
        ({ pos with buy_price := nbp, is_slippage := true }, true)
      else
        (pos, false)
  | Side.sell =>
    if pos.sell_price ≤ hi_buy then
      ({ pos with sell_price := hi_buy + t, is_slippage := true }, true)
    else
      let nsp : Rat :=
        if t ≤ hi_buy then ratchetDown t hi_buy pos.sell_price_original pos.sell_price else 0
      if nsp ≠ pos.price ∧ t < nsp ∧ pos.sell_price_original ≤ nsp ∧
         nsp ≠ pos.sell_price ∧ hi_buy < nsp then
        ({ pos with sell_price := nsp, is_slippage := true }, true)
      else
        (pos, false)

/-- `Engine::tryMoveOrder`, second embedded copy (spruce.h lines 3946-4049).
Identical to the first copy except that the buy ratchet is guarded by
`lo_sell.isGreaterThanZero()` and the sell ratchet by
`hi_buy.isGreaterThanZero()`. -/
def tryMoveOrder2 (info : MarketInfo) (pos : Position) : Position × Bool :=
  let hi_buy := info.highest_buy
  let lo_sell := info.lowest_sell
  if hi_buy ≤ 0 ∨ lo_sell ≤ 0 then (pos, false) else
  let t := info.price_ticksize
  match pos.side with
  | Side.buy =>
    if lo_sell ≤ pos.buy_price ∧ t < lo_sell then
      ({ pos with buy_price := lo_sell - t, is_slippage := true }, true)
    else
      let nbp : Rat :=
        if 0 < lo_sell then ratchetUp t lo_sell pos.buy_price_original pos.buy_price else 0
      if nbp ≠ pos.price ∧ 0 < nbp ∧ nbp ≤ pos.buy_price_original ∧
         nbp ≠ pos.buy_price ∧ nbp < lo_sell then
        ({ pos with buy_price := nbp, is_slippage := true }, true)
      else
        (pos, false)
  | Side.sell =>
    if pos.sell_price ≤ hi_buy then
      ({ pos with sell_price := hi_buy + t, is_slippage := true }, true)
    else
      let nsp : Rat :=
        if 0 < hi_buy then ratchetDown t hi_buy pos.sell_price_original pos.sell_price else 0
      if nsp ≠ pos.price ∧ t < nsp ∧ pos.sell_price_original ≤ nsp ∧
         nsp ≠ pos.sell_price ∧ hi_buy < nsp then
        ({ pos with sell_price := nsp, is_slippage := true }, true)
      else
        (pos, false)

/-- The buy-side ratchet never decreases the price when the ticksize is
nonnegative. -/
theorem ratchetUpGo_le (n : Nat) (t losell orig : Rat) :
    0 ≤ t → ∀ x : Rat, x ≤ ratchetUpGo n t losell orig x := by
  intro ht
  induction n with
  | zero => intro x; exact le_refl x
  | succ n ih =>
    intro x
    by_cases h : t ≤ x ∧ x < losell - t ∧ x < orig
    · calc x ≤ x + t := le_add_of_nonneg_right ht
        _ ≤ ratchetUpGo n t losell orig (x + t) := ih (x + t)
        _ = ratchetUpGo (n + 1) t losell orig x := by rw [ratchetUpGo, if_pos h]
    · rw [ratchetUpGo, if_neg h]

/-- The buy-side ratchet takes no step when its loop condition fails at the
start. -/
theorem ratchetUpGo_stop (n : Nat) (t losell orig x : Rat)
    (h : ¬(t ≤ x ∧ x < losell - t ∧ x < orig)) :
    ratchetUpGo n t losell orig x = x := by
  cases n with
  | zero => rfl
  | succ n => rw [ratchetUpGo, if_neg h]

unseal Rat.add Rat.sub Rat.mul Rat.inv in
/-- **C10 counterexample.**  A concrete sell position and market state on
which the two embedded copies of `Engine::tryMoveOrder` disagree: the
market's `highest_buy` (1/2) is positive but below the ticksize (1), and the
position's `sell_price` (4) sits above its `sell_price_original` (2).  The
first copy leaves the position unchanged and returns `false` (its candidate
price stays at the default-constructed `Coin()` = 0 because of the
`hi_buy >= ticksize` guard), while the second copy walks the sell price down
to 2, marks `is_slippage`, and returns `true`. -/
theorem claim_C10_counterexample :
    let info : MarketInfo :=
      { order_prices := [], position_index := []
      , highest_buy := mkRat 1 2, lowest_sell := mkRat 1 2, price_ticksize := 1 }
    let pos : Position :=
      { market := "XY", side := Side.sell, market_indices := [0]
      , buy_price := 1, sell_price := 4, buy_price_original := 1, sell_price_original := 2
      , price := 4, quantity := 1, btc_amount := 4
      , order_number := "x1", strategy_tag := ""
      , is_onetime := false, is_taker := false, is_landmark := false, is_slippage := false
      , is_cancelling := false, is_new_hilo_order := false
      , order_request_time := 0, order_set_time := 0, order_cancel_time := 0
      , order_getorder_time := 0, max_age_minutes := 0, price_reset_count := 0
      , cancel_reason := CancelReason.cnone }
    (tryMoveOrder1 info pos).2 = false ∧ (tryMoveOrder2 info pos).2 = true ∧
    (tryMoveOrder1 info pos).1.sell_price = 4 ∧ (tryMoveOrder2 info pos).1.sell_price = 2 ∧
    (tryMoveOrder2 info pos).1.is_slippage = true := by
  decide

/-- **C10 (amended).**  The two embedded copies of `tryMoveOrder` return the
same boolean and leave the position in the same state whenever the market's
`highest_buy` is at least one ticksize for sell positions; on the buy side
they agree unconditionally.  (As stated for every market state the claim is
false: `claim_C10_counterexample` exhibits a sell position with
`0 < highest_buy < ticksize` on which the copies disagree.) -/
theorem claim_C10 (info : MarketInfo) (pos : Position)
    (hs : pos.side = Side.sell → info.price_ticksize ≤ info.highest_buy) :
    tryMoveOrder1 info pos = tryMoveOrder2 info pos := by
  simp only [tryMoveOrder1, tryMoveOrder2]
  by_cases h0 : info.highest_buy ≤ 0 ∨ info.lowest_sell ≤ 0
  · simp only [if_pos h0]
  · simp only [if_neg h0]
    push_neg at h0
    cases hside : pos.side with
    | sell =>
      have hhb : info.price_ticksize ≤ info.highest_buy := hs hside
      simp only [if_pos hhb, if_pos h0.1]
    | buy =>
      by_cases hsnap : info.lowest_sell ≤ pos.buy_price ∧ info.price_ticksize < info.lowest_sell
      · simp only [if_pos hsnap]
      · simp only [if_neg hsnap]
        by_cases hg : info.price_ticksize * 2 ≤ info.lowest_sell
        · simp only [if_pos hg, if_pos h0.2]
        · simp only [if_neg hg, if_pos h0.2]
          have hstop : ratchetUp info.price_ticksize info.lowest_sell
              pos.buy_price_original pos.buy_price = pos.buy_price := by
            apply ratchetUpGo_stop
            rintro ⟨h1, h2, -⟩
            apply hg
            have h3 := lt_of_le_of_lt h1 h2
            linarith
          simp [hstop]

/-- The market state of the spec's scenario S5: `highest_buy = 99`,
`lowest_sell = 105`, ticksize 1. -/
def c6info : MarketInfo :=
  { order_prices := [], position_index := []
  , highest_buy := 99, lowest_sell := 105, price_ticksize := 1 }

/-- The buy position of scenario S5: `buy_price = 100`,
`buy_price_original = 100`. -/
def c6posA : Position :=
  { market := "XY", side := Side.buy, market_indices := [0]
  , buy_price := 100, sell_price := 110, buy_price_original := 100, sell_price_original := 110
  , price := 100, quantity := 1, btc_amount := 100
  , order_number := "x2", strategy_tag := ""
  , is_onetime := false, is_taker := false, is_landmark := false, is_slippage := false
  , is_cancelling := false, is_new_hilo_order := false
  , order_request_time := 0, order_set_time := 0, order_cancel_time := 0
  , order_getorder_time := 0, max_age_minutes := 0, price_reset_count := 0
  , cancel_reason := CancelReason.cnone }

/-- The same position with `buy_price_original = 105` (second half of
scenario S5). -/
def c6posB : Position := { c6posA with buy_price_original := 105 }

/-- A crossing variant (`buy_price = 106 ≥ lowest_sell`), used to witness
the snap clause of C6. -/
def c6posSnap : Position := { c6posA with buy_price := 106 }

unseal Rat.add Rat.sub Rat.mul Rat.inv in
/-- **C6.**  `tryMoveOrder` on a buy position (first copy, the one the claim
cites): (1) when `buy_price ≥ lowest_sell` and `lowest_sell > ticksize` the
buy price snaps to `lowest_sell - ticksize` and `is_slippage` is set;
(2) whenever the ratchet branch applies a change it is a strict price
improvement that stays `≤ buy_price_original` and `< lowest_sell`, with
`is_slippage` set; (3) concretely, with `buy_price = 100`, ticksize 1,
`lowest_sell = 105` and `buy_price_original = 100` the order is unchanged
and the call returns `false`; (4) with `buy_price_original = 105` the buy
price becomes 104 with `is_slippage = true`. -/
theorem claim_C6 :
    (∀ (info : MarketInfo) (pos : Position),
      pos.side = Side.buy → 0 < info.highest_buy → 0 < info.lowest_sell →
      info.lowest_sell ≤ pos.buy_price → info.price_ticksize < info.lowest_sell →
      tryMoveOrder1 info pos =
        ({ pos with buy_price := info.lowest_sell - info.price_ticksize
                  , is_slippage := true }, true)) ∧
    (∀ (info : MarketInfo) (pos pos' : Position),
      pos.side = Side.buy → 0 ≤ info.price_ticksize →
      pos.buy_price < info.lowest_sell →
      tryMoveOrder1 info pos = (pos', true) →
      pos.buy_price < pos'.buy_price ∧ pos'.buy_price ≤ pos.buy_price_original ∧
      pos'.buy_price < info.lowest_sell ∧ pos'.is_slippage = true) ∧
    tryMoveOrder1 c6info c6posA = (c6posA, false) ∧
    tryMoveOrder1 c6info c6posB =
      ({ c6posB with buy_price := 104, is_slippage := true }, true) := by
  refine ⟨?_, ?_, by decide, by decide⟩
  · intro info pos hside hhb hlo hcross htl
    have h0 : ¬(info.highest_buy ≤ 0 ∨ info.lowest_sell ≤ 0) := by
      push_neg
      exact ⟨hhb, hlo⟩
    simp only [tryMoveOrder1, hside, if_neg h0, if_pos (And.intro hcross htl)]
  · intro info pos pos' hside ht hlt hres
    simp only [tryMoveOrder1, hside] at hres
    split at hres
    · exact absurd (congrArg Prod.snd hres) (by simp)
    · split at hres
      · next hc =>
        exact absurd (lt_of_le_of_lt hc.1 hlt) (lt_irrefl _)
      · by_cases hg : info.price_ticksize * 2 ≤ info.lowest_sell
        · rw [if_pos hg] at hres
          split at hres
          · next hacc =>
            rw [Prod.mk.injEq] at hres
            obtain ⟨hpos', -⟩ := hres
            subst hpos'
            have hle : pos.buy_price ≤ ratchetUp info.price_ticksize info.lowest_sell
                pos.buy_price_original pos.buy_price :=
              ratchetUpGo_le _ _ _ _ ht _
            exact ⟨lt_of_le_of_ne hle (Ne.symm hacc.2.2.2.1), hacc.2.2.1, hacc.2.2.2.2, rfl⟩
          · exact absurd (congrArg Prod.snd hres) (by simp)
        · rw [if_neg hg] at hres
          split at hres
          · next hacc => exact absurd hacc.2.1 (lt_irrefl 0)
          · exact absurd (congrArg Prod.snd hres) (by simp)

unseal Rat.add Rat.sub Rat.mul Rat.inv in
/-- Witness for C6: the snap clause applied at the concrete crossing
position of `c6posSnap` (`buy_price = 106 ≥ lowest_sell = 105`,
ticksize 1). -/
theorem claim_C6_witness :
    tryMoveOrder1 c6info c6posSnap =
      ({ c6posSnap with buy_price := c6info.lowest_sell - c6info.price_ticksize
                      , is_slippage := true }, true) :=
  claim_C6.1 c6info c6posSnap rfl (by decide) (by decide) (by decide) (by decide)

unseal Rat.add Rat.sub Rat.mul Rat.inv in
/-- Witness for C10 (amended): the two copies agree at a concrete sell
position whose market has `highest_buy = 2 ≥ ticksize = 1`. -/
theorem claim_C10_witness :
    tryMoveOrder1
        { order_prices := [], position_index := []
        , highest_buy := 2, lowest_sell := 3, price_ticksize := 1 }
        { c6posA with side := Side.sell } =
      tryMoveOrder2
        { order_prices := [], position_index := []
        , highest_buy := 2, lowest_sell := 3, price_ticksize := 1 }
        { c6posA with side := Side.sell } :=
  claim_C10 _ _ (fun _ => by decide)

/-! ## Engine state -/

/-- Lookup in a `QHash`-like association list. -/
def alookup [DecidableEq α] (k : α) : List (α × β) → Option β
  | [] => none
  | (a, b) :: l => if a = k then some b else alookup k l

/-- `QHash::insert`: replace the value when the key is present, else add. -/
def ainsert [DecidableEq α] (k : α) (v : β) : List (α × β) → List (α × β)
  | [] => [(k, v)]
  | (a, b) :: l => if a = k then (k, v) :: l else (a, b) :: ainsert k v l

/-- `QHash::remove` for the single-valued hashes used here. -/
def aremove [DecidableEq α] (k : α) : List (α × β) → List (α × β)
  | [] => []
  | (a, b) :: l => if a = k then l else (a, b) :: aremove k l

/-- `QSet::insert` on a duplicate-free list. -/
def setInsert (x : Nat) (l : List Nat) : List Nat :=
  if x ∈ l then l else x :: l

/-- Replace the `i`-th element of a list by `f` of it (out of range: no-op). -/
def modifyAt (f : α → α) : Nat → List α → List α
  | _, [] => []
  | 0, a :: l => f a :: l
  | n + 1, a :: l => a :: modifyAt f n l

/-- A transport request recorded by the embedding (`rest->sendCancel` /
`rest->sendBuySell`). -/
inductive Event where
  | sendCancel (order_id : String)
  | sendBuySell (pid : Nat)
deriving DecidableEq, Repr

/-- The `EngineSettings` fields read by the embedded functions. -/
structure EngineSettings where
  request_timeout : Int
  cancel_timeout : Int
  safety_delay_time : Int
  ticker_safety_delay_time : Int
  stray_grace_time_limit : Int
  should_clear_stray_orders : Bool
  should_clear_stray_orders_all : Bool
  should_mitigate_blank_orderbook_flash : Bool
deriving DecidableEq, Repr

/-- The engine state: the position store (heap `store` addressed by `Nat`
handles plus the `positions_*` side indices), per-market data, the DC
reservation maps, stray-order grace times, cancel-all mode, and the trace of
transport requests issued so far. -/
structure EngineState where
  next_pid : Nat
  store : List (Nat × Position)
  positions_all : List Nat
  positions_queued : List Nat
  positions_active : List Nat
  positions_by_number : List (String × Nat)
  market_info : List (String × MarketInfo)
  diverge_converge : List (List Nat × Bool × List Int)
  diverging_converging : List (String × List Int)
  order_grace_times : List (String × Int)
  is_running_cancelall : Bool
  cancel_market_filter : String
  wss_1000_state : Bool
  is_testing : Bool
  settings : EngineSettings
  events : List Event
deriving DecidableEq, Repr

/-- `market_info[market]` as a read (`QHash::operator[]`
default-constructs missing entries; reads of the default are modelled by
`getD`). -/
def EngineState.getInfo (s : EngineState) (m : String) : MarketInfo :=
  (alookup m s.market_info).getD default

/-- Write back a market's `MarketInfo`. -/
def EngineState.setInfo (s : EngineState) (m : String) (i : MarketInfo) : EngineState :=
  { s with market_info := ainsert m i s.market_info }

/-- Dereference a position handle. -/
def EngineState.lookupPos (s : EngineState) (pid : Nat) : Option Position :=
  alookup pid s.store

/-- Mutate the position behind a handle. -/
def EngineState.updatePos (s : EngineState) (pid : Nat) (f : Position → Position) : EngineState :=
  { s with store := s.store.map (fun e => (e.1, if e.1 = pid then f e.2 else e.2)) }

/-- `diverging_converging[market]` as a read. -/
def EngineState.getDCC (s : EngineState) (m : String) : List Int :=
  (alookup m s.diverging_converging).getD []

/-- Write back a market's reservation multiset. -/
def EngineState.setDCC (s : EngineState) (m : String) (l : List Int) : EngineState :=
  { s with diverging_converging := ainsert m l s.diverging_converging }

/-- Record a transport request. -/
def EngineState.emit (s : EngineState) (e : Event) : EngineState :=
  { s with events := s.events ++ [e] }

/-- `Engine::isPositionOrderID` / `PositionMan::isValidOrderID`. -/
def EngineState.isValidOrderID (s : EngineState) (oid : String) : Bool :=
  (alookup oid s.positions_by_number).isSome

/-! ## Store operations -/

/-- `Engine::removeFromDC` (spruce.h lines 3783-3803): drop the first DC
group containing the position and remove one occurrence of each of the
position's own market indices from `diverging_converging[market]`. -/
def removeFromDC (s : EngineState) (pid : Nat) (pos : Position) : EngineState :=
  let dc' := match s.diverge_converge.find? (fun g => decide (pid ∈ g.1)) with
    | some g => s.diverge_converge.erase g
    | none => s.diverge_converge
  let s := { s with diverge_converge := dc' }
  s.setDCC pos.market (pos.market_indices.foldl (fun l i => l.erase i) (s.getDCC pos.market))

/-- `Engine::deletePosition` (spruce.h lines 4397-4440): guard against
handles in neither side set, clear DC references, then remove the position
from every index, the by-order-id hash, and the market's `order_prices`
(the in-flight network-reply cleanup of step 2 has no local state here). -/
def deletePosition (s : EngineState) (pid : Nat) : EngineState :=
  if ¬ (pid ∈ s.positions_active ∨ pid ∈ s.positions_queued) then s
  else match s.lookupPos pid with
  | none => s
  | some pos =>
    let s := removeFromDC s pid pos
    let s := { s with positions_active := s.positions_active.erase pid
                    , positions_queued := s.positions_queued.erase pid
                    , positions_all := s.positions_all.erase pid
                    , positions_by_number := aremove pos.order_number s.positions_by_number }
    let info := s.getInfo pos.market
    let s := s.setInfo pos.market { info with order_prices := info.order_prices.erase pos.price }
    { s with store := aremove pid s.store }

/-- `Engine::cancelOrder` (spruce.h lines 2593-2644): ignore unknown
positions; in test mode delete outright; otherwise record the cancel
reason, and either defer (queued position: mark `is_cancelling`, set
`order_cancel_time = 1`, send nothing) or issue the transport cancel for
the known order id.  `_quiet` only affects logging. -/
def cancelOrder (s : EngineState) (pid : Nat) (_quiet : Bool) (reason : CancelReason) :
    EngineState :=
  match s.lookupPos pid with
  | none => s
  | some pos =>
    if pid ∉ s.positions_all then s
    else if s.is_testing then deletePosition s pid
    else
      let s := s.updatePos pid (fun p => { p with cancel_reason := reason })
      if pid ∈ s.positions_queued then
        s.updatePos pid (fun p => { p with is_cancelling := true, order_cancel_time := 1 })
      else
        s.emit (Event.sendCancel pos.order_number)

/-- `Engine::setOrderMeat` (spruce.h lines 2763-2810), the activation on
exchange acknowledgment (`PositionMan::activate` of copy 1 per spec 4.1):
record `order_set_time`, clear `is_new_hilo_order`, move the position from
the queued set to the active set, insert it into the by-order-id hash, store
the exchange id (non-BINANCE: unprefixed), and re-issue a cancel that was
requested while the position was queued. -/
def setOrderMeat (s : EngineState) (pid : Nat) (order_number : String) (now : Int) :
    EngineState :=
  if order_number = "" then s
  else match s.lookupPos pid with
  | none => s
  | some pos0 =>
    let s1 := s.updatePos pid (fun p => { p with order_set_time := now, is_new_hilo_order := false })
    let s2 : EngineState :=
      { s1 with positions_queued := s1.positions_queued.erase pid
              , positions_active := setInsert pid s1.positions_active
              , positions_by_number := ainsert order_number pid s1.positions_by_number }
    let s3 := s2.updatePos pid (fun p => { p with order_number := order_number })
    -- the final check re-reads the (updated) position; `pos` is its value
    let pos : Position :=
      { pos0 with order_set_time := now, is_new_hilo_order := false
                , order_number := order_number }
    if pos.is_cancelling ∧ pos.order_cancel_time < now - s3.settings.cancel_timeout then
      cancelOrder s3 pid true pos.cancel_reason
    else s3

/-! ## Position construction and order placement -/

/-- The parsed order `type` argument of `addPosition`:
`active`, `ghost`, or `onetime[-taker][-override][-timeoutN]`. -/
inductive OType where
  | active
  | ghost
  | onetime (taker : Bool) (override : Bool) (timeout : Option Int)
deriving DecidableEq, Repr

/-- `type.startsWith("onetime")`. -/
def OType.isOnetime : OType → Bool
  | OType.onetime _ _ _ => true
  | _ => false

/-- `type.contains("-taker")`. -/
def OType.isTaker : OType → Bool
  | OType.onetime t _ _ => t
  | _ => false

/-- `type.contains("-override")`. -/
def OType.isOverride : OType → Bool
  | OType.onetime _ o _ => o
  | _ => false

/-- The parsed `-timeoutN` suffix. -/
def OType.timeoutArg : OType → Option Int
  | OType.onetime _ _ tmo => tmo
  | _ => none

/-- `type == "active"`. -/
def OType.isActiveType : OType → Bool
  | OType.active => true
  | _ => false

/-- The minimum of a `QVector<qint32>` (0 when empty, as for
`QVector::value` on an empty vector). -/
def listLowest (l : List Int) : Int :=
  match l with
  | [] => 0
  | h :: t => t.foldl (fun a b => if b ≤ a then b else a) h

/-- `position_index.value(i)`: the slot at an index, default-constructed
when out of range. -/
def slotAt (info : MarketInfo) (i : Int) : PositionData :=
  if i < 0 then default else info.position_index.getD i.toNat default

/-- Modelled from the spec: the `Position` constructor (position.h/.cpp are
not under src/).  Identity and prices are captured from the arguments; the
original prices are captured at construction (spec 3); `price` is the active
side's price (offset/sentiment neutral); `btc_amount` is the quote notional
and `quantity = btc_amount / price` (spec 3); for a landmark the prices come
from the lowest-indexed slot and the notional aggregates the run's slot
sizes (spec 4.3.1 and 4.4: dummy arguments are substituted from slot data).
`order_number` is empty until acknowledged. -/
def mkPosition (info : MarketInfo) (market : String) (side : Side)
    (buy sell size : Rat) (tag : String) (indices : List Int) (landmark : Bool) : Position :=
  let lo := listLowest indices
  let bp := if landmark then (slotAt info lo).buy_price else buy
  let sp := if landmark then (slotAt info lo).sell_price else sell
  let amt := if landmark then
      (indices.map (fun i => (slotAt info i).order_size)).foldl (· + ·) 0
    else size
  let price := match side with
    | Side.buy => bp
    | Side.sell => sp
  { market := market, side := side, market_indices := indices
  , buy_price := bp, sell_price := sp
  , buy_price_original := bp, sell_price_original := sp
  , price := price, quantity := if price = 0 then 0 else amt / price, btc_amount := amt
  , order_number := "", strategy_tag := tag
  , is_onetime := false, is_taker := false, is_landmark := landmark, is_slippage := false
  , is_cancelling := false, is_new_hilo_order := false
  , order_request_time := 0, order_set_time := 0, order_cancel_time := 0
  , order_getorder_time := 0, max_age_minutes := 0, price_reset_count := 0
  , cancel_reason := CancelReason.cnone }

/-- Modelled from the spec: `Position::applyOffset` (position.h is not under
src/) recomputes `price` from the active side after offset/sentiment; with
the neutral default `market_offset`/`market_sentiment` the price is the
active side's price. -/
def applyOffset (p : Position) : Position :=
  { p with price := match p.side with
    | Side.buy => p.buy_price
    | Side.sell => p.sell_price }

/-- The validated tail of `Engine::addPosition` (spruce.h lines 300-412 and
1925-2037): construct the position, apply the post-only price improvement
for non-takers, register the position as queued and its price in
`order_prices`, then submit (or, in test mode, synthesize an order number
and activate immediately). -/
def addPositionMeat (s : EngineState) (market : String) (side : Side)
    (buy sell size : Rat) (otype : OType) (tag : String)
    (indices : List Int) (landmark : Bool) (now : Int) :
    EngineState × Option Nat :=
  let pos0 := mkPosition (s.getInfo market) market side buy sell size tag indices landmark
  if pos0.btc_amount ≤ 0 ∨ pos0.quantity ≤ 0 then (s, none)
  else
    let pos1 := { pos0 with is_onetime := otype.isOnetime, is_taker := otype.isTaker
                          , max_age_minutes :=
                              match otype.timeoutArg with
                              | some tmo => if 0 < tmo then tmo else pos0.max_age_minutes
                              | none => pos0.max_age_minutes }
    let pos2 :=
      if ¬ otype.isTaker then
        let r := tryMoveOrder1 (s.getInfo market) pos1
        if r.2 then applyOffset r.1 else r.1
      else pos1
    let pid := s.next_pid
    let s := { s with next_pid := pid + 1
                    , store := (pid, pos2) :: s.store
                    , positions_queued := pid :: s.positions_queued
                    , positions_all := pid :: s.positions_all }
    let info2 := s.getInfo market
    let s := s.setInfo market { info2 with order_prices := info2.order_prices ++ [pos2.price] }
    if s.is_testing then
      let onum := market ++ toString pos2.getLowestMarketIndex
      let s := s.updatePos pid (fun p => { p with order_number := onum })
      (setOrderMeat s pid onum now, some pid)
    else
      (s.emit (Event.sendBuySell pid), some pid)

/-- `Engine::addPosition` (spruce.h lines 226-412 and 1849-2037): validate
the request, default the market index (appending a new slot) when none was
supplied, stop early for ghosts, and hand over to `addPositionMeat`.
Returns the new handle, or `none` when the request was rejected.  The
string-layer checks (blank arguments other than the market name, decimal
over-precision) are not representable over exact `Rat` prices. -/
def addPosition (s : EngineState) (market : String) (side : Side)
    (buy sell size : Rat) (alt : Option Rat) (otype : OType) (tag : String)
    (indices0 : List Int) (landmark : Bool) (_quiet : Bool) (now : Int) :
    EngineState × Option Nat :=
  let is_onetime := otype.isOnetime
  if market = "" then (s, none)
  else if landmark ∧ is_onetime = true then (s, none)
  else if (¬ is_onetime ∧ (sell ≤ buy ∨ buy ≤ 0 ∨ sell ≤ 0)) ∨
      (is_onetime ∧ side = Side.buy ∧ buy ≤ 0) ∨
      (is_onetime ∧ side = Side.sell ∧ sell ≤ 0) ∨
      (is_onetime ∧ alt.any (fun a => decide (a ≤ 0)) = true) then (s, none)
  else if ¬ otype.isOverride ∧ otype.isTaker ∧
      ((side = Side.sell ∧ (s.getInfo market).highest_buy * (9/10) > sell) ∨
       (side = Side.sell ∧ (s.getInfo market).highest_buy * (11/10) < sell) ∨
       (side = Side.buy ∧ (s.getInfo market).lowest_sell * (11/10) < buy) ∨
       (side = Side.buy ∧ (s.getInfo market).lowest_sell * (9/10) > buy)) then (s, none)
  else
    let si :=
      if ¬ is_onetime ∧ indices0 = [] then
        let info := s.getInfo market
        (s.setInfo market
           { info with position_index := info.position_index ++ [⟨buy, sell, size, alt, 0⟩] },
         [(info.position_index.length : Int)])
      else (s, indices0)
    let s := si.1
    let indices := si.2
    if ¬ is_onetime ∧ ¬ otype.isActiveType then (s, none)
    else addPositionMeat s market side buy sell size otype tag indices landmark now

/-- `Engine::addLandmarkPositionFor` (spruce.h lines 414-419): re-add a
position as a landmark with the dummy prices `0.00000001`/`0.00000002` and
size `0.00000000`; the real prices come from slot data in the constructor. -/
def addLandmarkPositionFor (s : EngineState) (pid : Nat) (now : Int) : EngineState :=
  match s.lookupPos pid with
  | none => s
  | some pos =>
    (addPosition s pos.market pos.side (1 / 100000000) (2 / 100000000) 0 none OType.active ""
       pos.market_indices true true now).1

/-- `Engine::flipPosition` (spruce.h lines 1083-1109): no pong for one-time
orders; otherwise flip the position's side (`Position::flip`, modelled from
the spec's ping-pong glossary entry: the filled slot replaces itself on the
opposite side), then re-add from current slot data — through
`addLandmarkPositionFor` for landmarks, else from the slot at the
position's first market index.  (`stats->addStrategyStats` for SHORTLONG
cancels has no engine-local state.) -/
def flipPosition (s : EngineState) (pid : Nat) (now : Int) : EngineState :=
  match s.lookupPos pid with
  | none => s
  | some pos0 =>
    if pos0.is_onetime then s
    else
      let s := s.updatePos pid (fun p => { p with side := p.side.flipped })
      -- the remainder re-reads the flipped position; `pos` is its value
      let pos : Position := { pos0 with side := pos0.side.flipped }
      if pos.is_landmark then addLandmarkPositionFor s pid now
      else
        let nd := slotAt (s.getInfo pos.market) (pos.market_indices.headD 0)
        (addPosition s pos.market pos.side nd.buy_price nd.sell_price nd.order_size none
           OType.active "" pos.market_indices false true now).1

/-! ## Fill dispatch -/

/-- The slot-iteration loop of `Engine::fillNQ` (spruce.h lines 434-445):
advance the fill count (toggling the alternate size) at every in-range
market index; out-of-range indices are skipped. -/
def iterateIndices (indices : List Int) (l : List PositionData) : List PositionData :=
  indices.foldl
    (fun l i =>
      if (l.length : Int) ≤ i ∨ i < 0 then l
      else modifyAt PositionData.iterateFillCount i.toNat l)
    l

/-- `Engine::fillNQ` (spruce.h lines 421-497): validate the order id,
advance the slot fill count (toggling the alternate size) for every
in-range market index of the filled position, flip the position to the
opposite side (unless one-time), and delete it.  `fill_type` must be one of
the five fill-source tags 1..5. -/
def fillNQ (s : EngineState) (order_id : String) (fill_type : Int) (now : Int) : EngineState :=
  if fill_type < 1 ∨ 5 < fill_type then s
  else if order_id = "" ∨ ¬ s.isValidOrderID order_id then s
  else match alookup order_id s.positions_by_number with
  | none => s
  | some pid =>
    match s.lookupPos pid with
    | none => s
    | some pos =>
      let info := s.getInfo pos.market
      let idx' := iterateIndices pos.market_indices info.position_index
      let s := s.setInfo pos.market { info with position_index := idx' }
      let s := flipPosition s pid now
      deletePosition s pid

/-- The sort key of `Engine::processFilledOrders`, first copy (spruce.h
lines 499-511): one-time orders are keyed at `CoinAmount::COIN` (= 1), all
others at `buy_price / sell_price`. -/
def sortKey1 (pos : Position) : Rat :=
  if pos.is_onetime then 1 else pos.buy_price / pos.sell_price

/-- The sort key of the second copy of `processFilledOrders` (spruce.h
lines 2127-2136), which lacks the one-time special case. -/
def sortKey2 (pos : Position) : Rat :=
  pos.buy_price / pos.sell_price

/-- `QMap<Coin, Position*>::insert` on a key-sorted association list:
an existing equal key has its value replaced. -/
def qmapInsert (k : Rat) (v : Nat) : List (Rat × Nat) → List (Rat × Nat)
  | [] => [(k, v)]
  | (k', v') :: l =>
    if k < k' then (k, v) :: (k', v') :: l
    else if k = k' then (k, v) :: l
    else (k', v') :: qmapInsert k v l

/-- One batch element of the sorting pass of `processFilledOrders`: insert
the position into the `QMap` under its key (null pointers cannot arise from
the iterated containers; a dangling handle is skipped). -/
def sortStep (s : EngineState) (key : Position → Rat) (m : List (Rat × Nat))
    (pid : Nat) : List (Rat × Nat) :=
  match s.lookupPos pid with
  | some pos => qmapInsert (key pos) pid m
  | none => m

/-- The sorting pass of `processFilledOrders`: fold the batch into the
`QMap` keyed by `key`. -/
def sortBatch (s : EngineState) (key : Position → Rat) (batch : List Nat) :
    List (Rat × Nat) :=
  batch.foldl (sortStep s key) []

/-- The dispatch loop of `processFilledOrders`: call `fillNQ` with each
sorted position's order number in turn; returns the final state and the
sequence of dispatched order ids. -/
def dispatchFills (ft now : Int) : EngineState → List Nat → EngineState × List String
  | s, [] => (s, [])
  | s, pid :: rest =>
    let oid := ((s.lookupPos pid).map Position.order_number).getD ""
    let s1 := fillNQ s oid ft now
    let r := dispatchFills ft now s1 rest
    (r.1, oid :: r.2)

/-- `Engine::processFilledOrders`, first copy (spruce.h lines 499-511):
sort by ascending `buy_price / sell_price` with one-time orders keyed at 1,
then dispatch each through `fillNQ`. -/
def processFilledOrders1 (s : EngineState) (batch : List Nat) (ft now : Int) :
    EngineState × List String :=
  dispatchFills ft now s ((sortBatch s sortKey1 batch).map Prod.snd)

/-- `Engine::processFilledOrders`, second copy (spruce.h lines 2127-2136):
identical but without the one-time key. -/
def processFilledOrders2 (s : EngineState) (batch : List Nat) (ft now : Int) :
    EngineState × List String :=
  dispatchFills ft now s ((sortBatch s sortKey2 batch).map Prod.snd)

/-! ## DC coordinator and cancelled-order processing -/

/-- `Engine::cancelOrderMeatDCOrder` (spruce.h lines 885-962 and 2684-2761,
identical logic): locate and remove the position's DC group; drop the
cancelled position from it; when the group becomes empty fulfil the
reservation — converge (`will_be_landmark`): clear the new indices from
`diverging_converging`, rewrite the position's `market_indices` to the
recorded indices and add one landmark for them; diverge: per recorded
index, clear its reservation and re-add a single-slot position from slot
data (skipped while the market index is being cleared).  A non-empty
remainder is re-inserted under the shortened key. -/
def cancelOrderMeatDCOrder (s : EngineState) (pid : Nat) (now : Int) : EngineState :=
  match s.lookupPos pid with
  | none => s
  | some pos =>
    match s.diverge_converge.find? (fun g => decide (pid ∈ g.1)) with
    | none => s
    | some entry =>
      let s := { s with diverge_converge := s.diverge_converge.erase entry }
      if entry.1 = [] then s
      else
        let remaining := entry.1.erase pid
        if remaining = [] then
          if entry.2.1 then
            let s := s.setDCC pos.market
              (entry.2.2.foldl (fun l i => l.erase i) (s.getDCC pos.market))
            let s := s.updatePos pid (fun p => { p with market_indices := entry.2.2 })
            addLandmarkPositionFor s pid now
          else
            entry.2.2.foldl
              (fun s idx =>
                let s := s.setDCC pos.market ((s.getDCC pos.market).erase idx)
                if (s.getInfo pos.market).position_index = [] then s
                else
                  let data := slotAt (s.getInfo pos.market) idx
                  (addPosition s pos.market pos.side data.buy_price data.sell_price
                     data.order_size none OType.active "" [idx] false true now).1)
              s
        else
          { s with diverge_converge := (remaining, entry.2.1, entry.2.2) :: s.diverge_converge }

/-- `Engine::processCancelledOrder` (spruce.h lines 826-863 and 2451-2488):
a cancelled slippage position with reason SLIPPAGE_RESET is rebuilt on the
same side at original (slot) prices; a DC cancel is handed to the DC
coordinator; a SHORTLONG cancel flips; in every case the cancelled position
is removed (copy 1 via `positions->remove`, copy 2 via `deletePosition`;
the spec's 4.1 `remove` is `deletePosition`). -/
def processCancelledOrder (s : EngineState) (pid : Nat) (now : Int) : EngineState :=
  match s.lookupPos pid with
  | none => s
  | some pos =>
    if pos.is_slippage ∧ pos.cancel_reason = CancelReason.slippageReset then
      if pos.is_landmark then
        deletePosition (addLandmarkPositionFor s pid now) pid
      else
        let np := slotAt (s.getInfo pos.market) (pos.market_indices.headD 0)
        let s := (addPosition s pos.market pos.side np.buy_price np.sell_price np.order_size
                    none OType.active "" pos.market_indices false true now).1
        deletePosition s pid
    else
      let s :=
        if pos.cancel_reason = CancelReason.dc then cancelOrderMeatDCOrder s pid now
        else if pos.cancel_reason = CancelReason.shortlong then flipPosition s pid now
        else s
      deletePosition s pid

/-! ## Ticker processing -/

/-- One market's `{bid, ask}` ticker entry. -/
structure TickerInfo where
  bid_price : Rat
  ask_price : Rat
deriving DecidableEq, Repr

/-- The `fill_details` classification of `processTicker` (spruce.h lines
774-783): 1 = sell crossed by the bid, 2 = buy crossed by the ask,
3 = sell passed by the ask, 4 = buy passed by the bid, 0 = no signal. -/
def tickerFillDetails (pos : Position) (bid ask : Rat) : Nat :=
  if pos.side = Side.sell ∧ pos.sell_price ≤ bid then 1
  else if pos.side = Side.buy ∧ ask ≤ pos.buy_price then 2
  else if pos.side = Side.sell ∧ pos.sell_price < ask then 3
  else if pos.side = Side.buy ∧ bid < pos.buy_price then 4
  else 0

/-- The per-position fill test of `processTicker` (spruce.h lines 747-816):
a non-degenerate quote for the position's market, a non-zero fill signal,
an order older than the ticker safety window relative to both the snapshot
request time and now, and not cancelling. -/
def tickerPred (s : EngineState) (ticker : List (String × TickerInfo))
    (request_time now : Int) (pid : Nat) : Bool :=
  match s.lookupPos pid with
  | none => false
  | some pos =>
    match alookup pos.market ticker with
    | none => false
    | some tk => decide (
        ¬ pos.market = "" ∧
        ¬ tk.ask_price ≤ tk.bid_price ∧
        ¬ (tk.ask_price ≤ 0 ∨ tk.bid_price ≤ 0) ∧
        0 < tickerFillDetails pos tk.bid_price tk.ask_price ∧
        ¬ (request_time - s.settings.ticker_safety_delay_time < pos.order_set_time ∨
           now - s.settings.ticker_safety_delay_time < pos.order_set_time) ∧
        ¬ (0 < pos.order_cancel_time ∨ pos.is_cancelling = true))

/-- The active positions `processTicker` collects into `filled_orders`:
the active handles passing `tickerPred`. -/
def tickerCandidates (s : EngineState) (ticker : List (String × TickerInfo))
    (request_time now : Int) : List Nat :=
  s.positions_active.filter (tickerPred s ticker request_time now)

/-- `Engine::processTicker` (spruce.h lines 706-824): update each market's
top of book from quotes with positive bid and ask; return without fill
inference for pure ticker pushes (`request_time ≤ 0`) or while the
Poloniex account websocket feed is active; otherwise dispatch the fill
candidates through `processFilledOrders` (first copy) with the TICKER fill
tag.  Returns the state and the dispatched order ids. -/
def processTicker (s : EngineState) (ticker : List (String × TickerInfo))
    (request_time now : Int) : EngineState × List String :=
  let s := ticker.foldl
    (fun s mt =>
      if mt.2.ask_price ≤ 0 ∨ mt.2.bid_price ≤ 0 then s
      else
        let info := s.getInfo mt.1
        s.setInfo mt.1 { info with highest_buy := mt.2.bid_price
                                 , lowest_sell := mt.2.ask_price }) s
  if request_time ≤ 0 then (s, [])
  else if s.wss_1000_state then (s, [])
  else processFilledOrders1 s (tickerCandidates s ticker request_time now) 3 now

/-! ## Open-order processing -/

/-- A reported open order (`OrderInfo`). -/
structure OrderInfo where
  order_number : String
  side : Side
  price : Rat
  btc_amount : Rat
deriving DecidableEq, Repr

/-- One iteration of the reported-orders loop of `processOpenOrders`
(spruce.h lines 521-613): section A handles user cancel-all mode (strays
get a one-shot transport cancel; owned orders are routed to `cancelOrder`
with reason USER); section B reconciles stray ids — an unseen id is first
matched against the queued positions (same market, side and price, equal
`btc_amount` also within the ±0.1 % ratio bounds, and a request older than
10 s) and activated on a match, else stamped into `order_grace_times`; an
id already stamped longer ago than `stray_grace_time_limit` is queued for
cancellation.  The accumulator carries the state and the pending stray
cancels. -/
def openOrdersStep (now : Int) (acc : EngineState × List String)
    (mo : String × OrderInfo) : EngineState × List String :=
  let s := acc.1
  let strays := acc.2
  let market := mo.1
  let o := mo.2
  if s.is_running_cancelall ∧
     ¬ (s.cancel_market_filter = "all" ∨ s.cancel_market_filter = market) then
    (s, strays)
  else if s.is_running_cancelall ∧ ¬ s.isValidOrderID o.order_number then
    (s.emit (Event.sendCancel o.order_number), strays)
  else
    let s :=
      if s.is_running_cancelall then
        match alookup o.order_number s.positions_by_number with
        | some pid => cancelOrder s pid false CancelReason.user
        | none => s
      else s
    if s.settings.should_clear_stray_orders ∧ ¬ s.isValidOrderID o.order_number then
      if ¬ s.settings.should_clear_stray_orders_all ∧
         o.price ∉ (s.getInfo market).order_prices then
        (s, strays)
      else
        match alookup o.order_number s.order_grace_times with
        | none =>
          let matching := s.positions_queued.find? (fun pid =>
            match s.lookupPos pid with
            | none => false
            | some pos => decide (
                pos.market = market ∧ pos.side = o.side ∧ pos.price = o.price ∧
                pos.btc_amount = o.btc_amount ∧
                pos.btc_amount * (999/1000) ≤ o.btc_amount ∧
                o.btc_amount ≤ pos.btc_amount * (1001/1000)))
          match matching with
          | some pid =>
            if (match s.lookupPos pid with
                | some pos => decide (¬ s.isValidOrderID o.order_number ∧
                    pos.order_request_time < now - 10000)
                | none => false) then
              (setOrderMeat s pid o.order_number now, strays)
            else
              ({ s with order_grace_times := ainsert o.order_number now s.order_grace_times },
               strays)
          | none =>
            ({ s with order_grace_times := ainsert o.order_number now s.order_grace_times },
             strays)
        | some seen =>
          if s.settings.stray_grace_time_limit < now - seen then
            (s, strays ++ [o.order_number])
          else (s, strays)
    else (s, strays)

/-- The active positions `processOpenOrders` sends to fill inference
(spruce.h lines 656-703, the generic batch branch): set, not cancelling,
older than `safety_delay_time`, absent from the reported id list, and set
before the snapshot was requested. -/
def openOrdersFillCandidates (s : EngineState) (order_numbers : List String)
    (request_time now : Int) : List Nat :=
  s.positions_active.filter (fun pid =>
    match s.lookupPos pid with
    | none => false
    | some pos => decide (
        ¬ pos.order_set_time = 0 ∧
        ¬ (0 < pos.order_cancel_time ∨ pos.is_cancelling = true) ∧
        pos.order_set_time ≤ now - s.settings.safety_delay_time ∧
        ¬ pos.order_number ∈ order_numbers ∧
        pos.order_set_time < request_time))

/-- The stray-cancellation loop body of `processOpenOrders` (spruce.h lines
615-638): issue the transport cancel and push the id's grace stamp to
`now + stray_grace_time_limit`. -/
def strayCancelStep (now : Int) (s : EngineState) (oid : String) : EngineState :=
  let s := s.emit (Event.sendCancel oid)
  { s with order_grace_times :=
      ainsert oid (now + s.settings.stray_grace_time_limit) s.order_grace_times }

/-- `Engine::processOpenOrders` (spruce.h lines 513-704 and 2138-2329):
walk the reported orders (`openOrdersStep`); in cancel-all mode just reset
the flag and return; then send the queued stray cancels unless more than 50
are due (each cancelled id's grace stamp moves to `now +
stray_grace_time_limit`); skip fill inference when a blank order book is
reported while more than 50 positions are active and the mitigation is on;
finally dispatch the missing-order fill candidates with the GETORDER fill
tag. -/
def processOpenOrders (s : EngineState) (order_numbers : List String)
    (orders : List (String × OrderInfo)) (request_time now : Int) : EngineState :=
  let r := orders.foldl (openOrdersStep now) (s, [])
  let s := r.1
  let strays := r.2
  if s.is_running_cancelall then { s with is_running_cancelall := false }
  else
    let s :=
      if 50 < strays.length then s
      else strays.foldl (strayCancelStep now) s
    if s.settings.should_mitigate_blank_orderbook_flash ∧ order_numbers = [] ∧
       50 < s.positions_active.length then s
    else (processFilledOrders1 s (openOrdersFillCandidates s order_numbers request_time now)
            1 now).1

/-! ## Association-list and store lemmas -/

theorem alookup_ainsert [DecidableEq α] (k : α) (v : β) (l : List (α × β)) :
    alookup k (ainsert k v l) = some v := by
  induction l with
  | nil => simp [ainsert, alookup]
  | cons e l ih =>
    obtain ⟨a, b⟩ := e
    by_cases h : a = k
    · rw [ainsert, if_pos h, alookup, if_pos rfl]
    · rw [ainsert, if_neg h, alookup, if_neg h]
      exact ih

theorem alookup_ainsert_ne [DecidableEq α] {k k' : α} (v : β) (l : List (α × β))
    (h : k' ≠ k) : alookup k' (ainsert k v l) = alookup k' l := by
  induction l with
  | nil => simp [ainsert, alookup, Ne.symm h]
  | cons e l ih =>
    obtain ⟨a, b⟩ := e
    by_cases ha : a = k
    · subst ha
      rw [ainsert, if_pos rfl, alookup, if_neg (Ne.symm h), alookup, if_neg (Ne.symm h)]
    · rw [ainsert, if_neg ha, alookup, alookup]
      by_cases ha' : a = k'
      · rw [if_pos ha', if_pos ha']
      · rw [if_neg ha', if_neg ha']
        exact ih

theorem alookup_cons [DecidableEq α] (k a : α) (b : β) (l : List (α × β)) :
    alookup k ((a, b) :: l) = if a = k then some b else alookup k l := rfl

theorem alookup_map_update [DecidableEq α] (k : α) (f : β → β) (l : List (α × β)) :
    alookup k (l.map (fun e => (e.1, if e.1 = k then f e.2 else e.2))) =
      (alookup k l).map f := by
  induction l with
  | nil => rfl
  | cons e l ih =>
    obtain ⟨a, b⟩ := e
    rw [List.map_cons, alookup_cons, alookup_cons]
    by_cases h : a = k
    · simp only [if_pos h]
      rfl
    · simp only [if_neg h]
      exact ih

theorem alookup_map_update_ne [DecidableEq α] {k k' : α} (f : β → β) (l : List (α × β))
    (h : k' ≠ k) :
    alookup k' (l.map (fun e => (e.1, if e.1 = k then f e.2 else e.2))) = alookup k' l := by
  induction l with
  | nil => rfl
  | cons e l ih =>
    obtain ⟨a, b⟩ := e
    rw [List.map_cons, alookup_cons, alookup_cons]
    by_cases ha' : a = k'
    · simp only [if_pos ha', if_neg (fun hk : a = k => h (ha'.symm.trans hk))]
    · simp only [if_neg ha']
      exact ih

theorem lookupPos_updatePos (s : EngineState) (pid : Nat) (f : Position → Position) :
    (s.updatePos pid f).lookupPos pid = (s.lookupPos pid).map f := by
  simp [EngineState.updatePos, EngineState.lookupPos, alookup_map_update]

theorem lookupPos_updatePos_ne (s : EngineState) {pid pid' : Nat} (f : Position → Position)
    (h : pid' ≠ pid) :
    (s.updatePos pid f).lookupPos pid' = s.lookupPos pid' := by
  simp [EngineState.updatePos, EngineState.lookupPos, alookup_map_update_ne _ _ h]

/-- A list member is not in the result of erasing it from a
duplicate-free list. -/
theorem not_mem_erase_self {l : List Nat} (h : l.Nodup) (x : Nat) : x ∉ l.erase x := by
  intro hx
  exact absurd (h.mem_erase_iff.mp hx).1 (by simp)

/-- The inserted element is a member of a `QSet` insert. -/
theorem mem_setInsert_self (x : Nat) (l : List Nat) : x ∈ setInsert x l := by
  unfold setInsert
  split
  · assumption
  · exact List.mem_cons_self x l

theorem removeFromDC_grace (s : EngineState) (pid : Nat) (pos : Position) :
    (removeFromDC s pid pos).order_grace_times = s.order_grace_times := rfl

theorem deletePosition_grace (s : EngineState) (pid : Nat) :
    (deletePosition s pid).order_grace_times = s.order_grace_times := by
  unfold deletePosition
  split
  · rfl
  · split <;> rfl

theorem cancelOrder_grace (s : EngineState) (pid : Nat) (q : Bool) (r : CancelReason) :
    (cancelOrder s pid q r).order_grace_times = s.order_grace_times := by
  unfold cancelOrder
  split
  · rfl
  · split
    · rfl
    · split
      · exact deletePosition_grace s pid
      · simp [apply_ite EngineState.order_grace_times, EngineState.updatePos, EngineState.emit]

theorem setOrderMeat_grace (s : EngineState) (pid : Nat) (oid : String) (now : Int) :
    (setOrderMeat s pid oid now).order_grace_times = s.order_grace_times := by
  unfold setOrderMeat
  split
  · rfl
  · split
    · rfl
    · simp [apply_ite EngineState.order_grace_times, cancelOrder_grace, EngineState.updatePos]

/-- **C5.**  The queued-cancel race (spec 4.2.5 and scenario S3): calling
`cancelOrder` on a queued position (no order number yet) only marks
`is_cancelling`, sets `order_cancel_time = 1` and records the requested
reason, issuing no transport request; when the submission acknowledgment
then activates the position through `setOrderMeat`, the position lands in
the active set (no longer queued) with the acknowledged order id, still
carrying the originally requested cancel reason, and exactly one transport
cancel for that id is issued. -/
theorem claim_C5 (s : EngineState) (pid : Nat) (P : Position) (reason : CancelReason)
    (q : Bool) (oid : String) (now : Int)
    (htest : s.is_testing = false)
    (hP : s.lookupPos pid = some P)
    (hall : pid ∈ s.positions_all)
    (hq : pid ∈ s.positions_queued)
    (hnodup : s.positions_queued.Nodup)
    (hoid : ¬ oid = "")
    (htime : 1 < now - s.settings.cancel_timeout) :
    (cancelOrder s pid q reason).lookupPos pid =
      some { P with cancel_reason := reason, is_cancelling := true
                  , order_cancel_time := 1 } ∧
    (cancelOrder s pid q reason).events = s.events ∧
    pid ∈ (setOrderMeat (cancelOrder s pid q reason) pid oid now).positions_active ∧
    pid ∉ (setOrderMeat (cancelOrder s pid q reason) pid oid now).positions_queued ∧
    (setOrderMeat (cancelOrder s pid q reason) pid oid now).lookupPos pid =
      some { P with cancel_reason := reason, is_cancelling := true
                  , order_cancel_time := 1, order_set_time := now
                  , is_new_hilo_order := false, order_number := oid } ∧
    (setOrderMeat (cancelOrder s pid q reason) pid oid now).events =
      s.events ++ [Event.sendCancel oid] := by
  have hcancel : cancelOrder s pid q reason =
      (s.updatePos pid (fun p => { p with cancel_reason := reason })).updatePos pid
        (fun p => { p with is_cancelling := true, order_cancel_time := 1 }) := by
    rw [cancelOrder, hP]
    simp only [hall, htest]
    rw [if_neg (by simp), if_neg (by simp), if_pos]
    exact hq
  have hP1 : (cancelOrder s pid q reason).lookupPos pid =
      some { P with cancel_reason := reason, is_cancelling := true
                  , order_cancel_time := 1 } := by
    rw [hcancel, lookupPos_updatePos, lookupPos_updatePos, hP]
    rfl
  -- abbreviations for the intermediate states of the activation
  set s1 := cancelOrder s pid q reason with hs1def
  set P1 : Position := { P with cancel_reason := reason, is_cancelling := true,
                                order_cancel_time := 1 } with hP1def
  set s2a := s1.updatePos pid
    (fun p => { p with order_set_time := now, is_new_hilo_order := false }) with hs2adef
  set s2b : EngineState :=
    { s2a with positions_queued := s2a.positions_queued.erase pid,
               positions_active := setInsert pid s2a.positions_active,
               positions_by_number := ainsert oid pid s2a.positions_by_number } with hs2bdef
  set s2c := s2b.updatePos pid (fun p => { p with order_number := oid }) with hs2cdef
  set P2 : Position := { P1 with order_set_time := now, is_new_hilo_order := false,
                                 order_number := oid } with hP2def
  have hq1 : s1.positions_queued = s.positions_queued := by rw [hcancel]; rfl
  have hsom : setOrderMeat s1 pid oid now = cancelOrder s2c pid true P2.cancel_reason := by
    rw [setOrderMeat, if_neg hoid, hP1]
    show (if P2.is_cancelling = true ∧ P2.order_cancel_time < now - s2c.settings.cancel_timeout
          then cancelOrder s2c pid true P2.cancel_reason else s2c) =
      cancelOrder s2c pid true P2.cancel_reason
    rw [if_pos]
    refine ⟨rfl, ?_⟩
    show (1 : Int) < now - s2c.settings.cancel_timeout
    have hset : s2c.settings = s.settings := by
      rw [hs2cdef, hs2bdef, hs2adef, hcancel]; rfl
    rw [hset]
    exact htime
  have hP2c : s2c.lookupPos pid = some P2 := by
    rw [hs2cdef, lookupPos_updatePos]
    have hb : s2b.lookupPos pid = s2a.lookupPos pid := rfl
    rw [hb, hs2adef, lookupPos_updatePos, hP1]
    rfl
  have hall2c : pid ∈ s2c.positions_all := by
    have : s2c.positions_all = s.positions_all := by
      rw [hs2cdef, hs2bdef, hs2adef, hcancel]; rfl
    rw [this]
    exact hall
  have htest2c : ¬ s2c.is_testing = true := by
    have : s2c.is_testing = s.is_testing := by
      rw [hs2cdef, hs2bdef, hs2adef, hcancel]; rfl
    rw [this, htest]
    simp
  have hq2c : pid ∉ (s2c.updatePos pid
      (fun p => { p with cancel_reason := P2.cancel_reason })).positions_queued := by
    have : (s2c.updatePos pid
        (fun p => { p with cancel_reason := P2.cancel_reason })).positions_queued =
        s.positions_queued.erase pid := by
      rw [hs2cdef, hs2bdef, hs2adef]
      show s1.positions_queued.erase pid = s.positions_queued.erase pid
      rw [hq1]
    rw [this]
    exact not_mem_erase_self hnodup pid
  have hfin : cancelOrder s2c pid true P2.cancel_reason =
      (s2c.updatePos pid (fun p => { p with cancel_reason := P2.cancel_reason })).emit
        (Event.sendCancel P2.order_number) := by
    rw [cancelOrder, hP2c]
    simp only [hall2c, htest2c]
    rw [if_neg (by simp), if_neg (by simp), if_neg]
    exact hq2c
  refine ⟨hP1, by rw [hcancel]; rfl, ?_, ?_, ?_, ?_⟩
  · rw [hsom, hfin]
    show pid ∈ setInsert pid s2a.positions_active
    exact mem_setInsert_self pid _
  · rw [hsom, hfin]
    show pid ∉ s2a.positions_queued.erase pid
    have : s2a.positions_queued = s.positions_queued := by rw [hs2adef]; exact hq1
    rw [this]
    exact not_mem_erase_self hnodup pid
  · rw [hsom, hfin]
    show ((s2c.updatePos pid (fun p => { p with cancel_reason := P2.cancel_reason })).lookupPos
      pid) = _
    rw [lookupPos_updatePos, hP2c]
    rfl
  · rw [hsom, hfin]
    show (s2c.updatePos pid
        (fun p => { p with cancel_reason := P2.cancel_reason })).events ++
        [Event.sendCancel P2.order_number] = s.events ++ [Event.sendCancel oid]
    have : (s2c.updatePos pid
        (fun p => { p with cancel_reason := P2.cancel_reason })).events = s.events := by
      rw [hs2cdef, hs2bdef, hs2adef, hcancel]; rfl
    rw [this]

/-- A concrete queued buy position for exercising the queued-cancel race. -/
def c5pos : Position :=
  { market := "BTC_TEST", side := Side.buy, market_indices := [0],
    buy_price := 1, sell_price := 2, buy_price_original := 1, sell_price_original := 2,
    price := 1, quantity := 1, btc_amount := 1, order_number := "", strategy_tag := "",
    is_onetime := false, is_taker := false, is_landmark := false, is_slippage := false,
    is_cancelling := false, is_new_hilo_order := false,
    order_request_time := 0, order_set_time := 0, order_cancel_time := 0,
    order_getorder_time := 0, max_age_minutes := 0, price_reset_count := 0,
    cancel_reason := CancelReason.cnone }

/-- A concrete engine state holding `c5pos` as the single queued position. -/
def c5state : EngineState :=
  { next_pid := 1, store := [(0, c5pos)], positions_all := [0], positions_queued := [0],
    positions_active := [], positions_by_number := [], market_info := [],
    diverge_converge := [], diverging_converging := [], order_grace_times := [],
    is_running_cancelall := false, cancel_market_filter := "", wss_1000_state := false,
    is_testing := false,
    settings := { request_timeout := 0, cancel_timeout := 0, safety_delay_time := 0,
                  ticker_safety_delay_time := 0, stray_grace_time_limit := 0,
                  should_clear_stray_orders := false, should_clear_stray_orders_all := false,
                  should_mitigate_blank_orderbook_flash := false },
    events := [] }

/-- Witness instantiating the queued-cancel race on `c5state`: the cancel is
requested while queued, the acknowledgment then activates the position and a
single transport cancel for the acknowledged id is issued. -/
theorem claim_C5_witness :
    c5state.lookupPos 0 = some c5pos ∧
    0 ∈ (setOrderMeat (cancelOrder c5state 0 true CancelReason.user) 0 "N1" 100).positions_active ∧
    (setOrderMeat (cancelOrder c5state 0 true CancelReason.user) 0 "N1" 100).events =
      c5state.events ++ [Event.sendCancel "N1"] :=
  have h := claim_C5 c5state 0 c5pos CancelReason.user true "N1" 100 rfl rfl
    (by decide) (by decide) (by decide) (by decide) (by decide)
  ⟨rfl, h.2.2.1, h.2.2.2.2.2⟩

/-- **C3 (amended).**  Reconciliation of an unseen reported order id against
the queued positions (section B of `processOpenOrders`, one
`openOrdersStep` iteration).  Besides the ±0.1 % ratio bounds the code
requires the queued position's `btc_amount` to equal the reported amount
exactly (`pos->btc_amount == btc_amount` is one more conjunct of the same
condition), so a match needs the exact amount — the ratio bounds are then
automatic for a non-negative amount; on such an exact match the position is
activated under the reported id via `setOrderMeat` and no grace-time entry
is recorded for that id. -/
theorem claim_C3 (now : Int) (s : EngineState) (strays : List String)
    (market : String) (o : OrderInfo) (pid : Nat) (pos : Position)
    (hca : s.is_running_cancelall = false)
    (hclear : s.settings.should_clear_stray_orders = true)
    (hstranger : s.isValidOrderID o.order_number = false)
    (hprice : o.price ∈ (s.getInfo market).order_prices)
    (hunseen : alookup o.order_number s.order_grace_times = none)
    (hqueue : s.positions_queued = [pid])
    (hpos : s.lookupPos pid = some pos)
    (hm : pos.market = market) (hside : pos.side = o.side) (hp : pos.price = o.price)
    (hamt : pos.btc_amount = o.btc_amount) (hamt0 : 0 ≤ pos.btc_amount)
    (hreq : pos.order_request_time < now - 10000) :
    openOrdersStep now (s, strays) (market, o) =
      (setOrderMeat s pid o.order_number now, strays) ∧
    alookup o.order_number
      (openOrdersStep now (s, strays) (market, o)).1.order_grace_times = none := by
  have hratio1 : pos.btc_amount * (999/1000) ≤ o.btc_amount := by
    rw [← hamt]; nlinarith [hamt0]
  have hratio2 : o.btc_amount ≤ pos.btc_amount * (1001/1000) := by
    rw [← hamt]; nlinarith [hamt0]
  have hvalidP : ¬ s.isValidOrderID o.order_number = true := by
    rw [hstranger]; simp
  have hgate : s.settings.should_clear_stray_orders = true ∧
      ¬ s.isValidOrderID o.order_number = true := ⟨hclear, hvalidP⟩
  have hf1 : s.positions_queued.find? (fun pid =>
      match s.lookupPos pid with
      | none => false
      | some pos => decide (
          pos.market = market ∧ pos.side = o.side ∧ pos.price = o.price ∧
          pos.btc_amount = o.btc_amount ∧
          pos.btc_amount * (999/1000) ≤ o.btc_amount ∧
          o.btc_amount ≤ pos.btc_amount * (1001/1000))) = some pid := by
    rw [hqueue]
    refine List.find?_cons_of_pos _ ?_
    show (match s.lookupPos pid with
      | none => false
      | some pos => decide (
          pos.market = market ∧ pos.side = o.side ∧ pos.price = o.price ∧
          pos.btc_amount = o.btc_amount ∧
          pos.btc_amount * (999/1000) ≤ o.btc_amount ∧
          o.btc_amount ≤ pos.btc_amount * (1001/1000))) = true
    rw [hpos]
    exact decide_eq_true ⟨hm, hside, hp, hamt, hratio1, hratio2⟩
  have hif2 : (match s.lookupPos pid with
      | some pos => decide (¬ s.isValidOrderID o.order_number ∧
          pos.order_request_time < now - 10000)
      | none => false) = true := by
    rw [hpos]
    exact decide_eq_true ⟨hvalidP, hreq⟩
  have hstep : openOrdersStep now (s, strays) (market, o) =
      (setOrderMeat s pid o.order_number now, strays) := by
    simp only [openOrdersStep, hca, hgate, hprice, hunseen, hf1, hif2, hpos, hreq,
      Bool.false_eq_true, false_and, not_true, and_false, not_false_eq_true,
      true_and, and_true, and_self, decide_True, eq_self_iff_true,
      if_true, if_false, ite_true, ite_false]
  refine ⟨hstep, ?_⟩
  rw [hstep]
  show alookup o.order_number (setOrderMeat s pid o.order_number now).order_grace_times = none
  rw [setOrderMeat_grace]
  exact hunseen

/-- A queued buy position whose `btc_amount` equals a reported order's. -/
def c3pos : Position :=
  { market := "m", side := Side.buy, market_indices := [0],
    buy_price := 2, sell_price := 3, buy_price_original := 2, sell_price_original := 3,
    price := 2, quantity := 1, btc_amount := 1, order_number := "", strategy_tag := "",
    is_onetime := false, is_taker := false, is_landmark := false, is_slippage := false,
    is_cancelling := false, is_new_hilo_order := false,
    order_request_time := 0, order_set_time := 0, order_cancel_time := 0,
    order_getorder_time := 0, max_age_minutes := 0, price_reset_count := 0,
    cancel_reason := CancelReason.cnone }

/-- An engine state with `c3pos` queued and stray clearing enabled. -/
def c3state : EngineState :=
  { next_pid := 1, store := [(0, c3pos)], positions_all := [0], positions_queued := [0],
    positions_active := [], positions_by_number := [],
    market_info := [("m", { order_prices := [2], position_index := [],
                            highest_buy := 1, lowest_sell := 3, price_ticksize := 1 })],
    diverge_converge := [], diverging_converging := [], order_grace_times := [],
    is_running_cancelall := false, cancel_market_filter := "", wss_1000_state := false,
    is_testing := false,
    settings := { request_timeout := 60000, cancel_timeout := 300000,
                  safety_delay_time := 2000, ticker_safety_delay_time := 2000,
                  stray_grace_time_limit := 600000, should_clear_stray_orders := true,
                  should_clear_stray_orders_all := false,
                  should_mitigate_blank_orderbook_flash := false },
    events := [] }

/-- Witness instantiating the exact-amount reconciliation: the unseen
reported id "N7" exactly matches the queued position and activates it, and
no grace-time entry appears. -/
theorem claim_C3_witness :
    openOrdersStep 20000 (c3state, []) ("m", ⟨"N7", Side.buy, 2, 1⟩) =
      (setOrderMeat c3state 0 "N7" 20000, []) ∧
    alookup "N7"
      (openOrdersStep 20000 (c3state, []) ("m", ⟨"N7", Side.buy, 2, 1⟩)).1.order_grace_times
      = none :=
  claim_C3 20000 c3state [] "m" ⟨"N7", Side.buy, 2, 1⟩ 0 c3pos rfl rfl rfl (by decide)
    rfl rfl rfl rfl rfl rfl rfl (by decide) (by decide)

/-- The state of the spec's 0.5004-versus-0.5 example: the queued position
asks for 0.5 while the exchange reports 0.5004 under the unknown id "N7". -/
def c3bstate : EngineState :=
  { c3state with store := [(0, { c3pos with btc_amount := mkRat 1 2 })] }

/-- **C3, counterexample to the spec's sentence.**  A reported `btc_amount`
of 0.5004 is within ±0.1 % of a queued 0.5, yet `processOpenOrders` does
not activate the queued position (the code also demands exact equality of
`btc_amount`): the position stays queued, nothing becomes active, and a
grace-time entry IS recorded for the reported id. -/
theorem claim_C3_counterexample :
    (processOpenOrders c3bstate ["N7"]
        [("m", ⟨"N7", Side.buy, 2, mkRat 5004 10000⟩)] 20000 20000).positions_queued = [0] ∧
    (processOpenOrders c3bstate ["N7"]
        [("m", ⟨"N7", Side.buy, 2, mkRat 5004 10000⟩)] 20000 20000).positions_active = [] ∧
    alookup "N7" (processOpenOrders c3bstate ["N7"]
        [("m", ⟨"N7", Side.buy, 2, mkRat 5004 10000⟩)] 20000 20000).order_grace_times
      = some 20000 := by decide

/-- Invariant of the reported-orders fold of `processOpenOrders` relative
to the pre-invocation state `s0` (no queued or active positions, not in
cancel-all mode): the fold keeps the events, side sets and settings, every
grace stamp is either pre-invocation or freshly written at `now`, and every
accumulated stray id carries a pre-invocation stamp older than
`stray_grace_time_limit`. -/
def c8inv (s0 : EngineState) (now : Int) (acc : EngineState × List String) : Prop :=
  acc.1.is_running_cancelall = false ∧
  acc.1.positions_queued = [] ∧
  acc.1.positions_active = [] ∧
  acc.1.settings = s0.settings ∧
  acc.1.events = s0.events ∧
  (∀ oid, alookup oid acc.1.order_grace_times = alookup oid s0.order_grace_times ∨
    alookup oid acc.1.order_grace_times = some now) ∧
  (∀ oid, oid ∈ acc.2 → ∃ t0, alookup oid s0.order_grace_times = some t0 ∧
    s0.settings.stray_grace_time_limit < now - t0)

theorem c8inv_step (s0 : EngineState) (now : Int)
    (hlim : 0 ≤ s0.settings.stray_grace_time_limit)
    (acc : EngineState × List String) (mo : String × OrderInfo)
    (h : c8inv s0 now acc) : c8inv s0 now (openOrdersStep now acc mo) := by
  obtain ⟨hca, hq, hact, hset, hev, hgrace, hstray⟩ := h
  simp only [openOrdersStep, hca, Bool.false_eq_true, false_and, if_false, ite_false]
  split
  · split
    · exact ⟨hca, hq, hact, hset, hev, hgrace, hstray⟩
    · split
      · -- unseen id: no queued position can match, so a grace stamp is written
        simp only [hq, List.find?_nil]
        refine ⟨rfl, rfl, hact, hset, hev, ?_, hstray⟩
        intro oid
        by_cases hoid : oid = mo.2.order_number
        · subst hoid
          exact Or.inr (alookup_ainsert _ now _)
        · show alookup oid (ainsert mo.2.order_number now acc.1.order_grace_times) =
            alookup oid s0.order_grace_times ∨ _ = some now
          rw [alookup_ainsert_ne _ _ hoid]
          exact hgrace oid
      · -- already stamped: possibly queued for stray cancellation
        rename_i seen heq
        split
        · rename_i hdue
          refine ⟨hca, hq, hact, hset, hev, hgrace, ?_⟩
          intro oid hmem
          rcases List.mem_append.mp hmem with hm | hm
          · exact hstray oid hm
          · have hm' : oid = mo.2.order_number := by simpa using hm
            subst hm'
            rcases hgrace mo.2.order_number with hg | hg
            · refine ⟨seen, ?_, ?_⟩
              · rw [← hg]; exact heq
              · rw [← hset]; exact hdue
            · have : (some seen : Option Int) = some now := by rw [← heq, hg]
              have hseen : seen = now := Option.some.inj this
              rw [hset, hseen] at hdue
              simp at hdue
              exact absurd hdue (not_lt.mpr hlim)
        · exact ⟨hca, hq, hact, hset, hev, hgrace, hstray⟩
  · exact ⟨hca, hq, hact, hset, hev, hgrace, hstray⟩

theorem c8inv_fold (s0 : EngineState) (now : Int)
    (hlim : 0 ≤ s0.settings.stray_grace_time_limit)
    (orders : List (String × OrderInfo)) (acc : EngineState × List String)
    (h : c8inv s0 now acc) :
    c8inv s0 now (orders.foldl (openOrdersStep now) acc) := by
  induction orders generalizing acc with
  | nil => exact h
  | cons o rest ih => exact ih _ (c8inv_step s0 now hlim acc o h)

theorem strayFold_settings (now : Int) (l : List String) (s : EngineState) :
    (l.foldl (strayCancelStep now) s).settings = s.settings := by
  induction l generalizing s with
  | nil => rfl
  | cons a t ih => exact ih _

theorem strayFold_active (now : Int) (l : List String) (s : EngineState) :
    (l.foldl (strayCancelStep now) s).positions_active = s.positions_active := by
  induction l generalizing s with
  | nil => rfl
  | cons a t ih => exact ih _

theorem strayFold_events (now : Int) (l : List String) (s : EngineState) :
    (l.foldl (strayCancelStep now) s).events = s.events ++ l.map Event.sendCancel := by
  induction l generalizing s with
  | nil => simp
  | cons a t ih =>
    rw [List.foldl_cons, ih]
    show (s.events ++ [Event.sendCancel a]) ++ t.map Event.sendCancel = _
    simp

theorem strayFold_grace (now : Int) (l : List String) (s : EngineState) (oid : String) :
    alookup oid (l.foldl (strayCancelStep now) s).order_grace_times =
      if oid ∈ l then some (now + s.settings.stray_grace_time_limit)
      else alookup oid s.order_grace_times := by
  induction l generalizing s with
  | nil => simp
  | cons a t ih =>
    rw [List.foldl_cons, ih]
    by_cases ht : oid ∈ t
    · rw [if_pos ht, if_pos (List.mem_cons_of_mem a ht)]
      rfl
    · rw [if_neg ht]
      by_cases ha : oid = a
      · subst ha
        rw [if_pos (List.mem_cons_self oid t)]
        show alookup oid (ainsert oid (now + s.settings.stray_grace_time_limit)
          s.order_grace_times) = _
        rw [alookup_ainsert]
      · rw [if_neg (by simp [ha, ht])]
        show alookup oid (ainsert a (now + s.settings.stray_grace_time_limit)
          s.order_grace_times) = alookup oid s.order_grace_times
        rw [alookup_ainsert_ne _ _ ha]

/-- **C8 (amended).**  When not in user cancel-all mode (there
`processOpenOrders` cancels unowned ids outright, see the counterexample)
and with no queued or active positions in play, every transport cancel
issued by `processOpenOrders` beyond the pre-existing events is for a stray
id whose grace stamp predates the invocation by more than
`stray_grace_time_limit`; each cancelled id's stamp is set to
`now + stray_grace_time_limit` (not advanced by the limit from its old
value), and if more than 50 stray ids are due at once none of them is
cancelled. -/
theorem claim_C8 (s : EngineState) (order_numbers : List String)
    (orders : List (String × OrderInfo)) (request_time now : Int)
    (hca : s.is_running_cancelall = false)
    (hlim : 0 ≤ s.settings.stray_grace_time_limit)
    (hq : s.positions_queued = [])
    (hact : s.positions_active = []) :
    (∀ oid, Event.sendCancel oid ∈
        (processOpenOrders s order_numbers orders request_time now).events →
      Event.sendCancel oid ∈ s.events ∨
      ∃ t0, alookup oid s.order_grace_times = some t0 ∧
        s.settings.stray_grace_time_limit < now - t0 ∧
        alookup oid
            (processOpenOrders s order_numbers orders request_time now).order_grace_times =
          some (now + s.settings.stray_grace_time_limit)) ∧
    (50 < (orders.foldl (openOrdersStep now) (s, [])).2.length →
      (processOpenOrders s order_numbers orders request_time now).events = s.events) := by
  have hinv := c8inv_fold s now hlim orders (s, [])
    ⟨hca, hq, hact, rfl, rfl, fun _ => Or.inl rfl, fun oid hmem => absurd hmem (by simp)⟩
  obtain ⟨hca1, hq1, hact1, hset1, hev1, hgrace1, hstray1⟩ := hinv
  by_cases hlen : 50 < (orders.foldl (openOrdersStep now) (s, [])).2.length
  · have hmain : processOpenOrders s order_numbers orders request_time now =
        (orders.foldl (openOrdersStep now) (s, [])).1 := by
      simp only [processOpenOrders, hca1, Bool.false_eq_true, if_false, ite_false,
        if_pos hlen, hact1, List.length_nil, Nat.not_lt_zero, and_false, if_true, ite_true,
        openOrdersFillCandidates, List.filter_nil, processFilledOrders1, sortBatch,
        List.foldl_nil, List.map_nil, dispatchFills]
    rw [hmain]
    refine ⟨?_, fun _ => hev1⟩
    intro oid hmem
    rw [hev1] at hmem
    exact Or.inl hmem
  · have hmain : processOpenOrders s order_numbers orders request_time now =
        (orders.foldl (openOrdersStep now) (s, [])).2.foldl (strayCancelStep now)
          (orders.foldl (openOrdersStep now) (s, [])).1 := by
      simp only [processOpenOrders, hca1, Bool.false_eq_true, if_false, ite_false,
        if_neg hlen, strayFold_active, hact1, List.length_nil, Nat.not_lt_zero, and_false,
        if_true, ite_true, openOrdersFillCandidates, List.filter_nil, processFilledOrders1,
        sortBatch, List.foldl_nil, List.map_nil, dispatchFills]
    rw [hmain]
    refine ⟨?_, fun hl => absurd hl hlen⟩
    intro oid hmem
    rw [strayFold_events, hev1] at hmem
    rcases List.mem_append.mp hmem with hm | hm
    · exact Or.inl hm
    · have hmem2 : oid ∈ (orders.foldl (openOrdersStep now) (s, [])).2 := by
        rcases List.mem_map.mp hm with ⟨x, hx, hx2⟩
        have : x = oid := by
          injection hx2
        rwa [this] at hx
      obtain ⟨t0, ht0, hdue⟩ := hstray1 oid hmem2
      refine Or.inr ⟨t0, ht0, hdue, ?_⟩
      rw [strayFold_grace, if_pos hmem2, hset1]

/-- An idle engine state owning no orders, with a stray id "S1" stamped at
time 0 and a 5 s stray grace limit. -/
def c8state : EngineState :=
  { next_pid := 0, store := [], positions_all := [], positions_queued := [],
    positions_active := [], positions_by_number := [],
    market_info := [("m", { order_prices := [2], position_index := [],
                            highest_buy := 1, lowest_sell := 3, price_ticksize := 1 })],
    diverge_converge := [], diverging_converging := [], order_grace_times := [("S1", 0)],
    is_running_cancelall := false, cancel_market_filter := "", wss_1000_state := false,
    is_testing := false,
    settings := { request_timeout := 60000, cancel_timeout := 300000,
                  safety_delay_time := 2000, ticker_safety_delay_time := 2000,
                  stray_grace_time_limit := 5000, should_clear_stray_orders := true,
                  should_clear_stray_orders_all := false,
                  should_mitigate_blank_orderbook_flash := false },
    events := [] }

/-- Witness instantiating the amended stray-cancellation property on
`c8state` with one reported stray order. -/
theorem claim_C8_witness :
    (∀ oid, Event.sendCancel oid ∈
        (processOpenOrders c8state ["S1"] [("m", ⟨"S1", Side.buy, 2, 1⟩)] 20000 20000).events →
      Event.sendCancel oid ∈ c8state.events ∨
      ∃ t0, alookup oid c8state.order_grace_times = some t0 ∧
        c8state.settings.stray_grace_time_limit < 20000 - t0 ∧
        alookup oid (processOpenOrders c8state ["S1"]
            [("m", ⟨"S1", Side.buy, 2, 1⟩)] 20000 20000).order_grace_times =
          some (20000 + c8state.settings.stray_grace_time_limit)) ∧
    (50 < ([("m", (⟨"S1", Side.buy, 2, 1⟩ : OrderInfo))].foldl (openOrdersStep 20000)
        (c8state, [])).2.length →
      (processOpenOrders c8state ["S1"] [("m", ⟨"S1", Side.buy, 2, 1⟩)] 20000 20000).events =
        c8state.events) :=
  claim_C8 c8state ["S1"] [("m", ⟨"S1", Side.buy, 2, 1⟩)] 20000 20000 rfl (by decide) rfl rfl

/-- The `c8state` idle engine put into user cancel-all mode over all
markets. -/
def c8castate : EngineState :=
  { c8state with is_running_cancelall := true, cancel_market_filter := "all",
                 order_grace_times := [] }

/-- **C8, counterexample to the spec's sentence.**  In user cancel-all mode
`processOpenOrders` issues a transport cancel for a reported order id it
does not own (empty by-order-id map) even though that id was never recorded
in the grace times: the "unless first recorded more than
stray_grace_time_limit earlier" precondition is bypassed entirely. -/
theorem claim_C8_counterexample :
    c8castate.order_grace_times = [] ∧
    c8castate.positions_by_number = [] ∧
    (processOpenOrders c8castate ["X1"] [("m", ⟨"X1", Side.buy, 2, 1⟩)] 20000 20000).events
      = [Event.sendCancel "X1"] := by decide

/-- The sort key a batch handle contributes to the `processFilledOrders`
`QMap` (0 for a dangling handle, which `sortStep` skips). -/
def batchKey (s : EngineState) (key : Position → Rat) (pid : Nat) : Rat :=
  match s.lookupPos pid with
  | some pos => key pos
  | none => 0

theorem qmapInsert_perm (k : Rat) (v : Nat) (m : List (Rat × Nat))
    (h : ∀ e ∈ m, e.1 ≠ k) : (qmapInsert k v m).Perm ((k, v) :: m) := by
  induction m with
  | nil => exact List.Perm.refl _
  | cons e l ih =>
    obtain ⟨k', v'⟩ := e
    rw [qmapInsert]
    by_cases h1 : k < k'
    · rw [if_pos h1]
    · rw [if_neg h1]
      by_cases h2 : k = k'
    --
      · exact absurd h2.symm (h (k', v') (List.mem_cons_self _ _))
      · rw [if_neg h2]
        exact (List.Perm.cons (k', v')
          (ih (fun e he => h e (List.mem_cons_of_mem _ he)))).trans
          (List.Perm.swap (k, v) (k', v') l)

theorem qmapInsert_sorted (k : Rat) (v : Nat) (m : List (Rat × Nat))
    (h : ∀ e ∈ m, e.1 ≠ k) (hs : (m.map Prod.fst).Sorted (· < ·)) :
    ((qmapInsert k v m).map Prod.fst).Sorted (· < ·) := by
  induction m with
  | nil => simp [qmapInsert]
  | cons e l ih =>
    obtain ⟨k', v'⟩ := e
    rw [List.map_cons, List.sorted_cons] at hs
    rw [qmapInsert]
    by_cases h1 : k < k'
    · rw [if_pos h1, List.map_cons, List.map_cons, List.sorted_cons]
      refine ⟨?_, ?_⟩
      · intro b hb
        rcases List.mem_cons.mp hb with hb | hb
        · rw [hb]; exact h1
        · exact lt_trans h1 (hs.1 b hb)
      · rw [List.sorted_cons]
        exact hs
    · rw [if_neg h1]
      by_cases h2 : k = k'
      · exact absurd h2.symm (h (k', v') (List.mem_cons_self _ _))
      · rw [if_neg h2, List.map_cons, List.sorted_cons]
        have hk : k' < k := lt_of_le_of_ne (not_lt.mp h1) (fun he => h2 he.symm)
        refine ⟨?_, ih (fun e he => h e (List.mem_cons_of_mem _ he)) hs.2⟩
        intro b hb
        have hmem : b ∈ (k :: l.map Prod.fst) := by
          have hperm := (qmapInsert_perm k v l
            (fun e he => h e (List.mem_cons_of_mem _ he))).map Prod.fst
          exact hperm.mem_iff.mp hb
        rcases List.mem_cons.mp hmem with hb' | hb'
        · rw [hb']; exact hk
        · exact hs.1 b hb'

theorem sortBatch_go (s : EngineState) (key : Position → Rat) (batch : List Nat) :
    ∀ acc : List (Rat × Nat),
    (∀ pid ∈ batch, (s.lookupPos pid).isSome = true) →
    batch.Pairwise (fun p q => batchKey s key p ≠ batchKey s key q) →
    (acc.map Prod.fst).Sorted (· < ·) →
    (∀ e ∈ acc, ∃ pos, s.lookupPos e.2 = some pos ∧ e.1 = key pos) →
    (∀ pid ∈ batch, ∀ e ∈ acc, e.1 ≠ batchKey s key pid) →
    ((batch.foldl (sortStep s key) acc).map Prod.snd).Perm (acc.map Prod.snd ++ batch) ∧
    ((batch.foldl (sortStep s key) acc).map Prod.fst).Sorted (· < ·) ∧
    (∀ e ∈ batch.foldl (sortStep s key) acc,
      ∃ pos, s.lookupPos e.2 = some pos ∧ e.1 = key pos) := by
  induction batch with
  | nil =>
    intro acc _ _ hsort hkeys _
    refine ⟨by simp, hsort, hkeys⟩
  | cons pid rest ih =>
    intro acc hdef hinj hsort hkeys hdisj
    obtain ⟨pos, hpos⟩ := Option.isSome_iff_exists.mp (hdef pid (List.mem_cons_self _ _))
    have hbk : batchKey s key pid = key pos := by rw [batchKey, hpos]
    have hne : ∀ e ∈ acc, e.1 ≠ key pos := by
      intro e he
      rw [← hbk]
      exact hdisj pid (List.mem_cons_self _ _) e he
    have hstep : sortStep s key acc pid = qmapInsert (key pos) pid acc := by
      rw [sortStep, hpos]
    have hperm : (qmapInsert (key pos) pid acc).Perm ((key pos, pid) :: acc) :=
      qmapInsert_perm _ _ _ hne
    have hmem' : ∀ e ∈ qmapInsert (key pos) pid acc, e ∈ (key pos, pid) :: acc :=
      fun e he => hperm.mem_iff.mp he
    have ihr := ih (qmapInsert (key pos) pid acc)
      (fun p hp => hdef p (List.mem_cons_of_mem _ hp))
      (List.Pairwise.sublist (List.sublist_cons_self pid rest) hinj)
      (qmapInsert_sorted _ _ _ hne hsort)
      (by
        intro e he
        rcases List.mem_cons.mp (hmem' e he) with he' | he'
        · exact ⟨pos, by rw [he']; exact hpos, by rw [he']⟩
        · exact hkeys e he')
      (by
        intro p hp e he
        rcases List.mem_cons.mp (hmem' e he) with he' | he'
        · rw [he', ← hbk]
          exact (List.pairwise_cons.mp hinj).1 p hp
        · exact hdisj p (List.mem_cons_of_mem _ hp) e he')
    rw [List.foldl_cons, hstep]
    refine ⟨?_, ihr.2.1, ihr.2.2⟩
    have h1 : ((qmapInsert (key pos) pid acc).map Prod.snd).Perm
        (pid :: acc.map Prod.snd) := hperm.map Prod.snd
    refine ihr.1.trans ?_
    refine (h1.append_right rest).trans ?_
    show (pid :: (acc.map Prod.snd ++ rest)).Perm (acc.map Prod.snd ++ pid :: rest)
    exact List.perm_middle.symm

theorem dispatchFills_length (ft now : Int) (l : List Nat) :
    ∀ s : EngineState, (dispatchFills ft now s l).2.length = l.length := by
  induction l with
  | nil => intro s; rfl
  | cons pid rest ih =>
    intro s
    show ((dispatchFills ft now (fillNQ s _ ft now) rest).1,
      _ :: (dispatchFills ft now (fillNQ s _ ft now) rest).2).2.length = _
    simp [ih]

/-- **C4 (amended).**  When the batch positions' sort keys are pairwise
distinct, `processFilledOrders` (first copy) dispatches exactly the batch
positions, each exactly once, in strictly ascending order of `sortKey1`
(the ratio `buy_price / sell_price`, with one-time orders keyed at 1 and
hence placed after every ping-pong ratio below 1).  Distinct keys are
necessary: the `QMap` insert replaces an existing equal key, silently
dropping a batch position (see the counterexample, where two one-time
orders share the key 1). -/
theorem claim_C4 (s : EngineState) (batch : List Nat) (ft now : Int)
    (hdef : ∀ pid ∈ batch, (s.lookupPos pid).isSome = true)
    (hinj : batch.Pairwise (fun p q => batchKey s sortKey1 p ≠ batchKey s sortKey1 q)) :
    ((sortBatch s sortKey1 batch).map Prod.snd).Perm batch ∧
    ((sortBatch s sortKey1 batch).map Prod.fst).Sorted (· < ·) ∧
    (∀ e ∈ sortBatch s sortKey1 batch,
      ∃ pos, s.lookupPos e.2 = some pos ∧ e.1 = sortKey1 pos) ∧
    (processFilledOrders1 s batch ft now).2.length = batch.length := by
  have h := sortBatch_go s sortKey1 batch [] hdef hinj (by simp) (by simp) (by simp)
  have hperm : ((sortBatch s sortKey1 batch).map Prod.snd).Perm batch := by
    have := h.1
    rwa [List.map_nil, List.nil_append] at this
  refine ⟨hperm, h.2.1, h.2.2, ?_⟩
  rw [processFilledOrders1, dispatchFills_length]
  rw [List.length_map]
  have := hperm.length_eq
  rwa [List.length_map] at this

/-- A non-one-time ping-pong position with ratio 1/2 for the sorting
witness. -/
def c4wpos0 : Position :=
  { market := "m", side := Side.buy, market_indices := [0],
    buy_price := 1, sell_price := 2, buy_price_original := 1, sell_price_original := 2,
    price := 1, quantity := 1, btc_amount := 1, order_number := "O1", strategy_tag := "",
    is_onetime := false, is_taker := false, is_landmark := false, is_slippage := false,
    is_cancelling := false, is_new_hilo_order := false,
    order_request_time := 0, order_set_time := 100, order_cancel_time := 0,
    order_getorder_time := 0, max_age_minutes := 0, price_reset_count := 0,
    cancel_reason := CancelReason.cnone }

/-- A one-time order (sort key 1) for the sorting witness. -/
def c4wpos1 : Position :=
  { c4wpos0 with order_number := "O2", is_onetime := true,
                 buy_price := 3, sell_price := 4, price := 4, side := Side.sell }

/-- An engine state owning the two witness positions. -/
def c4wstate : EngineState :=
  { next_pid := 2, store := [(0, c4wpos0), (1, c4wpos1)], positions_all := [0, 1],
    positions_queued := [], positions_active := [0, 1],
    positions_by_number := [("O1", 0), ("O2", 1)], market_info := [],
    diverge_converge := [], diverging_converging := [], order_grace_times := [],
    is_running_cancelall := false, cancel_market_filter := "", wss_1000_state := false,
    is_testing := false,
    settings := { request_timeout := 60000, cancel_timeout := 300000,
                  safety_delay_time := 2000, ticker_safety_delay_time := 2000,
                  stray_grace_time_limit := 600000, should_clear_stray_orders := false,
                  should_clear_stray_orders_all := false,
                  should_mitigate_blank_orderbook_flash := false },
    events := [] }

unseal Rat.add Rat.sub Rat.mul Rat.inv in
/-- Witness instantiating the sorting property on a batch holding a
ping-pong position (ratio 1/2) and a one-time order (key 1), given in
descending order. -/
theorem claim_C4_witness :
    ((sortBatch c4wstate sortKey1 [1, 0]).map Prod.snd).Perm [1, 0] ∧
    ((sortBatch c4wstate sortKey1 [1, 0]).map Prod.fst).Sorted (· < ·) ∧
    (∀ e ∈ sortBatch c4wstate sortKey1 [1, 0],
      ∃ pos, c4wstate.lookupPos e.2 = some pos ∧ e.1 = sortKey1 pos) ∧
    (processFilledOrders1 c4wstate [1, 0] 1 20000).2.length = [1, 0].length :=
  claim_C4 c4wstate [1, 0] 1 20000 (by decide) (by decide)

/-- The witness state with BOTH positions one-time, so that both batch
handles carry the sort key 1. -/
def c4state : EngineState :=
  { c4wstate with store := [(0, { c4wpos0 with is_onetime := true }), (1, c4wpos1)] }

/-- **C4, counterexample to the spec's sentence.**  Two one-time orders
share the sort key 1, and `QMap::insert` replaces the equal key during the
sorting pass: of the batch `[0, 1]` only the later position (order "O2") is
dispatched through fill — position 0 is silently dropped, not "dispatched
exactly once", and survives the pass. -/
theorem claim_C4_counterexample :
    (processFilledOrders1 c4state [0, 1] 1 20000).2 = ["O2"] ∧
    (processFilledOrders1 c4state [0, 1] 1 20000).1.lookupPos 0 =
      some { c4wpos0 with is_onetime := true } := by decide

theorem alookup_not_mem [DecidableEq α] (k : α) (l : List (α × β))
    (h : k ∉ l.map Prod.fst) : alookup k l = none := by
  induction l with
  | nil => rfl
  | cons e l ih =>
    obtain ⟨a, b⟩ := e
    rw [alookup]
    rw [List.map_cons, List.mem_cons] at h
    push_neg at h
    rw [if_neg (fun hk : a = k => h.1 hk.symm)]
    exact ih h.2

theorem alookup_aremove_self [DecidableEq α] (k : α) (l : List (α × β))
    (h : (l.map Prod.fst).Nodup) : alookup k (aremove k l) = none := by
  induction l with
  | nil => rfl
  | cons e l ih =>
    obtain ⟨a, b⟩ := e
    rw [List.map_cons, List.nodup_cons] at h
    rw [aremove]
    by_cases ha : a = k
    · rw [if_pos ha]
      subst ha
      exact alookup_not_mem a l h.1
    · rw [if_neg ha, alookup, if_neg ha]
      exact ih h.2

theorem alookup_aremove_ne [DecidableEq α] {k k' : α} (l : List (α × β))
    (h : k' ≠ k) : alookup k' (aremove k l) = alookup k' l := by
  induction l with
  | nil => rfl
  | cons e l ih =>
    obtain ⟨a, b⟩ := e
    rw [aremove]
    by_cases ha : a = k
    · rw [if_pos ha, alookup, if_neg (fun hk : a = k' => h (hk ▸ ha.symm ▸ rfl))]
    · rw [if_neg ha, alookup, alookup]
      by_cases ha' : a = k'
      · rw [if_pos ha', if_pos ha']
      · rw [if_neg ha', if_neg ha']
        exact ih

theorem modifyAt_length (f : α → α) (n : Nat) (l : List α) :
    (modifyAt f n l).length = l.length := by
  induction l generalizing n with
  | nil => cases n <;> rfl
  | cons a l ih =>
    cases n with
    | zero => rfl
    | succ m => simp [modifyAt, ih]

theorem modifyAt_getD_self (f : α → α) (n : Nat) (l : List α) (d : α)
    (h : n < l.length) : (modifyAt f n l).getD n d = f (l.getD n d) := by
  induction l generalizing n with
  | nil => simp at h
  | cons a l ih =>
    cases n with
    | zero => rfl
    | succ m =>
      simp only [modifyAt, List.getD_cons_succ]
      exact ih m (by simpa using h)

theorem modifyAt_getD_ne (f : α → α) {n m : Nat} (l : List α) (d : α)
    (h : m ≠ n) : (modifyAt f n l).getD m d = l.getD m d := by
  induction l generalizing n m with
  | nil => cases n <;> rfl
  | cons a l ih =>
    cases n with
    | zero =>
      cases m with
      | zero => exact absurd rfl h
      | succ j => rfl
    | succ i =>
      cases m with
      | zero => rfl
      | succ j =>
        simp only [modifyAt, List.getD_cons_succ]
        exact ih (fun hji => h (by rw [hji]))

theorem iterateIndices_length (idx : List Int) (l : List PositionData) :
    (iterateIndices idx l).length = l.length := by
  induction idx generalizing l with
  | nil => rfl
  | cons i rest ih =>
    rw [iterateIndices, List.foldl_cons]
    show (iterateIndices rest _).length = l.length
    rw [ih]
    split
    · rfl
    · exact modifyAt_length _ _ _

theorem iterateIndices_getD_not_mem (idx : List Int) (l : List PositionData)
    (m : Nat) (d : PositionData) (h : (m : Int) ∉ idx) :
    (iterateIndices idx l).getD m d = l.getD m d := by
  induction idx generalizing l with
  | nil => rfl
  | cons i rest ih =>
    rw [iterateIndices, List.foldl_cons]
    show (iterateIndices rest _).getD m d = l.getD m d
    rw [List.mem_cons] at h
    push_neg at h
    rw [ih _ h.2]
    split
    · rfl
    · rename_i hin
      push_neg at hin
      refine modifyAt_getD_ne _ _ _ ?_
      intro hm
      exact h.1 (by rw [hm, Int.toNat_of_nonneg hin.2])

theorem iterateIndices_getD_mem (idx : List Int) (l : List PositionData)
    (d : PositionData) (hnd : idx.Nodup) (i : Int) (h0 : 0 ≤ i)
    (hlen : i < (l.length : Int)) (hmem : i ∈ idx) :
    (iterateIndices idx l).getD i.toNat d =
      PositionData.iterateFillCount (l.getD i.toNat d) := by
  induction idx generalizing l with
  | nil => simp at hmem
  | cons j rest ih =>
    rw [List.nodup_cons] at hnd
    rw [iterateIndices, List.foldl_cons]
    rcases List.mem_cons.mp hmem with hij | hir
    · subst hij
      rw [if_neg (by push_neg; exact ⟨by omega, h0⟩)]
      show (iterateIndices rest _).getD i.toNat d = _
      rw [iterateIndices_getD_not_mem _ _ _ _ (by rw [Int.toNat_of_nonneg h0]; exact hnd.1)]
      exact modifyAt_getD_self _ _ _ _ (by omega)
    · show (iterateIndices rest _).getD i.toNat d = _
      split
      · exact ih _ hnd.2 hlen hir
      · rename_i hin
        push_neg at hin
        have hlen2 : i < ((modifyAt PositionData.iterateFillCount j.toNat l).length : Int) := by
          rw [modifyAt_length]; exact hlen
        rw [ih _ hnd.2 hlen2 hir]
        rw [modifyAt_getD_ne _ _ _ (fun he => ?_)]
        have hij : i = j := by omega
        exact absurd (hij ▸ hir) hnd.1

theorem tryMoveOrder1_unset (info : MarketInfo) (pos : Position)
    (h : info.highest_buy ≤ 0 ∨ info.lowest_sell ≤ 0) :
    tryMoveOrder1 info pos = (pos, false) := by
  simp only [tryMoveOrder1]
  rw [if_pos h]

theorem deletePosition_store (s : EngineState) (pid : Nat) (p : Position)
    (hg : pid ∈ s.positions_active ∨ pid ∈ s.positions_queued)
    (hlp : s.lookupPos pid = some p) :
    (deletePosition s pid).store = aremove pid s.store := by
  rw [deletePosition, if_neg (not_not_intro hg), hlp]
  rfl

theorem deletePosition_events (s : EngineState) (pid : Nat) :
    (deletePosition s pid).events = s.events := by
  unfold deletePosition
  split
  · rfl
  · split <;> rfl

theorem deletePosition_next (s : EngineState) (pid : Nat) :
    (deletePosition s pid).next_pid = s.next_pid := by
  unfold deletePosition
  split
  · rfl
  · split <;> rfl

theorem deletePosition_position_index (s : EngineState) (pid : Nat) (m : String) :
    ((deletePosition s pid).getInfo m).position_index = (s.getInfo m).position_index := by
  unfold deletePosition
  split
  · rfl
  · split
    · rfl
    · rename_i pos heq
      simp only [EngineState.getInfo, EngineState.setInfo, removeFromDC, EngineState.setDCC,
        EngineState.getDCC]
      by_cases hm : pos.market = m
      · subst hm
        rw [alookup_ainsert]
        rfl
      · rw [alookup_ainsert_ne _ _ (fun h : m = pos.market => hm h.symm)]

theorem alookup_mem [DecidableEq α] (k : α) (l : List (α × β)) (v : β)
    (h : alookup k l = some v) : k ∈ l.map Prod.fst := by
  induction l with
  | nil => exact absurd h (by simp [alookup])
  | cons e l ih =>
    obtain ⟨a, b⟩ := e
    rw [alookup] at h
    by_cases ha : a = k
    · rw [List.map_cons, ha]
      exact List.mem_cons_self _ _
    · rw [if_neg ha] at h
      exact List.mem_cons_of_mem _ (ih h)

theorem updatePos_store_keys (s : EngineState) (pid : Nat) (f : Position → Position) :
    (s.updatePos pid f).store.map Prod.fst = s.store.map Prod.fst := by
  show (s.store.map _).map Prod.fst = _
  rw [List.map_map]
  rfl

/-- The slot data the ping-pong replacement is built from: the position's
lowest-index slot as it stands after the fill pass advanced the fill counts
(and possibly toggled `alternate_size`). -/
def filledSlot (s : EngineState) (pos : Position) : PositionData :=
  slotAt { s.getInfo pos.market with
           position_index :=
             iterateIndices pos.market_indices (s.getInfo pos.market).position_index }
    (pos.market_indices.headD 0)

theorem addPosition_pingpong (s : EngineState) (side : Side) (market : String)
    (buy sell size : Rat) (indices : List Int) (now : Int)
    (hm : ¬ market = "") (hi : ¬ indices = [])
    (hbuy : 0 < buy) (hbs : buy < sell) (hsize : 0 < size)
    (hhi : (s.getInfo market).highest_buy ≤ 0)
    (htest : s.is_testing = false) :
    ∃ newp : Position,
      addPosition s market side buy sell size none OType.active "" indices false true now =
        ((({ s with next_pid := s.next_pid + 1
                  , store := (s.next_pid, newp) :: s.store
                  , positions_queued := s.next_pid :: s.positions_queued
                  , positions_all := s.next_pid :: s.positions_all } : EngineState).setInfo
            market
            { ({ s with next_pid := s.next_pid + 1
                      , store := (s.next_pid, newp) :: s.store
                      , positions_queued := s.next_pid :: s.positions_queued
                      , positions_all := s.next_pid :: s.positions_all } :
                  EngineState).getInfo market with
              order_prices :=
                (({ s with next_pid := s.next_pid + 1
                         , store := (s.next_pid, newp) :: s.store
                         , positions_queued := s.next_pid :: s.positions_queued
                         , positions_all := s.next_pid :: s.positions_all } :
                    EngineState).getInfo market).order_prices ++ [newp.price] }).emit
          (Event.sendBuySell s.next_pid), some s.next_pid) ∧
      newp.side = side ∧ newp.market_indices = indices ∧ newp.buy_price = buy ∧
      newp.sell_price = sell ∧ newp.btc_amount = size ∧ newp.is_onetime = false ∧
      newp.is_cancelling = false ∧ newp.order_number = "" := by
  have hval : ¬ (sell ≤ buy ∨ buy ≤ 0 ∨ sell ≤ 0) := by
    push_neg
    exact ⟨hbs, hbuy, lt_trans hbuy hbs⟩
  have hq1 : ¬ (size ≤ 0) := not_le.mpr hsize
  cases side with
  | buy =>
    refine ⟨{ mkPosition (s.getInfo market) market Side.buy buy sell size "" indices false with
        is_onetime := false, is_taker := false }, ?_, rfl, rfl, rfl, rfl, rfl, rfl, rfl, rfl⟩
    have hq0 : ¬ (buy = 0) := ne_of_gt hbuy
    have hq2 : ¬ (size / buy ≤ 0) := not_le.mpr (div_pos hsize hbuy)
    simp only [addPosition, addPositionMeat, mkPosition, OType.isOnetime, OType.isTaker, OType.isOverride,
      OType.isActiveType, OType.timeoutArg, hm, hi, hval, htest, hq0, hq1, hq2,
      show ∀ p, tryMoveOrder1 (s.getInfo market) p = (p, false)
        from fun p => tryMoveOrder1_unset _ p (Or.inl hhi),
      show ∀ p, tryMoveOrder1 ((alookup market s.market_info).getD default) p = (p, false)
        from fun p => tryMoveOrder1_unset _ p (Or.inl hhi),
      EngineState.setInfo, EngineState.getInfo, EngineState.emit,
      Bool.false_eq_true, false_and, and_false, true_and, and_true, not_false_eq_true,
      not_true, eq_self_iff_true, false_or, or_false, or_self, if_true, if_false,
      ite_true, ite_false]
  | sell =>
    refine ⟨{ mkPosition (s.getInfo market) market Side.sell buy sell size "" indices false with
        is_onetime := false, is_taker := false }, ?_, rfl, rfl, rfl, rfl, rfl, rfl, rfl, rfl⟩
    have hsell : 0 < sell := lt_trans hbuy hbs
    have hq0 : ¬ (sell = 0) := ne_of_gt hsell
    have hq2 : ¬ (size / sell ≤ 0) := not_le.mpr (div_pos hsize hsell)
    simp only [addPosition, addPositionMeat, mkPosition, OType.isOnetime, OType.isTaker, OType.isOverride,
      OType.isActiveType, OType.timeoutArg, hm, hi, hval, htest, hq0, hq1, hq2,
      show ∀ p, tryMoveOrder1 (s.getInfo market) p = (p, false)
        from fun p => tryMoveOrder1_unset _ p (Or.inl hhi),
      show ∀ p, tryMoveOrder1 ((alookup market s.market_info).getD default) p = (p, false)
        from fun p => tryMoveOrder1_unset _ p (Or.inl hhi),
      EngineState.setInfo, EngineState.getInfo, EngineState.emit,
      Bool.false_eq_true, false_and, and_false, true_and, and_true, not_false_eq_true,
      not_true, eq_self_iff_true, false_or, or_false, or_self, if_true, if_false,
      ite_true, ite_false]

theorem addPosition_landmark (s : EngineState) (side : Side) (market : String)
    (indices : List Int) (now : Int)
    (hm : ¬ market = "") (hi : ¬ indices = [])
    (hbp : 0 < (slotAt (s.getInfo market) (listLowest indices)).buy_price)
    (hsp : 0 < (slotAt (s.getInfo market) (listLowest indices)).sell_price)
    (hamt : 0 <
      (indices.map (fun i => (slotAt (s.getInfo market) i).order_size)).foldl (· + ·) 0)
    (hhi : (s.getInfo market).highest_buy ≤ 0)
    (htest : s.is_testing = false) :
    ∃ newp : Position,
      addPosition s market side (1 / 100000000) (2 / 100000000) 0 none OType.active ""
          indices true true now =
        ((({ s with next_pid := s.next_pid + 1
                  , store := (s.next_pid, newp) :: s.store
                  , positions_queued := s.next_pid :: s.positions_queued
                  , positions_all := s.next_pid :: s.positions_all } : EngineState).setInfo
            market
            { ({ s with next_pid := s.next_pid + 1
                      , store := (s.next_pid, newp) :: s.store
                      , positions_queued := s.next_pid :: s.positions_queued
                      , positions_all := s.next_pid :: s.positions_all } :
                  EngineState).getInfo market with
              order_prices :=
                (({ s with next_pid := s.next_pid + 1
                         , store := (s.next_pid, newp) :: s.store
                         , positions_queued := s.next_pid :: s.positions_queued
                         , positions_all := s.next_pid :: s.positions_all } :
                    EngineState).getInfo market).order_prices ++ [newp.price] }).emit
          (Event.sendBuySell s.next_pid), some s.next_pid) ∧
      newp.side = side ∧ newp.market_indices = indices ∧ newp.is_landmark = true ∧
      newp.is_onetime = false ∧ newp.order_number = "" := by
  have hval : ¬ ((2 / 100000000 : Rat) ≤ 1 / 100000000 ∨ (1 / 100000000 : Rat) ≤ 0 ∨
      (2 / 100000000 : Rat) ≤ 0) := by norm_num
  cases side with
  | buy =>
    refine ⟨{ mkPosition (s.getInfo market) market Side.buy (1 / 100000000) (2 / 100000000)
        0 "" indices true with is_onetime := false, is_taker := false },
      ?_, rfl, rfl, rfl, rfl, rfl⟩
    have hq0 : ¬ ((slotAt ((alookup market s.market_info).getD default)
        (listLowest indices)).buy_price = 0) := ne_of_gt hbp
    have hq1 : ¬ ((indices.map (fun i => (slotAt ((alookup market s.market_info).getD default)
        i).order_size)).foldl (· + ·) 0 ≤ 0) := not_le.mpr hamt
    have hq2 : ¬ ((indices.map (fun i => (slotAt ((alookup market s.market_info).getD default)
        i).order_size)).foldl (· + ·) 0 /
        (slotAt ((alookup market s.market_info).getD default)
          (listLowest indices)).buy_price ≤ 0) :=
      not_le.mpr (div_pos hamt hbp)
    simp only [addPosition, addPositionMeat, mkPosition, OType.isOnetime, OType.isTaker, OType.isOverride,
      OType.isActiveType, OType.timeoutArg, hm, hi, hval, htest, hq0, hq1, hq2,
      show ∀ p, tryMoveOrder1 (s.getInfo market) p = (p, false)
        from fun p => tryMoveOrder1_unset _ p (Or.inl hhi),
      show ∀ p, tryMoveOrder1 ((alookup market s.market_info).getD default) p = (p, false)
        from fun p => tryMoveOrder1_unset _ p (Or.inl hhi),
      EngineState.setInfo, EngineState.getInfo, EngineState.emit,
      Bool.false_eq_true, Bool.true_eq_false, false_and, and_false, true_and, and_true,
      not_false_eq_true, not_true, eq_self_iff_true, false_or, or_false, or_self,
      if_true, if_false, ite_true, ite_false]
  | sell =>
    refine ⟨{ mkPosition (s.getInfo market) market Side.sell (1 / 100000000) (2 / 100000000)
        0 "" indices true with is_onetime := false, is_taker := false },
      ?_, rfl, rfl, rfl, rfl, rfl⟩
    have hq0 : ¬ ((slotAt ((alookup market s.market_info).getD default)
        (listLowest indices)).sell_price = 0) := ne_of_gt hsp
    have hq1 : ¬ ((indices.map (fun i => (slotAt ((alookup market s.market_info).getD default)
        i).order_size)).foldl (· + ·) 0 ≤ 0) := not_le.mpr hamt
    have hq2 : ¬ ((indices.map (fun i => (slotAt ((alookup market s.market_info).getD default)
        i).order_size)).foldl (· + ·) 0 /
        (slotAt ((alookup market s.market_info).getD default)
          (listLowest indices)).sell_price ≤ 0) :=
      not_le.mpr (div_pos hamt hsp)
    simp only [addPosition, addPositionMeat, mkPosition, OType.isOnetime, OType.isTaker, OType.isOverride,
      OType.isActiveType, OType.timeoutArg, hm, hi, hval, htest, hq0, hq1, hq2,
      show ∀ p, tryMoveOrder1 (s.getInfo market) p = (p, false)
        from fun p => tryMoveOrder1_unset _ p (Or.inl hhi),
      show ∀ p, tryMoveOrder1 ((alookup market s.market_info).getD default) p = (p, false)
        from fun p => tryMoveOrder1_unset _ p (Or.inl hhi),
      EngineState.setInfo, EngineState.getInfo, EngineState.emit,
      Bool.false_eq_true, Bool.true_eq_false, false_and, and_false, true_and, and_true,
      not_false_eq_true, not_true, eq_self_iff_true, false_or, or_false, or_self,
      if_true, if_false, ite_true, ite_false]

/-- **C2.**  The fill pipeline of `fillNQ` on a ping-pong position (reason
`spec-modelled`: the `Position` constructor, `Position::flip` and
`PositionData::iterateFillCount` live in position.h/.cpp, which the
repository does not ship; they are modelled from the spec's data-model
section).  For a dispatched fill on a non-one-time position: every in-range
slot index has its fill count advanced (toggling `alternate_size`), the
filled position is removed from the store, and one replacement position is
created on the opposite side over the same `market_indices`, its prices and
size read from the now-current slot data, and submitted; a one-time fill
removes the position, allocates nothing and submits nothing.  The ticker
must be unset (`highest_buy ≤ 0`) so that the post-only improvement of
`addPosition` leaves the replacement prices untouched. -/
theorem claim_C2 (s : EngineState) (oid : String) (pid : Nat) (pos : Position)
    (ft now : Int)
    (hft : ¬ (ft < 1 ∨ 5 < ft))
    (hoid : ¬ oid = "")
    (hvalid : s.isValidOrderID oid = true)
    (hbn : alookup oid s.positions_by_number = some pid)
    (hpos : s.lookupPos pid = some pos)
    (hmkt : ¬ pos.market = "")
    (hind : ¬ pos.market_indices = [])
    (hidxnd : pos.market_indices.Nodup)
    (hlm : pos.is_landmark = false)
    (hactive : pid ∈ s.positions_active)
    (hstore : (s.store.map Prod.fst).Nodup)
    (hnext : ∀ k ∈ s.store.map Prod.fst, k < s.next_pid)
    (htest : s.is_testing = false)
    (hhi : (s.getInfo pos.market).highest_buy ≤ 0)
    (hnd : 0 < (filledSlot s pos).buy_price ∧
      (filledSlot s pos).buy_price < (filledSlot s pos).sell_price ∧
      0 < (filledSlot s pos).order_size) :
    (pos.is_onetime = false →
      ∃ newp : Position,
        (fillNQ s oid ft now).lookupPos pid = none ∧
        (fillNQ s oid ft now).lookupPos s.next_pid = some newp ∧
        newp.side = pos.side.flipped ∧
        newp.market_indices = pos.market_indices ∧
        newp.buy_price = (filledSlot s pos).buy_price ∧
        newp.sell_price = (filledSlot s pos).sell_price ∧
        newp.btc_amount = (filledSlot s pos).order_size ∧
        newp.order_number = "" ∧
        (fillNQ s oid ft now).events = s.events ++ [Event.sendBuySell s.next_pid] ∧
        ((fillNQ s oid ft now).getInfo pos.market).position_index =
          iterateIndices pos.market_indices ((s.getInfo pos.market).position_index) ∧
        (∀ i ∈ pos.market_indices, 0 ≤ i →
          i < (((s.getInfo pos.market).position_index).length : Int) →
          slotAt ((fillNQ s oid ft now).getInfo pos.market) i =
            PositionData.iterateFillCount (slotAt (s.getInfo pos.market) i))) ∧
    (pos.is_onetime = true →
      (fillNQ s oid ft now).lookupPos pid = none ∧
      (fillNQ s oid ft now).next_pid = s.next_pid ∧
      (fillNQ s oid ft now).events = s.events) := by
  have hpmem : pid ∈ s.store.map Prod.fst := alookup_mem _ _ _ hpos
  have hpidlt : pid < s.next_pid := hnext pid hpmem
  have hpidne : ¬ s.next_pid = pid := fun h => absurd (h ▸ hpidlt) (lt_irrefl _)
  have h1 : fillNQ s oid ft now =
      deletePosition (flipPosition (s.setInfo pos.market
        { s.getInfo pos.market with
          position_index := iterateIndices pos.market_indices (s.getInfo pos.market).position_index })
        pid now) pid := by
    simp only [fillNQ, hft, hoid, hvalid, hbn, hpos, Bool.false_eq_true, eq_self_iff_true,
      not_true, or_self, false_or, or_false, if_false, ite_false, if_true, ite_true]
  set s2 := s.setInfo pos.market
    { s.getInfo pos.market with
      position_index := iterateIndices pos.market_indices (s.getInfo pos.market).position_index } with hs2
  have hpos2 : s2.lookupPos pid = some pos := hpos
  have hgi : s2.getInfo pos.market =
      { s.getInfo pos.market with
        position_index := iterateIndices pos.market_indices (s.getInfo pos.market).position_index } := by
    rw [hs2]
    simp only [EngineState.setInfo, EngineState.getInfo]
    rw [alookup_ainsert]
    rfl
  refine ⟨?_, ?_⟩
  · -- ping-pong fill: replacement on the opposite side from current slots
    intro hone
    set s3 := s2.updatePos pid (fun p => { p with side := p.side.flipped }) with hs3
    have hgi3 : s3.getInfo pos.market =
        { s.getInfo pos.market with
          position_index := iterateIndices pos.market_indices (s.getInfo pos.market).position_index } := hgi
    have h2 : flipPosition s2 pid now =
        (addPosition s3 pos.market pos.side.flipped
          (slotAt (s3.getInfo pos.market) (pos.market_indices.headD 0)).buy_price
          (slotAt (s3.getInfo pos.market) (pos.market_indices.headD 0)).sell_price
          (slotAt (s3.getInfo pos.market) (pos.market_indices.headD 0)).order_size
          none OType.active "" pos.market_indices false true now).1 := by
      rw [flipPosition, hpos2]
      simp only [hone, hlm, Bool.false_eq_true, if_false, ite_false]
    have hslotfs : slotAt (s3.getInfo pos.market) (pos.market_indices.headD 0) =
        filledSlot s pos := by
      rw [hgi3]
      rfl
    obtain ⟨newp, haddeq, hsideN, hindN, hbuyN, hsellN, hbtcN, honeN, hcanN, honumN⟩ :=
      addPosition_pingpong s3 pos.side.flipped pos.market
        (slotAt (s3.getInfo pos.market) (pos.market_indices.headD 0)).buy_price
        (slotAt (s3.getInfo pos.market) (pos.market_indices.headD 0)).sell_price
        (slotAt (s3.getInfo pos.market) (pos.market_indices.headD 0)).order_size
        pos.market_indices now hmkt hind
        (by rw [hslotfs]; exact hnd.1)
        (by rw [hslotfs]; exact hnd.2.1)
        (by rw [hslotfs]; exact hnd.2.2)
        (by rw [hgi3]; exact hhi)
        htest
    have hnext3 : ¬ (s3.next_pid = pid) := hpidne
    have hlook3 : s3.lookupPos pid = some { pos with side := pos.side.flipped } := by
      rw [hs3, lookupPos_updatePos, hpos2]
      rfl
    have hkeys3 : s3.store.map Prod.fst = s.store.map Prod.fst := by
      rw [hs3]
      exact updatePos_store_keys s2 pid _
    set VA := (addPosition s3 pos.market pos.side.flipped
      (slotAt (s3.getInfo pos.market) (pos.market_indices.headD 0)).buy_price
      (slotAt (s3.getInfo pos.market) (pos.market_indices.headD 0)).sell_price
      (slotAt (s3.getInfo pos.market) (pos.market_indices.headD 0)).order_size
      none OType.active "" pos.market_indices false true now).1 with hVA
    have hVAstore : VA.store = (s3.next_pid, newp) :: s3.store := by
      rw [hVA, haddeq]
      rfl
    have hVAact : pid ∈ VA.positions_active := by
      rw [hVA, haddeq]
      exact hactive
    have hVAlp : VA.lookupPos pid = some { pos with side := pos.side.flipped } := by
      show alookup pid VA.store = _
      rw [hVAstore, alookup_cons, if_neg hnext3]
      exact hlook3
    have hVAevents : VA.events = s.events ++ [Event.sendBuySell s.next_pid] := by
      rw [hVA, haddeq]
      rfl
    have hVApidx : (VA.getInfo pos.market).position_index =
        iterateIndices pos.market_indices ((s.getInfo pos.market).position_index) := by
      rw [hVA, haddeq, hs3, hs2]
      simp only [EngineState.getInfo, EngineState.setInfo, EngineState.emit,
        EngineState.updatePos, alookup_ainsert, Option.getD_some]
    refine ⟨newp, ?_, ?_, hsideN, hindN, by rw [hbuyN, hslotfs], by rw [hsellN, hslotfs],
      by rw [hbtcN, hslotfs], honumN, ?_, ?_, ?_⟩
    · -- the filled position is gone
      rw [h1, h2]
      show alookup pid (deletePosition VA pid).store = none
      rw [deletePosition_store VA pid { pos with side := pos.side.flipped }
        (Or.inl hVAact) hVAlp, hVAstore]
      refine alookup_aremove_self pid _ ?_
      rw [List.map_cons, hkeys3]
      refine List.Nodup.cons (fun hmem => ?_) hstore
      have hlt := hnext s3.next_pid hmem
      have heqn : s3.next_pid = s.next_pid := rfl
      omega
    · -- the replacement is stored under the fresh handle
      rw [h1, h2]
      show alookup s.next_pid (deletePosition VA pid).store = some newp
      rw [deletePosition_store VA pid { pos with side := pos.side.flipped }
        (Or.inl hVAact) hVAlp, hVAstore]
      rw [alookup_aremove_ne _ hpidne]
      show (if s3.next_pid = s.next_pid then some newp else alookup s.next_pid s3.store) = _
      rw [if_pos (show s3.next_pid = s.next_pid from rfl)]
    · -- exactly one buy/sell submission for the replacement
      rw [h1, h2, deletePosition_events, hVAevents]
    · -- the market's slots carry the advanced fill counts
      rw [h1, h2, deletePosition_position_index, hVApidx]
    · intro i hi h0i hleni
      rw [h1, h2]
      rw [slotAt, if_neg (not_lt.mpr h0i), slotAt, if_neg (not_lt.mpr h0i)]
      rw [deletePosition_position_index, hVApidx]
      exact iterateIndices_getD_mem _ _ _ hidxnd i h0i hleni hi
  · -- one-time fill: remove, allocate nothing, submit nothing
    intro hone
    have h2b : flipPosition s2 pid now = s2 := by
      rw [flipPosition, hpos2]
      simp only [hone, if_true, ite_true]
    refine ⟨?_, ?_, ?_⟩
    · rw [h1, h2b]
      show alookup pid (deletePosition s2 pid).store = none
      rw [deletePosition_store s2 pid pos (Or.inl hactive) hpos2]
      exact alookup_aremove_self pid s.store hstore
    · rw [h1, h2b, deletePosition_next]
      rfl
    · rw [h1, h2b, deletePosition_events]
      rfl

/-- An active ping-pong buy position over slot 0 for the fill witness. -/
def c2pos : Position :=
  { market := "m", side := Side.buy, market_indices := [0],
    buy_price := 1, sell_price := 2, buy_price_original := 1, sell_price_original := 2,
    price := 1, quantity := 3, btc_amount := 3, order_number := "OC2", strategy_tag := "",
    is_onetime := false, is_taker := false, is_landmark := false, is_slippage := false,
    is_cancelling := false, is_new_hilo_order := false,
    order_request_time := 0, order_set_time := 100, order_cancel_time := 0,
    order_getorder_time := 0, max_age_minutes := 0, price_reset_count := 0,
    cancel_reason := CancelReason.cnone }

/-- An engine state owning `c2pos` with one declarative slot and no ticker
data. -/
def c2state : EngineState :=
  { next_pid := 1, store := [(0, c2pos)], positions_all := [0], positions_queued := [],
    positions_active := [0], positions_by_number := [("OC2", 0)],
    market_info := [("m", { order_prices := [1],
                            position_index := [⟨1, 2, 3, none, 0⟩],
                            highest_buy := 0, lowest_sell := 0, price_ticksize := 0 })],
    diverge_converge := [], diverging_converging := [], order_grace_times := [],
    is_running_cancelall := false, cancel_market_filter := "", wss_1000_state := false,
    is_testing := false,
    settings := { request_timeout := 60000, cancel_timeout := 300000,
                  safety_delay_time := 2000, ticker_safety_delay_time := 2000,
                  stray_grace_time_limit := 600000, should_clear_stray_orders := false,
                  should_clear_stray_orders_all := false,
                  should_mitigate_blank_orderbook_flash := false },
    events := [] }

/-- Witness instantiating the ping-pong fill pipeline on `c2state`: the
fill of order "OC2" advances slot 0, removes position 0 and creates and
submits the flipped replacement under the fresh handle. -/
theorem claim_C2_witness :
    ∃ newp : Position,
      (fillNQ c2state "OC2" 1 777).lookupPos 0 = none ∧
      (fillNQ c2state "OC2" 1 777).lookupPos c2state.next_pid = some newp ∧
      newp.side = c2pos.side.flipped ∧
      newp.market_indices = c2pos.market_indices ∧
      newp.buy_price = (filledSlot c2state c2pos).buy_price ∧
      newp.sell_price = (filledSlot c2state c2pos).sell_price ∧
      newp.btc_amount = (filledSlot c2state c2pos).order_size ∧
      newp.order_number = "" ∧
      (fillNQ c2state "OC2" 1 777).events =
        c2state.events ++ [Event.sendBuySell c2state.next_pid] ∧
      ((fillNQ c2state "OC2" 1 777).getInfo c2pos.market).position_index =
        iterateIndices c2pos.market_indices ((c2state.getInfo c2pos.market).position_index) ∧
      (∀ i ∈ c2pos.market_indices, 0 ≤ i →
        i < (((c2state.getInfo c2pos.market).position_index).length : Int) →
        slotAt ((fillNQ c2state "OC2" 1 777).getInfo c2pos.market) i =
          PositionData.iterateFillCount (slotAt (c2state.getInfo c2pos.market) i)) :=
  (claim_C2 c2state "OC2" 0 c2pos 1 777 (by decide) (by decide) rfl rfl rfl (by decide)
    (by decide) (by decide) rfl (by decide) (by decide) (by decide) rfl (by decide)
    (by decide)).1 rfl

theorem foldl_erase_count (idx : List Int) (hnd : idx.Nodup) (l : List Int) (i : Int) :
    (idx.foldl (fun l j => l.erase j) l).count i =
      if i ∈ idx then l.count i - 1 else l.count i := by
  induction idx generalizing l with
  | nil => simp
  | cons j rest ih =>
    rw [List.nodup_cons] at hnd
    rw [List.foldl_cons, ih hnd.2]
    by_cases hij : i = j
    · subst hij
      rw [if_neg (fun hmem => hnd.1 hmem), if_pos (List.mem_cons_self _ _)]
      exact List.count_erase_self i l
    · by_cases hir : i ∈ rest
      · rw [if_pos hir, if_pos (List.mem_cons_of_mem _ hir), List.count_erase_of_ne hij]
      · rw [if_neg hir, if_neg (by simp [hij, hir]), List.count_erase_of_ne hij]

/-- **C1.**  The converge half of the DC coordinator
(`cancelOrderMeatDCOrder`, reason `spec-modelled`: the re-added landmark
goes through the `Position` constructor of position.cpp, which the
repository does not ship).  When the cancelled position's converge group
(`will_be_landmark = true`) becomes empty, exactly one new landmark
position is created — queued under the fresh handle, spanning exactly the
recorded `new_indices` — and one occurrence of each of those indices is
dropped from `diverging_converging[market]` (a second occurrence, which one
converge cannot reserve, stays); while the shortened group is non-empty it
is re-inserted and no position is created or removed. -/
theorem claim_C1 (s : EngineState) (pid : Nat) (pos : Position) (now : Int)
    (glist : List Nat) (newIdx : List Int)
    (hpos : s.lookupPos pid = some pos)
    (hmkt : ¬ pos.market = "")
    (hfind : s.diverge_converge.find? (fun g => decide (pid ∈ g.1)) =
      some (glist, true, newIdx))
    (hgne : ¬ glist = [])
    (hnidx : ¬ newIdx = [])
    (hnd : newIdx.Nodup)
    (hbp : 0 < (slotAt (s.getInfo pos.market) (listLowest newIdx)).buy_price)
    (hsp : 0 < (slotAt (s.getInfo pos.market) (listLowest newIdx)).sell_price)
    (hamt : 0 <
      (newIdx.map (fun i => (slotAt (s.getInfo pos.market) i).order_size)).foldl (· + ·) 0)
    (hhi : (s.getInfo pos.market).highest_buy ≤ 0)
    (htest : s.is_testing = false) :
    (glist.erase pid = [] →
      ∃ newp : Position,
        (cancelOrderMeatDCOrder s pid now).lookupPos s.next_pid = some newp ∧
        newp.is_landmark = true ∧
        newp.market_indices = newIdx ∧
        s.next_pid ∈ (cancelOrderMeatDCOrder s pid now).positions_queued ∧
        (cancelOrderMeatDCOrder s pid now).next_pid = s.next_pid + 1 ∧
        (cancelOrderMeatDCOrder s pid now).events =
          s.events ++ [Event.sendBuySell s.next_pid] ∧
        (∀ i ∈ newIdx, ((cancelOrderMeatDCOrder s pid now).getDCC pos.market).count i =
          (s.getDCC pos.market).count i - 1) ∧
        (∀ i, i ∉ newIdx → ((cancelOrderMeatDCOrder s pid now).getDCC pos.market).count i =
          (s.getDCC pos.market).count i)) ∧
    (¬ glist.erase pid = [] →
      (cancelOrderMeatDCOrder s pid now).next_pid = s.next_pid ∧
      (cancelOrderMeatDCOrder s pid now).events = s.events ∧
      (cancelOrderMeatDCOrder s pid now).store = s.store ∧
      (glist.erase pid, true, newIdx) ∈
        (cancelOrderMeatDCOrder s pid now).diverge_converge) := by
  refine ⟨?_, ?_⟩
  · intro herase
    set s1 := ({ s with diverge_converge := s.diverge_converge.erase (glist, true, newIdx) } : EngineState) with hs1
    set sA := s1.setDCC pos.market (newIdx.foldl (fun l i => l.erase i) (s1.getDCC pos.market)) with hsA
    set sB := sA.updatePos pid (fun p => { p with market_indices := newIdx }) with hsB
    have h0 : cancelOrderMeatDCOrder s pid now = addLandmarkPositionFor sB pid now := by
      simp only [cancelOrderMeatDCOrder, hpos, hfind, hgne, herase, Bool.false_eq_true,
        eq_self_iff_true, not_true, if_true, ite_true, if_false, ite_false]
    have hposA : sA.lookupPos pid = some pos := hpos
    have hlookB : sB.lookupPos pid = some { pos with market_indices := newIdx } := by
      rw [hsB, lookupPos_updatePos, hposA]
      rfl
    have h1 : cancelOrderMeatDCOrder s pid now =
        (addPosition sB pos.market pos.side (1 / 100000000) (2 / 100000000) 0 none
          OType.active "" newIdx true true now).1 := by
      rw [h0, addLandmarkPositionFor, hlookB]
    obtain ⟨newp, haddeq, hsideN, hindN, hlmN, honeN, honumN⟩ :=
      addPosition_landmark sB pos.side pos.market newIdx now hmkt hnidx hbp hsp hamt hhi htest
    refine ⟨newp, ?_, hlmN, hindN, ?_, ?_, ?_, ?_, ?_⟩
    · rw [h1, haddeq]
      show alookup s.next_pid ((sB.next_pid, newp) :: sB.store) = some newp
      rw [alookup_cons, if_pos (show sB.next_pid = s.next_pid from rfl)]
    · rw [h1, haddeq]
      exact List.mem_cons_self _ _
    · rw [h1, haddeq]
      rfl
    · rw [h1, haddeq]
      rfl
    · intro i hi
      rw [h1, haddeq]
      show ((alookup pos.market (ainsert pos.market (newIdx.foldl (fun l i => l.erase i)
        (s1.getDCC pos.market)) s1.diverging_converging)).getD []).count i = _
      rw [alookup_ainsert]
      show (newIdx.foldl (fun l j => l.erase j) (s.getDCC pos.market)).count i = _
      rw [foldl_erase_count newIdx hnd, if_pos hi]
    · intro i hi
      rw [h1, haddeq]
      show ((alookup pos.market (ainsert pos.market (newIdx.foldl (fun l i => l.erase i)
        (s1.getDCC pos.market)) s1.diverging_converging)).getD []).count i = _
      rw [alookup_ainsert]
      show (newIdx.foldl (fun l j => l.erase j) (s.getDCC pos.market)).count i = _
      rw [foldl_erase_count newIdx hnd, if_neg hi]
  · intro herase
    set s1 := ({ s with diverge_converge := s.diverge_converge.erase (glist, true, newIdx) } : EngineState) with hs1
    have h0 : cancelOrderMeatDCOrder s pid now =
        { s1 with diverge_converge := (glist.erase pid, true, newIdx) :: s1.diverge_converge } := by
      simp only [cancelOrderMeatDCOrder, hpos, hfind, hgne, herase, Bool.false_eq_true,
        eq_self_iff_true, not_true, if_true, ite_true, if_false, ite_false]
    rw [h0]
    exact ⟨rfl, rfl, rfl, List.mem_cons_self _ _⟩

/-- The last member of a converge group, about to be acknowledged. -/
def c1pos : Position :=
  { market := "m", side := Side.buy, market_indices := [0],
    buy_price := 1, sell_price := 2, buy_price_original := 1, sell_price_original := 2,
    price := 1, quantity := 1, btc_amount := 1, order_number := "D1", strategy_tag := "",
    is_onetime := false, is_taker := false, is_landmark := false, is_slippage := false,
    is_cancelling := true, is_new_hilo_order := false,
    order_request_time := 0, order_set_time := 100, order_cancel_time := 1,
    order_getorder_time := 0, max_age_minutes := 0, price_reset_count := 0,
    cancel_reason := CancelReason.dc }

/-- An engine state with a one-member converge group reserving indices 2
and 3 towards a landmark. -/
def c1state : EngineState :=
  { next_pid := 1, store := [(0, c1pos)], positions_all := [0], positions_queued := [],
    positions_active := [0], positions_by_number := [("D1", 0)],
    market_info := [("m", { order_prices := [],
                            position_index := [⟨1, 2, 1, none, 0⟩, ⟨1, 2, 1, none, 0⟩,
                                               ⟨1, 2, 3, none, 0⟩, ⟨1, 2, 4, none, 0⟩],
                            highest_buy := 0, lowest_sell := 0, price_ticksize := 0 })],
    diverge_converge := [([0], true, [2, 3])],
    diverging_converging := [("m", [2, 3])], order_grace_times := [],
    is_running_cancelall := false, cancel_market_filter := "", wss_1000_state := false,
    is_testing := false,
    settings := { request_timeout := 60000, cancel_timeout := 300000,
                  safety_delay_time := 2000, ticker_safety_delay_time := 2000,
                  stray_grace_time_limit := 600000, should_clear_stray_orders := false,
                  should_clear_stray_orders_all := false,
                  should_mitigate_blank_orderbook_flash := false },
    events := [] }

unseal Rat.add Rat.sub Rat.mul Rat.inv in
/-- Witness instantiating the converge completion on `c1state`: the
acknowledged DC cancel empties the group, one landmark over indices 2 and 3
is queued and submitted, and both reservations are cleared. -/
theorem claim_C1_witness :
    ∃ newp : Position,
      (cancelOrderMeatDCOrder c1state 0 500).lookupPos c1state.next_pid = some newp ∧
      newp.is_landmark = true ∧
      newp.market_indices = [2, 3] ∧
      c1state.next_pid ∈ (cancelOrderMeatDCOrder c1state 0 500).positions_queued ∧
      (cancelOrderMeatDCOrder c1state 0 500).next_pid = c1state.next_pid + 1 ∧
      (cancelOrderMeatDCOrder c1state 0 500).events =
        c1state.events ++ [Event.sendBuySell c1state.next_pid] ∧
      (∀ i ∈ ([2, 3] : List Int),
        ((cancelOrderMeatDCOrder c1state 0 500).getDCC c1pos.market).count i =
        (c1state.getDCC c1pos.market).count i - 1) ∧
      (∀ i, i ∉ ([2, 3] : List Int) →
        ((cancelOrderMeatDCOrder c1state 0 500).getDCC c1pos.market).count i =
        (c1state.getDCC c1pos.market).count i) :=
  (claim_C1 c1state 0 c1pos 500 [0] [2, 3] rfl (by decide) (by decide) (by decide)
    (by decide) (by decide) (by decide) (by decide) (by decide) (by decide) rfl).1
    (by decide)

/-! ## The engine's position-bookkeeping invariant (C9) -/

theorem mem_setInsert_iff (y x : Nat) (l : List Nat) :
    y ∈ setInsert x l ↔ y = x ∨ y ∈ l := by
  unfold setInsert
  split
  · rename_i hx
    constructor
    · exact Or.inr
    · rintro (rfl | hy)
      · exact hx
      · exact hy
  · exact List.mem_cons

theorem setInsert_nodup (x : Nat) (l : List Nat) (h : l.Nodup) :
    (setInsert x l).Nodup := by
  unfold setInsert
  split
  · exact h
  · exact List.Nodup.cons (by assumption) h

theorem aremove_sublist [DecidableEq α] (k : α) (l : List (α × β)) :
    (aremove k l).Sublist l := by
  induction l with
  | nil => exact List.Sublist.refl _
  | cons e l ih =>
    obtain ⟨a, b⟩ := e
    rw [aremove]
    split
    · exact List.sublist_cons_self _ _
    · exact List.Sublist.cons₂ _ ih

theorem aremove_eq_of_none [DecidableEq α] (k : α) (l : List (α × β))
    (h : alookup k l = none) : aremove k l = l := by
  induction l with
  | nil => rfl
  | cons e l ih =>
    obtain ⟨a, b⟩ := e
    rw [alookup] at h
    rw [aremove]
    by_cases ha : a = k
    · rw [if_pos ha] at h
      exact absurd h (by simp)
    · rw [if_neg ha] at h
      rw [if_neg ha, ih h]

theorem alookup_isSome_of_mem [DecidableEq α] (k : α) (l : List (α × β))
    (h : k ∈ l.map Prod.fst) : (alookup k l).isSome = true := by
  induction l with
  | nil => simp at h
  | cons e l ih =>
    obtain ⟨a, b⟩ := e
    rw [alookup]
    by_cases ha : a = k
    · rw [if_pos ha]
      rfl
    · rw [if_neg ha]
      rw [List.map_cons, List.mem_cons] at h
      exact ih (h.resolve_left (fun hk => ha hk.symm))

theorem tryMoveOrder1_order_number (info : MarketInfo) (pos : Position) :
    ((tryMoveOrder1 info pos).1).order_number = pos.order_number := by
  simp only [tryMoveOrder1]
  split
  · rfl
  · split
    · split
      · rfl
      · split <;> split <;> rfl
    · split
      · rfl
      · split <;> split <;> rfl

theorem applyOffset_order_number (pos : Position) :
    (applyOffset pos).order_number = pos.order_number := rfl

/-- The bookkeeping invariant of the engine's position containers (spec 8,
property 6): every known handle is queued or active but never both, a
queued position has no order number, and an active position's non-empty
order number maps back to it in the by-order-id hash.  The auxiliary
fields (duplicate-free containers, store handles below `next_pid`) are
what the heap-and-counter embedding of `new Position` maintains. -/
structure EngineInv (s : EngineState) : Prop where
  store_nodup : (s.store.map Prod.fst).Nodup
  store_bound : ∀ k ∈ s.store.map Prod.fst, k < s.next_pid
  queued_nodup : s.positions_queued.Nodup
  active_nodup : s.positions_active.Nodup
  all_nodup : s.positions_all.Nodup
  mem_all : ∀ pid, pid ∈ s.positions_all ↔
    (pid ∈ s.positions_queued ∨ pid ∈ s.positions_active)
  not_both : ∀ pid, ¬ (pid ∈ s.positions_queued ∧ pid ∈ s.positions_active)
  all_stored : ∀ pid, pid ∈ s.positions_all → pid ∈ s.store.map Prod.fst
  blank_unmapped : alookup "" s.positions_by_number = none
  queued_blank : ∀ pid pos, pid ∈ s.positions_queued → s.lookupPos pid = some pos →
    pos.order_number = ""
  active_mapped : ∀ pid pos, pid ∈ s.positions_active → s.lookupPos pid = some pos →
    ¬ pos.order_number = "" ∧ alookup pos.order_number s.positions_by_number = some pid

theorem inv_setInfo (s : EngineState) (m : String) (i : MarketInfo) (h : EngineInv s) :
    EngineInv (s.setInfo m i) :=
  ⟨h.store_nodup, h.store_bound, h.queued_nodup, h.active_nodup, h.all_nodup, h.mem_all,
   h.not_both, h.all_stored, h.blank_unmapped, h.queued_blank, h.active_mapped⟩

theorem inv_setDCC (s : EngineState) (m : String) (l : List Int) (h : EngineInv s) :
    EngineInv (s.setDCC m l) :=
  ⟨h.store_nodup, h.store_bound, h.queued_nodup, h.active_nodup, h.all_nodup, h.mem_all,
   h.not_both, h.all_stored, h.blank_unmapped, h.queued_blank, h.active_mapped⟩

theorem inv_emit (s : EngineState) (e : Event) (h : EngineInv s) :
    EngineInv (s.emit e) :=
  ⟨h.store_nodup, h.store_bound, h.queued_nodup, h.active_nodup, h.all_nodup, h.mem_all,
   h.not_both, h.all_stored, h.blank_unmapped, h.queued_blank, h.active_mapped⟩

theorem inv_removeFromDC (s : EngineState) (pid : Nat) (pos : Position) (h : EngineInv s) :
    EngineInv (removeFromDC s pid pos) :=
  ⟨h.store_nodup, h.store_bound, h.queued_nodup, h.active_nodup, h.all_nodup, h.mem_all,
   h.not_both, h.all_stored, h.blank_unmapped, h.queued_blank, h.active_mapped⟩

theorem inv_updatePos (s : EngineState) (pid : Nat) (f : Position → Position)
    (hf : ∀ p, (f p).order_number = p.order_number) (h : EngineInv s) :
    EngineInv (s.updatePos pid f) := by
  refine ⟨?_, ?_, h.queued_nodup, h.active_nodup, h.all_nodup, h.mem_all, h.not_both,
    ?_, h.blank_unmapped, ?_, ?_⟩
  · rw [updatePos_store_keys]
    exact h.store_nodup
  · rw [updatePos_store_keys]
    exact h.store_bound
  · intro pid' hm
    rw [updatePos_store_keys]
    exact h.all_stored pid' hm
  · intro pid' pos' hmem hlook
    by_cases he : pid' = pid
    · subst he
      rw [lookupPos_updatePos] at hlook
      cases hsl : s.lookupPos pid' with
      | none => rw [hsl] at hlook; exact absurd hlook (by simp)
      | some p0 =>
        rw [hsl] at hlook
        have hp : f p0 = pos' := by
          simpa using hlook
        rw [← hp, hf p0]
        exact h.queued_blank pid' p0 hmem hsl
    · rw [lookupPos_updatePos_ne _ _ he] at hlook
      exact h.queued_blank pid' pos' hmem hlook
  · intro pid' pos' hmem hlook
    by_cases he : pid' = pid
    · subst he
      rw [lookupPos_updatePos] at hlook
      cases hsl : s.lookupPos pid' with
      | none => rw [hsl] at hlook; exact absurd hlook (by simp)
      | some p0 =>
        rw [hsl] at hlook
        have hp : f p0 = pos' := by
          simpa using hlook
        have hnum : pos'.order_number = p0.order_number := by
          rw [← hp, hf p0]
        rw [hnum]
        exact h.active_mapped pid' p0 hmem hsl
    · rw [lookupPos_updatePos_ne _ _ he] at hlook
      exact h.active_mapped pid' pos' hmem hlook

theorem inv_activate_core (s1 : EngineState) (pid : Nat) (oid : String)
    (hq1 : pid ∈ s1.positions_queued)
    (hoid : ¬ oid = "")
    (hfresh : alookup oid s1.positions_by_number = none)
    (h : EngineInv s1) :
    EngineInv (({ s1 with positions_queued := s1.positions_queued.erase pid
                        , positions_active := setInsert pid s1.positions_active
                        , positions_by_number := ainsert oid pid s1.positions_by_number } :
        EngineState).updatePos pid (fun p => { p with order_number := oid })) := by
  have hpidall : pid ∈ s1.positions_all := (h.mem_all pid).mpr (Or.inl hq1)
  have hlookup1 : (s1.lookupPos pid).isSome = true :=
    alookup_isSome_of_mem pid s1.store (h.all_stored pid hpidall)
  obtain ⟨p0, hp0⟩ := Option.isSome_iff_exists.mp hlookup1
  refine ⟨?_, ?_, ?_, ?_, ?_, ?_, ?_, ?_, ?_, ?_, ?_⟩
  · show ((List.map Prod.fst _)).Nodup
    rw [updatePos_store_keys]
    exact h.store_nodup
  · show ∀ k ∈ List.map Prod.fst _, _
    rw [updatePos_store_keys]
    exact h.store_bound
  · show (s1.positions_queued.erase pid).Nodup
    exact h.queued_nodup.erase pid
  · show (setInsert pid s1.positions_active).Nodup
    exact setInsert_nodup pid _ h.active_nodup
  · show s1.positions_all.Nodup
    exact h.all_nodup
  · intro pid'
    show pid' ∈ s1.positions_all ↔
      pid' ∈ s1.positions_queued.erase pid ∨ pid' ∈ setInsert pid s1.positions_active
    by_cases he : pid' = pid
    · subst he
      exact iff_of_true hpidall (Or.inr (mem_setInsert_self pid' _))
    · rw [List.mem_erase_of_ne he, mem_setInsert_iff]
      rw [h.mem_all pid']
      constructor
      · rintro (hx | hx)
        · exact Or.inl hx
        · exact Or.inr (Or.inr hx)
      · rintro (hx | hx | hx)
        · exact Or.inl hx
        · exact absurd hx he
        · exact Or.inr hx
  · intro pid'
    rintro ⟨hqq, haa⟩
    by_cases he : pid' = pid
    · subst he
      exact absurd hqq (not_mem_erase_self h.queued_nodup pid')
    · rcases (mem_setInsert_iff pid' pid _).mp haa with hx | hx
      · exact he hx
      · exact h.not_both pid' ⟨List.mem_of_mem_erase hqq, hx⟩
  · intro pid' hm
    show pid' ∈ List.map Prod.fst _
    rw [updatePos_store_keys]
    exact h.all_stored pid' hm
  · show alookup "" (ainsert oid pid s1.positions_by_number) = none
    rw [alookup_ainsert_ne _ _ (fun he : "" = oid => hoid he.symm)]
    exact h.blank_unmapped
  · intro pid' pos' hmem hlook
    have he : pid' ≠ pid := by
      intro he
      exact absurd (he ▸ hmem) (not_mem_erase_self h.queued_nodup pid)
    rw [lookupPos_updatePos_ne _ _ he] at hlook
    exact h.queued_blank pid' pos' (List.mem_of_mem_erase hmem) hlook
  · intro pid' pos' hmem hlook
    by_cases he : pid' = pid
    · subst he
      rw [lookupPos_updatePos] at hlook
      have hlook2 : (s1.lookupPos pid').map (fun p => { p with order_number := oid })
          = some pos' := hlook
      rw [hp0] at hlook2
      have hpos' : pos' = { p0 with order_number := oid } := by
        simpa using hlook2.symm
      rw [hpos']
      exact ⟨hoid, alookup_ainsert oid pid' _⟩
    · rcases (mem_setInsert_iff pid' pid _).mp hmem with hx | hx
      · exact absurd hx he
      · rw [lookupPos_updatePos_ne _ _ he] at hlook
        obtain ⟨hne, hbm⟩ := h.active_mapped pid' pos' hx hlook
        refine ⟨hne, ?_⟩
        have hnoid : pos'.order_number ≠ oid := by
          intro hk
          rw [hk, hfresh] at hbm
          exact absurd hbm (by simp)
        show alookup pos'.order_number (ainsert oid pid s1.positions_by_number) = some pid'
        rw [alookup_ainsert_ne _ _ hnoid]
        exact hbm

theorem inv_cancelOrder (s : EngineState) (pid : Nat) (q : Bool) (reason : CancelReason)
    (htest : s.is_testing = false) (h : EngineInv s) :
    EngineInv (cancelOrder s pid q reason) := by
  simp only [cancelOrder]
  split
  · exact h
  · split
    · exact h
    · split
      · rename_i htest2
        rw [htest] at htest2
        exact absurd htest2 (by simp)
      · split
        · exact inv_updatePos _ _ _ (fun p => rfl)
            (inv_updatePos _ _ _ (fun p => rfl) h)
        · exact inv_emit _ _ (inv_updatePos _ _ _ (fun p => rfl) h)

theorem inv_setOrderMeat (s : EngineState) (pid : Nat) (oid : String) (now : Int)
    (htest : s.is_testing = false) (hq : pid ∈ s.positions_queued)
    (hfresh : s.isValidOrderID oid = false) (h : EngineInv s) :
    EngineInv (setOrderMeat s pid oid now) := by
  have hfresh' : alookup oid s.positions_by_number = none := by
    unfold EngineState.isValidOrderID at hfresh
    cases halo : alookup oid s.positions_by_number with
    | none => rfl
    | some v => rw [halo] at hfresh; exact absurd hfresh (by simp)
  simp only [setOrderMeat]
  split
  · exact h
  · rename_i hoid
    split
    · exact h
    · rename_i pos0 hsl
      have h3 : EngineInv (({ (s.updatePos pid
            (fun p => { p with order_set_time := now, is_new_hilo_order := false })) with
          positions_queued := (s.updatePos pid
            (fun p => { p with order_set_time := now, is_new_hilo_order := false
              })).positions_queued.erase pid
        , positions_active := setInsert pid (s.updatePos pid
            (fun p => { p with order_set_time := now, is_new_hilo_order := false
              })).positions_active
        , positions_by_number := ainsert oid pid (s.updatePos pid
            (fun p => { p with order_set_time := now, is_new_hilo_order := false
              })).positions_by_number } : EngineState).updatePos pid
          (fun p => { p with order_number := oid })) :=
        inv_activate_core _ pid oid hq hoid hfresh'
          (inv_updatePos _ _ _ (fun p => rfl) h)
      split
      · exact inv_cancelOrder _ pid true _ htest h3
      · exact h3

/-! ### Scalar configuration fields are never modified by the engine ops -/

/-- The engine's scalar configuration: test mode, the Poloniex account
feed flag, and the settings block.  No store operation writes these. -/
def EngineState.scalars (s : EngineState) : Bool × Bool × EngineSettings :=
  (s.is_testing, s.wss_1000_state, s.settings)

theorem scalars_testing {s t : EngineState} (h : t.scalars = s.scalars) :
    t.is_testing = s.is_testing := congrArg Prod.fst h

theorem scalars_wss {s t : EngineState} (h : t.scalars = s.scalars) :
    t.wss_1000_state = s.wss_1000_state := congrArg (fun x => x.2.1) h

theorem scalars_settings {s t : EngineState} (h : t.scalars = s.scalars) :
    t.settings = s.settings := congrArg (fun x => x.2.2) h

theorem foldl_pres {β γ : Type _} (g : EngineState → γ) {f : EngineState → β → EngineState}
    (hf : ∀ s i, g (f s i) = g s) :
    ∀ (l : List β) (s : EngineState), g (l.foldl f s) = g s := by
  intro l
  induction l with
  | nil => intro s; rfl
  | cons a l ih =>
    intro s
    rw [List.foldl_cons, ih, hf]

theorem deletePosition_scalars {s : EngineState} {pid : Nat} :
    (deletePosition s pid).scalars = s.scalars := by
  unfold deletePosition
  split
  · rfl
  · split <;> rfl

theorem foldl_hold {β : Type _} (P : EngineState → Prop) {f : EngineState → β → EngineState}
    (hstep : ∀ t i, P t → P (f t i)) :
    ∀ (l : List β) (t : EngineState), P t → P (l.foldl f t) := by
  intro l
  induction l with
  | nil => intro t h; exact h
  | cons a l ih => intro t h; exact ih (f t a) (hstep t a h)

theorem cancelOrder_scalars {s : EngineState} {pid : Nat} {q : Bool} {r : CancelReason} :
    (cancelOrder s pid q r).scalars = s.scalars := by
  simp only [cancelOrder]
  split
  · rfl
  · split
    · rfl
    · split
      · exact deletePosition_scalars
      · split <;> rfl

theorem setOrderMeat_scalars {s : EngineState} {pid : Nat} {oid : String} {now : Int} :
    (setOrderMeat s pid oid now).scalars = s.scalars := by
  simp only [setOrderMeat]
  split
  · rfl
  · split
    · rfl
    · split
      · exact cancelOrder_scalars.trans rfl
      · rfl

/-- The common shape of every `addPosition` outcome: the scalar fields,
the active set and the by-order-id hash are untouched, and the store is
either unchanged (a rejection) or extended by exactly one fresh queued
position whose order number is empty. -/
def AddShape (s t : EngineState) : Prop :=
  t.scalars = s.scalars ∧
  t.positions_active = s.positions_active ∧
  t.positions_by_number = s.positions_by_number ∧
  ((t.store = s.store ∧ t.next_pid = s.next_pid ∧
    t.positions_queued = s.positions_queued ∧ t.positions_all = s.positions_all) ∨
   (∃ p2 : Position, p2.order_number = "" ∧ t.store = (s.next_pid, p2) :: s.store ∧
    t.next_pid = s.next_pid + 1 ∧ t.positions_queued = s.next_pid :: s.positions_queued ∧
    t.positions_all = s.next_pid :: s.positions_all))

theorem addShape_frame (s : EngineState) {t : EngineState}
    (h0 : t.scalars = s.scalars) (h1 : t.positions_active = s.positions_active)
    (h2 : t.positions_by_number = s.positions_by_number)
    (h3 : t.store = s.store) (h4 : t.next_pid = s.next_pid)
    (h5 : t.positions_queued = s.positions_queued)
    (h6 : t.positions_all = s.positions_all) : AddShape s t :=
  ⟨h0, h1, h2, Or.inl ⟨h3, h4, h5, h6⟩⟩

theorem addShape_core (s : EngineState) {t : EngineState}
    (hx : ∃ p2 : Position, p2.order_number = "" ∧ t.store = (s.next_pid, p2) :: s.store)
    (h0 : t.scalars = s.scalars) (h1 : t.positions_active = s.positions_active)
    (h2 : t.positions_by_number = s.positions_by_number)
    (h4 : t.next_pid = s.next_pid + 1)
    (h5 : t.positions_queued = s.next_pid :: s.positions_queued)
    (h6 : t.positions_all = s.next_pid :: s.positions_all) : AddShape s t := by
  obtain ⟨p2, hord, h3⟩ := hx
  exact ⟨h0, h1, h2, Or.inr ⟨p2, hord, h3, h4, h5, h6⟩⟩

theorem addShape_mono (s : EngineState) {u t : EngineState}
    (h0 : u.scalars = s.scalars) (h1 : u.positions_active = s.positions_active)
    (h2 : u.positions_by_number = s.positions_by_number) (h3 : u.store = s.store)
    (h4 : u.next_pid = s.next_pid) (h5 : u.positions_queued = s.positions_queued)
    (h6 : u.positions_all = s.positions_all)
    (h : AddShape u t) : AddShape s t := by
  obtain ⟨a0, a1, a2, a3⟩ := h
  refine ⟨a0.trans h0, a1.trans h1, a2.trans h2, ?_⟩
  rcases a3 with ⟨b3, b4, b5, b6⟩ | ⟨p2, hp, b3, b4, b5, b6⟩
  · exact Or.inl ⟨b3.trans h3, b4.trans h4, b5.trans h5, b6.trans h6⟩
  · refine Or.inr ⟨p2, hp, ?_, ?_, ?_, ?_⟩
    · rw [b3, h3, h4]
    · rw [b4, h4]
    · rw [b5, h5, h4]
    · rw [b6, h6, h4]

theorem mkPosition_order_number {info : MarketInfo} {market : String} {side : Side}
    {buy sell size : Rat} {tag : String} {indices : List Int} {landmark : Bool} :
    (mkPosition info market side buy sell size tag indices landmark).order_number = "" := rfl

set_option maxHeartbeats 1000000 in
theorem addPositionMeat_shape {s : EngineState} {market : String} {side : Side}
    {buy sell size : Rat} {otype : OType} {tag : String}
    {indices : List Int} {landmark : Bool} {now : Int}
    (htest : s.is_testing = false) :
    AddShape s (addPositionMeat s market side buy sell size otype tag indices landmark now).1 := by
  simp only [addPositionMeat, EngineState.setInfo]
  repeat' split
  all_goals first
    | (refine addShape_frame s ?_ ?_ ?_ ?_ ?_ ?_ ?_ <;> exact rfl)
    | exact absurd (show s.is_testing = true by assumption) (by simp [htest])
    | (refine addShape_core s ⟨_, ?_, rfl⟩ ?_ ?_ ?_ ?_ ?_ ?_ <;> first | exact rfl | exact ((applyOffset_order_number _).trans (tryMoveOrder1_order_number _ _)).trans rfl | exact (tryMoveOrder1_order_number _ _).trans rfl)

set_option maxHeartbeats 1000000 in
theorem addPosition_shape {s : EngineState} {market : String} {side : Side}
    {buy sell size : Rat} {alt : Option Rat} {otype : OType} {tag : String}
    {indices0 : List Int} {landmark q : Bool} {now : Int}
    (htest : s.is_testing = false) :
    AddShape s (addPosition s market side buy sell size alt otype tag indices0 landmark q now).1 := by
  simp only [addPosition]
  by_cases h1 : market = ""
  · rw [if_pos h1]
    exact addShape_frame s rfl rfl rfl rfl rfl rfl rfl
  rw [if_neg h1]
  by_cases h2 : landmark = true ∧ otype.isOnetime = true
  · rw [if_pos h2]
    exact addShape_frame s rfl rfl rfl rfl rfl rfl rfl
  rw [if_neg h2]
  by_cases h3 : ¬otype.isOnetime = true ∧ (sell ≤ buy ∨ buy ≤ 0 ∨ sell ≤ 0) ∨
      otype.isOnetime = true ∧ side = Side.buy ∧ buy ≤ 0 ∨
      otype.isOnetime = true ∧ side = Side.sell ∧ sell ≤ 0 ∨
      otype.isOnetime = true ∧ Option.any (fun a => decide (a ≤ 0)) alt = true
  · rw [if_pos h3]
    exact addShape_frame s rfl rfl rfl rfl rfl rfl rfl
  rw [if_neg h3]
  by_cases h4 : ¬otype.isOverride = true ∧ otype.isTaker = true ∧
      ((side = Side.sell ∧ (s.getInfo market).highest_buy * (9 / 10) > sell) ∨
       (side = Side.sell ∧ (s.getInfo market).highest_buy * (11 / 10) < sell) ∨
       (side = Side.buy ∧ (s.getInfo market).lowest_sell * (11 / 10) < buy) ∨
       (side = Side.buy ∧ (s.getInfo market).lowest_sell * (9 / 10) > buy))
  · rw [if_pos h4]
    exact addShape_frame s rfl rfl rfl rfl rfl rfl rfl
  rw [if_neg h4]
  by_cases h6 : ¬otype.isOnetime = true ∧ ¬otype.isActiveType = true
  · rw [if_pos h6]
    by_cases h5 : ¬otype.isOnetime = true ∧ indices0 = []
    · rw [if_pos h5]
      exact addShape_frame s rfl rfl rfl rfl rfl rfl rfl
    · rw [if_neg h5]
      exact addShape_frame s rfl rfl rfl rfl rfl rfl rfl
  · rw [if_neg h6]
    by_cases h5 : ¬otype.isOnetime = true ∧ indices0 = []
    · rw [if_pos h5]
      refine addShape_mono s ?_ ?_ ?_ ?_ ?_ ?_ ?_ (addPositionMeat_shape htest) <;> exact rfl
    · rw [if_neg h5]
      exact addPositionMeat_shape htest

theorem addPosition_scalars {s : EngineState} {market : String} {side : Side}
    {buy sell size : Rat} {alt : Option Rat} {otype : OType} {tag : String}
    {indices0 : List Int} {landmark q : Bool} {now : Int}
    (htest : s.is_testing = false) :
    ((addPosition s market side buy sell size alt otype tag indices0 landmark q now).1).scalars
      = s.scalars := (addPosition_shape htest).1

theorem addLandmarkPositionFor_scalars {s : EngineState} {pid : Nat} {now : Int}
    (htest : s.is_testing = false) :
    (addLandmarkPositionFor s pid now).scalars = s.scalars := by
  simp only [addLandmarkPositionFor]
  split
  · rfl
  · exact (addPosition_scalars htest).trans rfl

theorem flipPosition_scalars {s : EngineState} {pid : Nat} {now : Int}
    (htest : s.is_testing = false) :
    (flipPosition s pid now).scalars = s.scalars := by
  simp only [flipPosition]
  repeat' split
  all_goals first
    | rfl
    | (refine (addLandmarkPositionFor_scalars ?_).trans rfl; exact htest)
    | (refine (addPosition_scalars ?_).trans rfl; exact htest)

theorem fillNQ_scalars {s : EngineState} {oid : String} {ft now : Int}
    (htest : s.is_testing = false) :
    (fillNQ s oid ft now).scalars = s.scalars := by
  simp only [fillNQ]
  repeat' split
  all_goals first
    | rfl
    | (refine deletePosition_scalars.trans ((flipPosition_scalars ?_).trans rfl); exact htest)

theorem cancelOrderMeatDCOrder_scalars {s : EngineState} {pid : Nat} {now : Int}
    (htest : s.is_testing = false) :
    (cancelOrderMeatDCOrder s pid now).scalars = s.scalars := by
  simp only [cancelOrderMeatDCOrder]
  split
  · rfl
  · split
    · rfl
    · split
      · rfl
      · split
        · split
          · refine (addLandmarkPositionFor_scalars ?_).trans rfl
            exact htest
          · refine foldl_hold (fun t => t.scalars = s.scalars) ?_ _ _ rfl
            intro t i hP
            dsimp only
            split
            · exact hP
            · refine (addPosition_scalars ?_).trans hP
              exact (scalars_testing hP).trans htest
        · rfl

theorem processCancelledOrder_scalars {s : EngineState} {pid : Nat} {now : Int}
    (htest : s.is_testing = false) :
    (processCancelledOrder s pid now).scalars = s.scalars := by
  simp only [processCancelledOrder]
  split
  · rfl
  · split
    · split
      · refine deletePosition_scalars.trans ((addLandmarkPositionFor_scalars ?_).trans rfl)
        exact htest
      · refine deletePosition_scalars.trans ((addPosition_scalars ?_).trans rfl)
        exact htest
    · split
      · refine deletePosition_scalars.trans ((cancelOrderMeatDCOrder_scalars ?_).trans rfl)
        exact htest
      · split
        · refine deletePosition_scalars.trans ((flipPosition_scalars ?_).trans rfl)
          exact htest
        · exact deletePosition_scalars.trans rfl

/-! ### Invariant preservation for the remaining store operations -/

theorem inv_frame {t : EngineState} (s : EngineState)
    (h1 : t.store = s.store) (h2 : t.next_pid = s.next_pid)
    (h3 : t.positions_queued = s.positions_queued)
    (h4 : t.positions_active = s.positions_active)
    (h5 : t.positions_all = s.positions_all)
    (h6 : t.positions_by_number = s.positions_by_number)
    (h : EngineInv s) : EngineInv t := by
  refine ⟨?_, ?_, ?_, ?_, ?_, ?_, ?_, ?_, ?_, ?_, ?_⟩
  · rw [h1]; exact h.store_nodup
  · rw [h1, h2]; exact h.store_bound
  · rw [h3]; exact h.queued_nodup
  · rw [h4]; exact h.active_nodup
  · rw [h5]; exact h.all_nodup
  · intro pid; rw [h5, h3, h4]; exact h.mem_all pid
  · intro pid; rw [h3, h4]; exact h.not_both pid
  · intro pid; rw [h5, h1]; exact h.all_stored pid
  · rw [h6]; exact h.blank_unmapped
  · intro pid pos hm hl
    rw [h3] at hm
    simp only [EngineState.lookupPos, h1] at hl
    exact h.queued_blank pid pos hm hl
  · intro pid pos hm hl
    rw [h4] at hm
    simp only [EngineState.lookupPos, h1] at hl
    rw [h6]
    exact h.active_mapped pid pos hm hl

theorem inv_deletePosition (s : EngineState) (pid : Nat) (h : EngineInv s) :
    EngineInv (deletePosition s pid) := by
  simp only [deletePosition]
  split
  · exact h
  · rename_i hguard
    split
    · exact h
    · rename_i pos hsl
      have hmemaq : pid ∈ s.positions_active ∨ pid ∈ s.positions_queued :=
        not_not.mp hguard
      have hsub : ((aremove pid s.store).map Prod.fst).Sublist (s.store.map Prod.fst) :=
        (aremove_sublist pid s.store).map Prod.fst
      refine ⟨?_, ?_, ?_, ?_, ?_, ?_, ?_, ?_, ?_, ?_, ?_⟩
      · show ((aremove pid s.store).map Prod.fst).Nodup
        exact h.store_nodup.sublist hsub
      · intro k hk
        show k < s.next_pid
        exact h.store_bound k (hsub.subset hk)
      · show (s.positions_queued.erase pid).Nodup
        exact h.queued_nodup.erase pid
      · show (s.positions_active.erase pid).Nodup
        exact h.active_nodup.erase pid
      · show (s.positions_all.erase pid).Nodup
        exact h.all_nodup.erase pid
      · intro pid'
        show pid' ∈ s.positions_all.erase pid ↔
          pid' ∈ s.positions_queued.erase pid ∨ pid' ∈ s.positions_active.erase pid
        by_cases he : pid' = pid
        · subst he
          refine iff_of_false (not_mem_erase_self h.all_nodup pid') ?_
          rintro (hx | hx)
          · exact not_mem_erase_self h.queued_nodup pid' hx
          · exact not_mem_erase_self h.active_nodup pid' hx
        · rw [List.mem_erase_of_ne he, List.mem_erase_of_ne he, List.mem_erase_of_ne he]
          exact h.mem_all pid'
      · intro pid'
        rintro ⟨hqq, haa⟩
        exact h.not_both pid' ⟨List.mem_of_mem_erase hqq, List.mem_of_mem_erase haa⟩
      · intro pid' hm
        show pid' ∈ (aremove pid s.store).map Prod.fst
        have he : pid' ≠ pid := (h.all_nodup.mem_erase_iff.mp hm).1
        have hm1 : pid' ∈ s.store.map Prod.fst :=
          h.all_stored pid' (List.mem_of_mem_erase hm)
        obtain ⟨v, hv⟩ := Option.isSome_iff_exists.mp (alookup_isSome_of_mem pid' s.store hm1)
        have hv2 : alookup pid' (aremove pid s.store) = some v := by
          rw [alookup_aremove_ne _ he]
          exact hv
        exact alookup_mem pid' _ v hv2
      · show alookup "" (aremove pos.order_number s.positions_by_number) = none
        by_cases hk : pos.order_number = ""
        · rw [hk, aremove_eq_of_none "" _ h.blank_unmapped]
          exact h.blank_unmapped
        · rw [alookup_aremove_ne _ (fun he : "" = pos.order_number => hk he.symm)]
          exact h.blank_unmapped
      · intro pid' pos' hmem hlook
        have he : pid' ≠ pid := (h.queued_nodup.mem_erase_iff.mp hmem).1
        have hlook2 : alookup pid' (aremove pid s.store) = some pos' := hlook
        rw [alookup_aremove_ne _ he] at hlook2
        exact h.queued_blank pid' pos' (List.mem_of_mem_erase hmem) hlook2
      · intro pid' pos' hmem hlook
        have he : pid' ≠ pid := (h.active_nodup.mem_erase_iff.mp hmem).1
        have hlook2 : alookup pid' (aremove pid s.store) = some pos' := hlook
        rw [alookup_aremove_ne _ he] at hlook2
        obtain ⟨hne, hbm⟩ := h.active_mapped pid' pos' (List.mem_of_mem_erase hmem) hlook2
        refine ⟨hne, ?_⟩
        show alookup pos'.order_number (aremove pos.order_number s.positions_by_number)
          = some pid'
        by_cases hko : pos'.order_number = pos.order_number
        · exfalso
          rcases hmemaq with hact | hqd
          · obtain ⟨-, hbm2⟩ := h.active_mapped pid pos hact hsl
            rw [hko] at hbm
            rw [hbm] at hbm2
            exact he (Option.some.inj hbm2)
          · have hblank : pos.order_number = "" := h.queued_blank pid pos hqd hsl
            rw [hko, hblank] at hbm
            rw [h.blank_unmapped] at hbm
            exact absurd hbm (by simp)
        · rw [alookup_aremove_ne _ hko]
          exact hbm

theorem inv_add_core (s : EngineState) {t : EngineState} {pos2 : Position}
    (h1 : t.store = (s.next_pid, pos2) :: s.store)
    (h2 : t.next_pid = s.next_pid + 1)
    (h3 : t.positions_queued = s.next_pid :: s.positions_queued)
    (h4 : t.positions_active = s.positions_active)
    (h5 : t.positions_all = s.next_pid :: s.positions_all)
    (h6 : t.positions_by_number = s.positions_by_number)
    (hord : pos2.order_number = "")
    (h : EngineInv s) : EngineInv t := by
  have hfreshall : ∀ pid, pid ∈ s.positions_all → pid < s.next_pid :=
    fun pid hm => h.store_bound pid (h.all_stored pid hm)
  refine ⟨?_, ?_, ?_, ?_, ?_, ?_, ?_, ?_, ?_, ?_, ?_⟩
  · rw [h1, List.map_cons]
    exact List.nodup_cons.mpr
      ⟨fun hm => lt_irrefl _ (h.store_bound _ hm), h.store_nodup⟩
  · rw [h1, h2, List.map_cons]
    intro k hk
    rcases List.mem_cons.mp hk with rfl | hk
    · omega
    · have := h.store_bound k hk
      omega
  · rw [h3]
    exact List.nodup_cons.mpr
      ⟨fun hm => lt_irrefl _ (hfreshall _ ((h.mem_all _).mpr (Or.inl hm))), h.queued_nodup⟩
  · rw [h4]
    exact h.active_nodup
  · rw [h5]
    exact List.nodup_cons.mpr
      ⟨fun hm => lt_irrefl _ (hfreshall _ hm), h.all_nodup⟩
  · intro pid
    rw [h5, h3, h4]
    simp only [List.mem_cons]
    rw [h.mem_all pid]
    tauto
  · intro pid
    rw [h3, h4]
    rintro ⟨hq, ha⟩
    rcases List.mem_cons.mp hq with rfl | hq
    · exact lt_irrefl _ (hfreshall _ ((h.mem_all _).mpr (Or.inr ha)))
    · exact h.not_both pid ⟨hq, ha⟩
  · intro pid hm
    rw [h5] at hm
    rw [h1, List.map_cons]
    rcases List.mem_cons.mp hm with rfl | hm
    · exact List.mem_cons_self _ _
    · exact List.mem_cons_of_mem _ (h.all_stored pid hm)
  · rw [h6]
    exact h.blank_unmapped
  · intro pid pos' hm hl
    rw [h3] at hm
    have hl2 : alookup pid t.store = some pos' := hl
    rw [h1, alookup_cons] at hl2
    rcases List.mem_cons.mp hm with rfl | hm
    · rw [if_pos rfl] at hl2
      rw [← Option.some.inj hl2]
      exact hord
    · have hlt : pid < s.next_pid := hfreshall _ ((h.mem_all _).mpr (Or.inl hm))
      rw [if_neg (by omega)] at hl2
      exact h.queued_blank pid pos' hm hl2
  · intro pid pos' hm hl
    rw [h4] at hm
    have hl2 : alookup pid t.store = some pos' := hl
    rw [h1, alookup_cons] at hl2
    have hlt : pid < s.next_pid := hfreshall _ ((h.mem_all _).mpr (Or.inr hm))
    rw [if_neg (by omega)] at hl2
    rw [h6]
    exact h.active_mapped pid pos' hm hl2

theorem inv_addPosition {s : EngineState} {market : String} {side : Side}
    {buy sell size : Rat} {alt : Option Rat} {otype : OType} {tag : String}
    {indices0 : List Int} {landmark q : Bool} {now : Int}
    (htest : s.is_testing = false) (h : EngineInv s) :
    EngineInv (addPosition s market side buy sell size alt otype tag indices0 landmark q now).1 := by
  have hs : AddShape s
      (addPosition s market side buy sell size alt otype tag indices0 landmark q now).1 :=
    addPosition_shape htest
  obtain ⟨h0, h1, h2, h3⟩ := hs
  rcases h3 with ⟨b3, b4, b5, b6⟩ | ⟨p2, hp, b3, b4, b5, b6⟩
  · exact inv_frame s b3 b4 b5 h1 b6 h2 h
  · exact inv_add_core s b3 b4 b5 h1 b6 h2 hp h


theorem inv_addLandmarkPositionFor (s : EngineState) (pid : Nat) (now : Int)
    (htest : s.is_testing = false) (h : EngineInv s) :
    EngineInv (addLandmarkPositionFor s pid now) := by
  simp only [addLandmarkPositionFor]
  split
  · exact h
  · exact inv_addPosition htest h

theorem inv_flipPosition (s : EngineState) (pid : Nat) (now : Int)
    (htest : s.is_testing = false) (h : EngineInv s) :
    EngineInv (flipPosition s pid now) := by
  simp only [flipPosition]
  split
  · exact h
  · split
    · exact h
    · have h1 : EngineInv (s.updatePos pid (fun p => { p with side := p.side.flipped })) :=
        inv_updatePos _ _ _ (fun p => rfl) h
      split
      · refine inv_addLandmarkPositionFor _ _ _ ?_ h1
        exact htest
      · refine inv_addPosition ?_ h1
        exact htest

theorem inv_fillNQ (s : EngineState) (oid : String) (ft now : Int)
    (htest : s.is_testing = false) (h : EngineInv s) :
    EngineInv (fillNQ s oid ft now) := by
  simp only [fillNQ]
  split
  · exact h
  · split
    · exact h
    · split
      · exact h
      · split
        · exact h
        · refine inv_deletePosition _ _ (inv_flipPosition _ _ _ ?_ (inv_setInfo _ _ _ h))
          exact htest

theorem inv_cancelOrderMeatDCOrder (s : EngineState) (pid : Nat) (now : Int)
    (htest : s.is_testing = false) (h : EngineInv s) :
    EngineInv (cancelOrderMeatDCOrder s pid now) := by
  simp only [cancelOrderMeatDCOrder]
  split
  · exact h
  · split
    · exact h
    · rename_i pos hsl entry hfind
      have h2 : EngineInv { s with diverge_converge := s.diverge_converge.erase entry } :=
        inv_frame s rfl rfl rfl rfl rfl rfl h
      split
      · exact h2
      · split
        · split
          · refine inv_addLandmarkPositionFor _ _ _ ?_
              (inv_updatePos _ _ _ (fun p => rfl) (inv_setDCC _ _ _ h2))
            exact htest
          · refine (foldl_hold (fun t => EngineInv t ∧ t.is_testing = false) ?_ _ _
              ⟨h2, htest⟩).1
            intro t i hP
            dsimp only
            split
            · exact ⟨inv_setDCC _ _ _ hP.1, hP.2⟩
            · constructor
              · refine inv_addPosition ?_ (inv_setDCC _ _ _ hP.1)
                exact hP.2
              · refine (scalars_testing (addPosition_scalars ?_)).trans ?_
                · exact hP.2
                · exact hP.2
        · exact inv_frame s rfl rfl rfl rfl rfl rfl h

theorem inv_processCancelledOrder (s : EngineState) (pid : Nat) (now : Int)
    (htest : s.is_testing = false) (h : EngineInv s) :
    EngineInv (processCancelledOrder s pid now) := by
  simp only [processCancelledOrder]
  split
  · exact h
  · split
    · split
      · refine inv_deletePosition _ _ (inv_addLandmarkPositionFor _ _ _ ?_ h)
        exact htest
      · refine inv_deletePosition _ _ (inv_addPosition ?_ h)
        exact htest
    · split
      · refine inv_deletePosition _ _ (inv_cancelOrderMeatDCOrder _ _ _ ?_ h)
        exact htest
      · split
        · refine inv_deletePosition _ _ (inv_flipPosition _ _ _ ?_ h)
          exact htest
        · exact inv_deletePosition _ _ h

/-! ### The engine operations as a step relation (C9) -/

/-- One engine operation on the position store: request a new position,
activate one on an exchange acknowledgment whose order id is fresh, request
a cancel, process a fill, complete a cancel, or delete a position.  The
activation freshness guard (`hfresh`) is the amendment of C9: the code
itself never checks it, and a duplicate acknowledgment id breaks the
invariant (see the counterexample). -/
inductive EngineStep : EngineState → EngineState → Prop where
  | add (s : EngineState) (market : String) (side : Side) (buy sell size : Rat)
      (alt : Option Rat) (otype : OType) (tag : String) (indices0 : List Int)
      (landmark q : Bool) (now : Int) :
      EngineStep s (addPosition s market side buy sell size alt otype tag indices0
        landmark q now).1
  | activate (s : EngineState) (pid : Nat) (oid : String) (now : Int)
      (hq : pid ∈ s.positions_queued) (hfresh : s.isValidOrderID oid = false) :
      EngineStep s (setOrderMeat s pid oid now)
  | cancel (s : EngineState) (pid : Nat) (q : Bool) (reason : CancelReason) :
      EngineStep s (cancelOrder s pid q reason)
  | fill (s : EngineState) (oid : String) (ft now : Int) :
      EngineStep s (fillNQ s oid ft now)
  | cancelled (s : EngineState) (pid : Nat) (now : Int) :
      EngineStep s (processCancelledOrder s pid now)
  | remove (s : EngineState) (pid : Nat) :
      EngineStep s (deletePosition s pid)

/-- Reachability by engine operations. -/
def EngineReach : EngineState → EngineState → Prop :=
  Relation.ReflTransGen EngineStep

theorem engineStep_testing {a b : EngineState} (ht : a.is_testing = false)
    (h : EngineStep a b) : b.is_testing = false := by
  cases h with
  | add market side buy sell size alt otype tag indices0 landmark q now =>
    exact (scalars_testing (addPosition_scalars ht)).trans ht
  | activate pid oid now hq hfresh =>
    exact (scalars_testing setOrderMeat_scalars).trans ht
  | cancel pid q reason =>
    exact (scalars_testing cancelOrder_scalars).trans ht
  | fill oid ft now =>
    exact (scalars_testing (fillNQ_scalars ht)).trans ht
  | cancelled pid now =>
    exact (scalars_testing (processCancelledOrder_scalars ht)).trans ht
  | remove pid =>
    exact (scalars_testing deletePosition_scalars).trans ht

theorem engineStep_inv {a b : EngineState} (ht : a.is_testing = false)
    (hI : EngineInv a) (h : EngineStep a b) : EngineInv b := by
  cases h with
  | add market side buy sell size alt otype tag indices0 landmark q now =>
    exact inv_addPosition ht hI
  | activate pid oid now hq hfresh =>
    exact inv_setOrderMeat a pid oid now ht hq hfresh hI
  | cancel pid q reason =>
    exact inv_cancelOrder a pid q reason ht hI
  | fill oid ft now =>
    exact inv_fillNQ a oid ft now ht hI
  | cancelled pid now =>
    exact inv_processCancelledOrder a pid now ht hI
  | remove pid =>
    exact inv_deletePosition a pid hI

/-- **C9 (amended).**  In every state reachable by the engine operations
from a non-test-mode state satisfying the bookkeeping invariant — with
activations restricted to fresh acknowledgment ids, which the code itself
does not enforce (see the counterexample: a duplicate id silently
overwrites the by-order-id entry) — every known position is in exactly one
of the queued and active sets, its order number is non-empty exactly when
it is active, and it is active exactly when the by-order-id hash maps its
order number back to it. -/
theorem claim_C9 (s0 s : EngineState) (htest : s0.is_testing = false)
    (h0 : EngineInv s0) (hr : EngineReach s0 s) :
    ∀ pid pos, pid ∈ s.positions_all → s.lookupPos pid = some pos →
      ((pid ∈ s.positions_queued ∧ pid ∉ s.positions_active) ∨
       (pid ∈ s.positions_active ∧ pid ∉ s.positions_queued)) ∧
      (¬ pos.order_number = "" ↔ pid ∈ s.positions_active) ∧
      (pid ∈ s.positions_active ↔
        alookup pos.order_number s.positions_by_number = some pid) := by
  have key : EngineInv s ∧ s.is_testing = false := by
    induction hr with
    | refl => exact ⟨h0, htest⟩
    | tail hab hbc ih =>
      exact ⟨engineStep_inv ih.2 ih.1 hbc, engineStep_testing ih.2 hbc⟩
  obtain ⟨hI, -⟩ := key
  intro pid pos hall hlook
  have hqa := (hI.mem_all pid).mp hall
  refine ⟨?_, ?_, ?_⟩
  · rcases hqa with hq | ha
    · exact Or.inl ⟨hq, fun ha => hI.not_both pid ⟨hq, ha⟩⟩
    · exact Or.inr ⟨ha, fun hq => hI.not_both pid ⟨hq, ha⟩⟩
  · constructor
    · intro hne
      rcases hqa with hq | ha
      · exact absurd (hI.queued_blank pid pos hq hlook) hne
      · exact ha
    · intro ha
      exact (hI.active_mapped pid pos ha hlook).1
  · constructor
    · intro ha
      exact (hI.active_mapped pid pos ha hlook).2
    · intro hbm
      rcases hqa with hq | ha
      · have hblank := hI.queued_blank pid pos hq hlook
        rw [hblank, hI.blank_unmapped] at hbm
        exact absurd hbm (by simp)
      · exact ha


/-- A queued ping-pong position awaiting acknowledgment (blank order id). -/
def c9pos : Position :=
  { market := "m", side := Side.buy, market_indices := [0],
    buy_price := 1, sell_price := 2, buy_price_original := 1, sell_price_original := 2,
    price := 1, quantity := 1, btc_amount := 1, order_number := "", strategy_tag := "",
    is_onetime := false, is_taker := false, is_landmark := false, is_slippage := false,
    is_cancelling := false, is_new_hilo_order := false,
    order_request_time := 0, order_set_time := 0, order_cancel_time := 0,
    order_getorder_time := 0, max_age_minutes := 0, price_reset_count := 0,
    cancel_reason := CancelReason.cnone }

/-- A non-test-mode engine state with `c9pos` queued under handle 0. -/
def c9state : EngineState :=
  { next_pid := 1, store := [(0, c9pos)], positions_all := [0], positions_queued := [0],
    positions_active := [], positions_by_number := [], market_info := [],
    diverge_converge := [], diverging_converging := [], order_grace_times := [],
    is_running_cancelall := false, cancel_market_filter := "", wss_1000_state := false,
    is_testing := false,
    settings := { request_timeout := 0, cancel_timeout := 0, safety_delay_time := 0,
                  ticker_safety_delay_time := 0, stray_grace_time_limit := 0,
                  should_clear_stray_orders := false, should_clear_stray_orders_all := false,
                  should_mitigate_blank_orderbook_flash := false },
    events := [] }

theorem c9state_inv : EngineInv c9state := by
  refine ⟨?_, ?_, ?_, ?_, ?_, ?_, ?_, ?_, ?_, ?_, ?_⟩
  · decide
  · decide
  · decide
  · decide
  · decide
  · intro pid
    show pid ∈ [0] ↔ pid ∈ [0] ∨ pid ∈ ([] : List Nat)
    simp
  · intro pid
    rintro ⟨-, ha⟩
    exact List.not_mem_nil pid ha
  · intro pid hm
    exact hm
  · rfl
  · intro pid pos hm hl
    have hp : pid = 0 := by simpa [c9state] using hm
    subst hp
    have h2 : some c9pos = some pos := hl
    obtain rfl := (Option.some.inj h2).symm
    rfl
  · intro pid pos hm hl
    exact absurd hm (List.not_mem_nil pid)

/-- Witness instantiating `claim_C9` on `c9state`: one activation step with
the fresh acknowledgment id "N1" reaches a state in which position 0 is
active and not queued, its order number "N1" is non-empty, and the
by-order-id hash maps "N1" back to it. -/
theorem claim_C9_witness :
    ((0 ∈ (setOrderMeat c9state 0 "N1" 100).positions_queued ∧
      0 ∉ (setOrderMeat c9state 0 "N1" 100).positions_active) ∨
     (0 ∈ (setOrderMeat c9state 0 "N1" 100).positions_active ∧
      0 ∉ (setOrderMeat c9state 0 "N1" 100).positions_queued)) ∧
    (¬ ({ c9pos with order_set_time := 100, is_new_hilo_order := false, order_number := "N1" } : Position).order_number = "" ↔
      0 ∈ (setOrderMeat c9state 0 "N1" 100).positions_active) ∧
    (0 ∈ (setOrderMeat c9state 0 "N1" 100).positions_active ↔
      alookup ({ c9pos with order_set_time := 100, is_new_hilo_order := false, order_number := "N1" } : Position).order_number
        (setOrderMeat c9state 0 "N1" 100).positions_by_number = some 0) :=
  claim_C9 c9state (setOrderMeat c9state 0 "N1" 100) rfl c9state_inv
    (Relation.ReflTransGen.tail Relation.ReflTransGen.refl
      (EngineStep.activate c9state 0 "N1" 100 (by decide) (by decide)))
    0 { c9pos with order_set_time := 100, is_new_hilo_order := false, order_number := "N1" }
    (by decide) (by decide)

/-- A non-test-mode engine state with two queued positions 0 and 1. -/
def c9two : EngineState :=
  { next_pid := 2, store := [(0, c9pos), (1, c9pos)], positions_all := [0, 1],
    positions_queued := [0, 1], positions_active := [], positions_by_number := [],
    market_info := [], diverge_converge := [], diverging_converging := [],
    order_grace_times := [], is_running_cancelall := false, cancel_market_filter := "",
    wss_1000_state := false, is_testing := false,
    settings := { request_timeout := 0, cancel_timeout := 0, safety_delay_time := 0,
                  ticker_safety_delay_time := 0, stray_grace_time_limit := 0,
                  should_clear_stray_orders := false, should_clear_stray_orders_all := false,
                  should_mitigate_blank_orderbook_flash := false },
    events := [] }

theorem c9two_inv : EngineInv c9two := by
  refine ⟨?_, ?_, ?_, ?_, ?_, ?_, ?_, ?_, ?_, ?_, ?_⟩
  · decide
  · decide
  · decide
  · decide
  · decide
  · intro pid
    show pid ∈ [0, 1] ↔ pid ∈ [0, 1] ∨ pid ∈ ([] : List Nat)
    simp
  · intro pid
    rintro ⟨-, ha⟩
    exact List.not_mem_nil pid ha
  · intro pid hm
    exact hm
  · rfl
  · intro pid pos hm hl
    have hm2 : pid = 0 ∨ pid = 1 := by simpa [c9two] using hm
    rcases hm2 with rfl | rfl
    · have h2 : some c9pos = some pos := hl
      obtain rfl := (Option.some.inj h2).symm
      rfl
    · have h2 : some c9pos = some pos := hl
      obtain rfl := (Option.some.inj h2).symm
      rfl
  · intro pid pos hm hl
    exact absurd hm (List.not_mem_nil pid)

/-- Counterexample to C9 as stated: the activation operation
(`setOrderMeat`) performs no freshness check on the acknowledged order id.
Starting from the invariant-satisfying state `c9two`, acknowledging both
queued positions under the same exchange id "N" leaves position 0 active
with order number "N" while the by-order-id hash maps "N" to position 1 —
so an active position's order number no longer maps back to it, refuting
the claim's final biconditional. -/
theorem claim_C9_counterexample :
    EngineInv c9two ∧ c9two.is_testing = false ∧
    0 ∈ (setOrderMeat (setOrderMeat c9two 0 "N" 100) 1 "N" 200).positions_active ∧
    ((setOrderMeat (setOrderMeat c9two 0 "N" 100) 1 "N" 200).lookupPos 0).map
        Position.order_number = some "N" ∧
    ¬ alookup "N" (setOrderMeat (setOrderMeat c9two 0 "N" 100) 1 "N" 200).positions_by_number
        = some 0 :=
  ⟨c9two_inv, rfl, by decide, by decide, by decide⟩


/-! ### Ticker idempotence (C7) -/

/-- The top-of-book update pass of `processTicker` (spruce.h lines 714-745):
fold each market quote with positive bid and ask into `highest_buy` /
`lowest_sell`. -/
def tickerTop (s : EngineState) (ticker : List (String × TickerInfo)) : EngineState :=
  ticker.foldl
    (fun s mt =>
      if mt.2.ask_price ≤ 0 ∨ mt.2.bid_price ≤ 0 then s
      else
        let info := s.getInfo mt.1
        s.setInfo mt.1 { info with highest_buy := mt.2.bid_price
                                 , lowest_sell := mt.2.ask_price }) s

theorem processTicker_eq (s : EngineState) (ticker : List (String × TickerInfo))
    (rt now : Int) :
    processTicker s ticker rt now =
      if rt ≤ 0 then (tickerTop s ticker, [])
      else if (tickerTop s ticker).wss_1000_state then (tickerTop s ticker, [])
      else processFilledOrders1 (tickerTop s ticker)
        (tickerCandidates (tickerTop s ticker) ticker rt now) 3 now := rfl

theorem tickerTop_store (s : EngineState) (ticker : List (String × TickerInfo)) :
    (tickerTop s ticker).store = s.store := by
  refine foldl_pres EngineState.store ?_ ticker s
  intro t mt
  dsimp only
  split
  · rfl
  · rfl

theorem tickerTop_next (s : EngineState) (ticker : List (String × TickerInfo)) :
    (tickerTop s ticker).next_pid = s.next_pid := by
  refine foldl_pres EngineState.next_pid ?_ ticker s
  intro t mt
  dsimp only
  split
  · rfl
  · rfl

theorem tickerTop_queued (s : EngineState) (ticker : List (String × TickerInfo)) :
    (tickerTop s ticker).positions_queued = s.positions_queued := by
  refine foldl_pres EngineState.positions_queued ?_ ticker s
  intro t mt
  dsimp only
  split
  · rfl
  · rfl

theorem tickerTop_active (s : EngineState) (ticker : List (String × TickerInfo)) :
    (tickerTop s ticker).positions_active = s.positions_active := by
  refine foldl_pres EngineState.positions_active ?_ ticker s
  intro t mt
  dsimp only
  split
  · rfl
  · rfl

theorem tickerTop_all (s : EngineState) (ticker : List (String × TickerInfo)) :
    (tickerTop s ticker).positions_all = s.positions_all := by
  refine foldl_pres EngineState.positions_all ?_ ticker s
  intro t mt
  dsimp only
  split
  · rfl
  · rfl

theorem tickerTop_bynum (s : EngineState) (ticker : List (String × TickerInfo)) :
    (tickerTop s ticker).positions_by_number = s.positions_by_number := by
  refine foldl_pres EngineState.positions_by_number ?_ ticker s
  intro t mt
  dsimp only
  split
  · rfl
  · rfl

theorem tickerTop_scalars (s : EngineState) (ticker : List (String × TickerInfo)) :
    (tickerTop s ticker).scalars = s.scalars := by
  refine foldl_pres EngineState.scalars ?_ ticker s
  intro t mt
  dsimp only
  split
  · rfl
  · rfl

theorem tickerTop_lookup (s : EngineState) (ticker : List (String × TickerInfo))
    (pid : Nat) :
    (tickerTop s ticker).lookupPos pid = s.lookupPos pid := by
  show alookup pid (tickerTop s ticker).store = alookup pid s.store
  rw [tickerTop_store]

theorem inv_tickerTop (s : EngineState) (ticker : List (String × TickerInfo))
    (h : EngineInv s) : EngineInv (tickerTop s ticker) :=
  inv_frame s (tickerTop_store s ticker) (tickerTop_next s ticker)
    (tickerTop_queued s ticker) (tickerTop_active s ticker) (tickerTop_all s ticker)
    (tickerTop_bynum s ticker) h

theorem addPosition_active {s : EngineState} {market : String} {side : Side}
    {buy sell size : Rat} {alt : Option Rat} {otype : OType} {tag : String}
    {indices0 : List Int} {landmark q : Bool} {now : Int}
    (htest : s.is_testing = false) :
    (addPosition s market side buy sell size alt otype tag indices0 landmark q now).1.positions_active
      = s.positions_active := (addPosition_shape htest).2.1

theorem addPosition_lookup_other {s : EngineState} {market : String} {side : Side}
    {buy sell size : Rat} {alt : Option Rat} {otype : OType} {tag : String}
    {indices0 : List Int} {landmark q : Bool} {now : Int} {pid' : Nat}
    (htest : s.is_testing = false) (hlt : pid' < s.next_pid) :
    (addPosition s market side buy sell size alt otype tag indices0 landmark q now).1.lookupPos pid'
      = s.lookupPos pid' := by
  rcases (addPosition_shape htest).2.2.2 with ⟨b3, -, -, -⟩ | ⟨p2, -, b3, -, -, -⟩
  · show alookup pid'
      (addPosition s market side buy sell size alt otype tag indices0 landmark q now).1.store
      = alookup pid' s.store
    rw [b3]
  · show alookup pid'
      (addPosition s market side buy sell size alt otype tag indices0 landmark q now).1.store
      = alookup pid' s.store
    rw [b3, alookup_cons, if_neg (by omega)]

theorem addLandmarkPositionFor_active {s : EngineState} {pid : Nat} {now : Int}
    (htest : s.is_testing = false) :
    (addLandmarkPositionFor s pid now).positions_active = s.positions_active := by
  simp only [addLandmarkPositionFor]
  split
  · rfl
  · exact addPosition_active htest

theorem addLandmarkPositionFor_lookup_other {s : EngineState} {pid : Nat} {now : Int}
    {pid' : Nat} (htest : s.is_testing = false) (hlt : pid' < s.next_pid) :
    (addLandmarkPositionFor s pid now).lookupPos pid' = s.lookupPos pid' := by
  simp only [addLandmarkPositionFor]
  split
  · rfl
  · exact addPosition_lookup_other htest hlt

theorem flipPosition_active {s : EngineState} {pid : Nat} {now : Int}
    (htest : s.is_testing = false) :
    (flipPosition s pid now).positions_active = s.positions_active := by
  simp only [flipPosition]
  split
  · rfl
  · split
    · rfl
    · split
      · refine (addLandmarkPositionFor_active ?_).trans rfl
        exact htest
      · refine (addPosition_active ?_).trans rfl
        exact htest

theorem flipPosition_lookup_other {s : EngineState} {pid : Nat} {now : Int}
    {pid' : Nat} (htest : s.is_testing = false) (hne : pid' ≠ pid)
    (hlt : pid' < s.next_pid) :
    (flipPosition s pid now).lookupPos pid' = s.lookupPos pid' := by
  simp only [flipPosition]
  split
  · rfl
  · split
    · rfl
    · split
      · refine (addLandmarkPositionFor_lookup_other ?_ ?_).trans
          (lookupPos_updatePos_ne _ _ hne)
        · exact htest
        · exact hlt
      · refine (addPosition_lookup_other ?_ ?_).trans
          (lookupPos_updatePos_ne _ _ hne)
        · exact htest
        · exact hlt

theorem deletePosition_store_shape (t : EngineState) (pid : Nat) :
    (deletePosition t pid).store = t.store ∨
    (deletePosition t pid).store = aremove pid t.store := by
  simp only [deletePosition]
  split
  · exact Or.inl rfl
  · split
    · exact Or.inl rfl
    · exact Or.inr rfl

theorem deletePosition_lookup_other (t : EngineState) {pid pid' : Nat}
    (hne : pid' ≠ pid) :
    (deletePosition t pid).lookupPos pid' = t.lookupPos pid' := by
  rcases deletePosition_store_shape t pid with hs | hs
  · show alookup pid' (deletePosition t pid).store = alookup pid' t.store
    rw [hs]
  · show alookup pid' (deletePosition t pid).store = alookup pid' t.store
    rw [hs, alookup_aremove_ne _ hne]

theorem deletePosition_active_shape (t : EngineState) (pid : Nat) :
    (deletePosition t pid).positions_active = t.positions_active ∨
    (deletePosition t pid).positions_active = t.positions_active.erase pid := by
  simp only [deletePosition]
  split
  · exact Or.inl rfl
  · split
    · exact Or.inl rfl
    · exact Or.inr rfl

theorem deletePosition_not_active (t : EngineState) (pid : Nat) (h : EngineInv t) :
    pid ∉ (deletePosition t pid).positions_active := by
  simp only [deletePosition]
  split
  · rename_i hguard
    intro ha
    exact hguard (Or.inl ha)
  · rename_i hguard
    split
    · rename_i hsl
      exfalso
      have hmem : pid ∈ t.positions_all := by
        rcases not_not.mp hguard with hx | hx
        · exact (h.mem_all pid).mpr (Or.inr hx)
        · exact (h.mem_all pid).mpr (Or.inl hx)
      have := alookup_isSome_of_mem pid t.store (h.all_stored pid hmem)
      rw [show alookup pid t.store = none from hsl] at this
      exact absurd this (by simp)
    · show pid ∉ t.positions_active.erase pid
      exact not_mem_erase_self h.active_nodup pid

theorem fillNQ_step (s : EngineState) (pid : Nat) (pos : Position) (ft now : Int)
    (htest : s.is_testing = false) (h : EngineInv s)
    (hft : ¬ (ft < 1 ∨ 5 < ft))
    (ha : pid ∈ s.positions_active)
    (hsp : s.lookupPos pid = some pos) :
    EngineInv (fillNQ s pos.order_number ft now) ∧
    (fillNQ s pos.order_number ft now).is_testing = false ∧
    pid ∉ (fillNQ s pos.order_number ft now).positions_active ∧
    (∀ pid', pid' ≠ pid →
      (pid' ∈ (fillNQ s pos.order_number ft now).positions_active ↔
       pid' ∈ s.positions_active)) ∧
    (∀ pid', pid' ≠ pid → pid' < s.next_pid →
      (fillNQ s pos.order_number ft now).lookupPos pid' = s.lookupPos pid') := by
  obtain ⟨hnb, hbm⟩ := h.active_mapped pid pos ha hsp
  have hvalid : s.isValidOrderID pos.order_number = true := by
    unfold EngineState.isValidOrderID
    rw [hbm]
    rfl
  have hg2 : ¬ (pos.order_number = "" ∨ ¬ s.isValidOrderID pos.order_number = true) := by
    rw [hvalid]
    simp [hnb]
  have hred : fillNQ s pos.order_number ft now =
      deletePosition
        (flipPosition
          (s.setInfo pos.market
            { s.getInfo pos.market with
                position_index :=
                  iterateIndices pos.market_indices (s.getInfo pos.market).position_index })
          pid now)
        pid := by
    simp only [fillNQ, hbm, hsp, if_neg hft, if_neg hg2]
  have hI1 : EngineInv (s.setInfo pos.market
      { s.getInfo pos.market with
          position_index :=
            iterateIndices pos.market_indices (s.getInfo pos.market).position_index }) :=
    inv_setInfo _ _ _ h
  have hI2 : EngineInv (flipPosition
      (s.setInfo pos.market
        { s.getInfo pos.market with
            position_index :=
              iterateIndices pos.market_indices (s.getInfo pos.market).position_index })
      pid now) := by
    refine inv_flipPosition _ _ _ ?_ hI1
    exact htest
  have hTact : (flipPosition
      (s.setInfo pos.market
        { s.getInfo pos.market with
            position_index :=
              iterateIndices pos.market_indices (s.getInfo pos.market).position_index })
      pid now).positions_active = s.positions_active := by
    refine (flipPosition_active ?_).trans rfl
    exact htest
  rw [hred]
  refine ⟨inv_deletePosition _ _ hI2, ?_, ?_, ?_, ?_⟩
  · refine (scalars_testing deletePosition_scalars).trans ?_
    refine (scalars_testing (flipPosition_scalars ?_)).trans ?_
    · exact htest
    · exact htest
  · exact deletePosition_not_active _ _ hI2
  · intro pid' hpne
    rcases deletePosition_active_shape (flipPosition
        (s.setInfo pos.market
          { s.getInfo pos.market with
              position_index :=
                iterateIndices pos.market_indices (s.getInfo pos.market).position_index })
        pid now) pid with hs' | hs'
    · rw [hs', hTact]
    · rw [hs', hTact, List.mem_erase_of_ne hpne]
  · intro pid' hpne hlt
    refine (deletePosition_lookup_other _ hpne).trans ?_
    refine (flipPosition_lookup_other ?_ hpne ?_).trans rfl
    · exact htest
    · exact hlt

theorem tickerCandidates_sub (s : EngineState) (ticker : List (String × TickerInfo))
    (rt now : Int) {pid : Nat} (hm : pid ∈ tickerCandidates s ticker rt now) :
    pid ∈ s.positions_active :=
  (List.mem_filter.mp hm).1

theorem tickerCandidates_isSome (s : EngineState) (ticker : List (String × TickerInfo))
    (rt now : Int) {pid : Nat} (hm : pid ∈ tickerCandidates s ticker rt now) :
    (s.lookupPos pid).isSome = true := by
  have hp := (List.mem_filter.mp hm).2
  cases hsl : s.lookupPos pid with
  | some p => rfl
  | none =>
    rw [tickerPred, hsl] at hp
    exact absurd hp (by simp)

theorem dispatch_clears (ft now : Int) (hft : ¬ (ft < 1 ∨ 5 < ft)) :
    ∀ (L : List Nat) (s : EngineState), s.is_testing = false → EngineInv s →
    L.Nodup → (∀ pid ∈ L, pid ∈ s.positions_active) →
    EngineInv (dispatchFills ft now s L).1 ∧
    (dispatchFills ft now s L).1.is_testing = false ∧
    (∀ pid' ∈ (dispatchFills ft now s L).1.positions_active, pid' ∈ s.positions_active) ∧
    (∀ pid ∈ L, pid ∉ (dispatchFills ft now s L).1.positions_active) ∧
    (∀ pid' ∈ (dispatchFills ft now s L).1.positions_active,
      (dispatchFills ft now s L).1.lookupPos pid' = s.lookupPos pid') ∧
    (dispatchFills ft now s L).1.settings = s.settings ∧
    (dispatchFills ft now s L).1.wss_1000_state = s.wss_1000_state := by
  intro L
  induction L with
  | nil =>
    intro s ht h _ _
    exact ⟨h, ht, fun _ hm => hm, by simp, fun _ _ => rfl, rfl, rfl⟩
  | cons pid rest ih =>
    intro s ht h hnd hsub
    have hapid : pid ∈ s.positions_active := hsub pid (List.mem_cons_self pid rest)
    obtain ⟨pos, hsp⟩ : ∃ pos, s.lookupPos pid = some pos :=
      Option.isSome_iff_exists.mp (alookup_isSome_of_mem _ _
        (h.all_stored pid ((h.mem_all pid).mpr (Or.inr hapid))))
    obtain ⟨hI2, ht2, hnot2, hact2, hlook2⟩ :=
      fillNQ_step s pid pos ft now ht h hft hapid hsp
    have hred : (dispatchFills ft now s (pid :: rest)).1
        = (dispatchFills ft now (fillNQ s pos.order_number ft now) rest).1 := by
      show (dispatchFills ft now
          (fillNQ s (((s.lookupPos pid).map Position.order_number).getD "") ft now) rest).1
        = (dispatchFills ft now (fillNQ s pos.order_number ft now) rest).1
      rw [hsp]
      rfl
    have hpidrest : pid ∉ rest := (List.nodup_cons.mp hnd).1
    have hsub2 : ∀ p ∈ rest, p ∈ (fillNQ s pos.order_number ft now).positions_active := by
      intro p hp
      have hpne : p ≠ pid := fun he => hpidrest (he ▸ hp)
      exact (hact2 p hpne).mpr (hsub p (List.mem_cons_of_mem pid hp))
    have ihr := ih (fillNQ s pos.order_number ft now) ht2 hI2
      (List.nodup_cons.mp hnd).2 hsub2
    obtain ⟨jI, jt, jsub, jclear, jlook, jset, jwss⟩ := ihr
    rw [hred]
    have hfin_sub : ∀ pid' ∈
        (dispatchFills ft now (fillNQ s pos.order_number ft now) rest).1.positions_active,
        pid' ∈ s.positions_active := by
      intro pid' hm
      have hm2 := jsub pid' hm
      have hpne : pid' ≠ pid := fun he => hnot2 (he ▸ hm2)
      exact (hact2 pid' hpne).mp hm2
    refine ⟨jI, jt, hfin_sub, ?_, ?_, ?_, ?_⟩
    · intro p hp
      rcases List.mem_cons.mp hp with rfl | hp
      · intro hmem
        exact hnot2 (jsub p hmem)
      · exact jclear p hp
    · intro pid' hm
      have hm2 := jsub pid' hm
      have hpne : pid' ≠ pid := fun he => hnot2 (he ▸ hm2)
      have hlt : pid' < s.next_pid :=
        h.store_bound pid' (h.all_stored pid'
          ((h.mem_all pid').mpr (Or.inr (hfin_sub pid' hm))))
      exact (jlook pid' hm).trans (hlook2 pid' hpne hlt)
    · exact jset.trans (scalars_settings (fillNQ_scalars ht))
    · exact jwss.trans (scalars_wss (fillNQ_scalars ht))

theorem tickerPred_congr {u v : EngineState} (ticker : List (String × TickerInfo))
    (rt now : Int) (pid : Nat)
    (hlk : u.lookupPos pid = v.lookupPos pid) (hset : u.settings = v.settings) :
    tickerPred u ticker rt now pid = tickerPred v ticker rt now pid := by
  unfold tickerPred
  rw [hlk, hset]

/-- **C7 (amended).**  Ticker idempotence holds only under a distinct-keys
hypothesis: applying `processTicker` twice with the same payload and
request time dispatches nothing on the second application, provided the
engine is in non-test mode, satisfies the bookkeeping invariant, and the
first application's fill candidates have pairwise-distinct
`processFilledOrders` sort keys.  Without that hypothesis the claim is
false: the sorting `QMap` drops equal-key batch members (any two one-time
candidates collide at key 1), the dropped candidate stays active and
outside the safety window, and the second application fills it (see the
counterexample). -/
theorem claim_C7 (s : EngineState) (ticker : List (String × TickerInfo)) (rt now : Int)
    (h : EngineInv s) (htest : s.is_testing = false)
    (hrt : 0 < rt) (hwss : s.wss_1000_state = false)
    (hinj : (tickerCandidates (tickerTop s ticker) ticker rt now).Pairwise
      (fun p q => batchKey (tickerTop s ticker) sortKey1 p ≠
        batchKey (tickerTop s ticker) sortKey1 q)) :
    (processTicker (processTicker s ticker rt now).1 ticker rt now).2 = [] := by
  have hI1 : EngineInv (tickerTop s ticker) := inv_tickerTop s ticker h
  have ht1 : (tickerTop s ticker).is_testing = false :=
    (scalars_testing (tickerTop_scalars s ticker)).trans htest
  have hw1 : (tickerTop s ticker).wss_1000_state = false :=
    (scalars_wss (tickerTop_scalars s ticker)).trans hwss
  have hdef : ∀ pid ∈ tickerCandidates (tickerTop s ticker) ticker rt now,
      ((tickerTop s ticker).lookupPos pid).isSome = true :=
    fun pid hm => tickerCandidates_isSome _ _ _ _ hm
  have hgo := sortBatch_go (tickerTop s ticker) sortKey1
    (tickerCandidates (tickerTop s ticker) ticker rt now) [] hdef hinj
    (by simp) (by simp) (by simp)
  have hperm : ((sortBatch (tickerTop s ticker) sortKey1
      (tickerCandidates (tickerTop s ticker) ticker rt now)).map Prod.snd).Perm
      (tickerCandidates (tickerTop s ticker) ticker rt now) := by
    have h1 := hgo.1
    rw [List.map_nil, List.nil_append] at h1
    exact h1
  have hDnodup : ((sortBatch (tickerTop s ticker) sortKey1
      (tickerCandidates (tickerTop s ticker) ticker rt now)).map Prod.snd).Nodup :=
    hperm.nodup_iff.mpr (List.Nodup.filter _ hI1.active_nodup)
  have hDsub : ∀ p ∈ (sortBatch (tickerTop s ticker) sortKey1
      (tickerCandidates (tickerTop s ticker) ticker rt now)).map Prod.snd,
      p ∈ (tickerTop s ticker).positions_active :=
    fun p hp => tickerCandidates_sub _ _ _ _ (hperm.mem_iff.mp hp)
  obtain ⟨kI, kt, ksub, kclear, klook, kset, kwss⟩ := dispatch_clears 3 now (by decide)
    ((sortBatch (tickerTop s ticker) sortKey1
      (tickerCandidates (tickerTop s ticker) ticker rt now)).map Prod.snd)
    (tickerTop s ticker) ht1 hI1 hDnodup hDsub
  have h1 : (processTicker s ticker rt now).1 =
      (dispatchFills 3 now (tickerTop s ticker)
        ((sortBatch (tickerTop s ticker) sortKey1
          (tickerCandidates (tickerTop s ticker) ticker rt now)).map Prod.snd)).1 := by
    rw [processTicker_eq, if_neg (by omega : ¬ rt ≤ 0), if_neg (by rw [hw1]; simp)]
    rfl
  have hw2 : (tickerTop (processTicker s ticker rt now).1 ticker).wss_1000_state = false := by
    refine (scalars_wss (tickerTop_scalars _ ticker)).trans ?_
    rw [h1]
    exact kwss.trans hw1
  rw [processTicker_eq, if_neg (by omega : ¬ rt ≤ 0), if_neg (by rw [hw2]; simp)]
  have hcand2 : tickerCandidates (tickerTop (processTicker s ticker rt now).1 ticker)
      ticker rt now = [] := by
    rw [tickerCandidates, List.filter_eq_nil_iff]
    intro pid hm
    have hm' : pid ∈ (processTicker s ticker rt now).1.positions_active := by
      rw [← tickerTop_active (processTicker s ticker rt now).1 ticker]
      exact hm
    have hmD : pid ∈ (dispatchFills 3 now (tickerTop s ticker)
        ((sortBatch (tickerTop s ticker) sortKey1
          (tickerCandidates (tickerTop s ticker) ticker rt now)).map
            Prod.snd)).1.positions_active := by
      rw [← h1]
      exact hm'
    have hs1act : pid ∈ (tickerTop s ticker).positions_active := ksub pid hmD
    have hnc : pid ∉ tickerCandidates (tickerTop s ticker) ticker rt now := by
      intro hc
      exact kclear pid (hperm.mem_iff.mpr hc) hmD
    have hlk : (tickerTop (processTicker s ticker rt now).1 ticker).lookupPos pid
        = (tickerTop s ticker).lookupPos pid := by
      rw [tickerTop_lookup, h1]
      exact klook pid hmD
    have hset2 : (tickerTop (processTicker s ticker rt now).1 ticker).settings
        = (tickerTop s ticker).settings := by
      refine (scalars_settings (tickerTop_scalars _ ticker)).trans ?_
      rw [h1]
      exact kset
    rw [tickerCandidates, List.mem_filter] at hnc
    intro hp
    rw [tickerPred_congr ticker rt now pid hlk hset2] at hp
    exact hnc ⟨hs1act, hp⟩
  rw [hcand2]
  rfl

/-- An active one-time sell position, acknowledged as order "A". -/
def c7posA : Position :=
  { market := "m", side := Side.sell, market_indices := [0],
    buy_price := 4, sell_price := 5, buy_price_original := 4, sell_price_original := 5,
    price := 5, quantity := 1, btc_amount := 5, order_number := "A", strategy_tag := "",
    is_onetime := true, is_taker := false, is_landmark := false, is_slippage := false,
    is_cancelling := false, is_new_hilo_order := false,
    order_request_time := 0, order_set_time := 1, order_cancel_time := 0,
    order_getorder_time := 0, max_age_minutes := 0, price_reset_count := 0,
    cancel_reason := CancelReason.cnone }

/-- A second active one-time sell position, acknowledged as order "B". -/
def c7posB : Position :=
  { c7posA with order_number := "B" }

/-- The ticker payload: market "m" quoted at bid 10 / ask 11, crossing both
one-time sells. -/
def c7ticker : List (String × TickerInfo) :=
  [("m", { bid_price := 10, ask_price := 11 })]

/-- A non-test-mode engine state with the single active position `c7posA`. -/
def c7wstate : EngineState :=
  { next_pid := 1, store := [(0, c7posA)], positions_all := [0], positions_queued := [],
    positions_active := [0], positions_by_number := [("A", 0)], market_info := [],
    diverge_converge := [], diverging_converging := [], order_grace_times := [],
    is_running_cancelall := false, cancel_market_filter := "", wss_1000_state := false,
    is_testing := false,
    settings := { request_timeout := 0, cancel_timeout := 0, safety_delay_time := 0,
                  ticker_safety_delay_time := 2000, stray_grace_time_limit := 0,
                  should_clear_stray_orders := false, should_clear_stray_orders_all := false,
                  should_mitigate_blank_orderbook_flash := false },
    events := [] }

theorem c7wstate_inv : EngineInv c7wstate := by
  refine ⟨?_, ?_, ?_, ?_, ?_, ?_, ?_, ?_, ?_, ?_, ?_⟩
  · decide
  · decide
  · decide
  · decide
  · decide
  · intro pid
    show pid ∈ [0] ↔ pid ∈ ([] : List Nat) ∨ pid ∈ [0]
    simp
  · intro pid
    rintro ⟨hq, -⟩
    exact List.not_mem_nil pid hq
  · intro pid hm
    exact hm
  · decide
  · intro pid pos hm hl
    exact absurd hm (List.not_mem_nil pid)
  · intro pid pos hm hl
    have hp : pid = 0 := by simpa [c7wstate] using hm
    subst hp
    have h2 : some c7posA = some pos := hl
    obtain rfl := (Option.some.inj h2).symm
    exact ⟨by decide, by decide⟩

/-- Witness instantiating `claim_C7` on `c7wstate`: a single crossed
one-time candidate is dispatched by the first application and the second
application dispatches nothing. -/
theorem claim_C7_witness :
    (processTicker (processTicker c7wstate c7ticker 5000 5000).1 c7ticker 5000 5000).2
      = [] :=
  claim_C7 c7wstate c7ticker 5000 5000 c7wstate_inv rfl (by decide) rfl (by decide)

/-- A non-test-mode engine state with the two active one-time positions
`c7posA` and `c7posB`. -/
def c7state : EngineState :=
  { next_pid := 2, store := [(0, c7posA), (1, c7posB)], positions_all := [0, 1],
    positions_queued := [], positions_active := [0, 1],
    positions_by_number := [("A", 0), ("B", 1)], market_info := [],
    diverge_converge := [], diverging_converging := [], order_grace_times := [],
    is_running_cancelall := false, cancel_market_filter := "", wss_1000_state := false,
    is_testing := false,
    settings := { request_timeout := 0, cancel_timeout := 0, safety_delay_time := 0,
                  ticker_safety_delay_time := 2000, stray_grace_time_limit := 0,
                  should_clear_stray_orders := false, should_clear_stray_orders_all := false,
                  should_mitigate_blank_orderbook_flash := false },
    events := [] }

theorem c7state_inv : EngineInv c7state := by
  refine ⟨?_, ?_, ?_, ?_, ?_, ?_, ?_, ?_, ?_, ?_, ?_⟩
  · decide
  · decide
  · decide
  · decide
  · decide
  · intro pid
    show pid ∈ [0, 1] ↔ pid ∈ ([] : List Nat) ∨ pid ∈ [0, 1]
    simp
  · intro pid
    rintro ⟨hq, -⟩
    exact List.not_mem_nil pid hq
  · intro pid hm
    exact hm
  · decide
  · intro pid pos hm hl
    exact absurd hm (List.not_mem_nil pid)
  · intro pid pos hm hl
    have hm2 : pid = 0 ∨ pid = 1 := by simpa [c7state] using hm
    rcases hm2 with rfl | rfl
    · have h2 : some c7posA = some pos := hl
      obtain rfl := (Option.some.inj h2).symm
      exact ⟨by decide, by decide⟩
    · have h2 : some c7posB = some pos := hl
      obtain rfl := (Option.some.inj h2).symm
      exact ⟨by decide, by decide⟩

/-- Counterexample to C7 as stated: on `c7state`, both one-time positions
are crossed by the same ticker and both are outside the safety window, but
their sort keys collide at `CoinAmount::COIN = 1`, so the sorting `QMap`
keeps only position 1 and the first application fills only order "B".
Position 0 stays active with its old `order_set_time`, and the second
application with the identical payload fills order "A" — the second pass
is not empty, refuting the claimed idempotence. -/
theorem claim_C7_counterexample :
    EngineInv c7state ∧ c7state.is_testing = false ∧
    (processTicker c7state c7ticker 5000 5000).2 = ["B"] ∧
    (processTicker (processTicker c7state c7ticker 5000 5000).1 c7ticker 5000 5000).2
      = ["A"] :=
  ⟨c7state_inv, rfl, by decide, by decide⟩

end Trader
